import Mathlib

/-!
# Matrix_Project: a shallow embedding of `src/matrix/matrix.c`

The C functions of `matrix.c` are transcribed as Lean functions.

* A `Matrix*` argument is an `Option (Matrix α)`; `none` is the `NULL` pointer.
* `Matrix.data` is `none` for `NULL`, otherwise the array of row pointers. A row
  pointer is uninitialised (fresh from `malloc`), `NULL`, or a row buffer; a cell
  of a row buffer is `none` while it is uninitialised.
* The element type `MATRIX_TYPE` comes from `matrix.h`; it is the parameter `α`.
  The functions ask of it only the operations they use (`0`, `1`, `+`, `-`, `*`,
  unary `-`) and no law, so the order of every accumulation is part of their
  value; statements that need laws take `α` to be a ring.
* `World` carries what the functions share with their environment: the outcomes
  of the coming `malloc` calls and the lines `print_error` wrote to `stderr`.
* A function returns `Except Fault _`: `Fault.undefined_behaviour` stands for an
  access C leaves undefined (a `NULL` or out-of-range dereference, a read of an
  uninitialised cell, `free` of an uninitialised pointer).
* Operands and result of the arithmetic functions are passed by value: they are
  distinct objects owning their storage.
* `rows`, `cols` and the loop counters are C `int`s, held as `Int`/`Nat`. The
  only `int` expressions that can leave the 32-bit range are the products and
  sums of the flat conversions (`rows * cols`, `index_row * cols + index_col`);
  `int_value` makes such a signed overflow a fault.
* File input and output (`output.c`) are outside: what the loader returned and
  the writer function are parameters.
-/

namespace MatrixProject

/-- The enumeration `error_code` of `errors.h`. -/
inductive error_code where
  | ERROR_OK
  | ERROR_NULL_PTR
  | ERROR_SIZE_MATRIX
  | ERROR_MEMORY_ALLOCATION
  | ERROR_FILE_IO
  | ERROR_MATRIX_NOT_SQUARE
  | ERROR_INVALID_DIMENSIONS
  | ERROR_UNKNOWN
  deriving DecidableEq, Repr

/-- The ways an embedded function can fail to return a value. -/
inductive Fault where
  | undefined_behaviour
  | out_of_fuel
  deriving DecidableEq, Repr

/-- The environment: pending `malloc` outcomes (an exhausted list means every
further call succeeds) and the diagnostics written by `print_error`. -/
structure World where
  heap : List Bool
  log : List (error_code × String)
  deriving DecidableEq, Repr

/-- The function `print_error` of `errors.c`: one line on `stderr`, holding the
code and the name of the function. -/
def print_error (code : error_code) (function : String) (w : World) : World :=
  { w with log := w.log ++ [(code, function)] }

/-- One call of `malloc`: `true` when it returns a non-`NULL` block. -/
def malloc (w : World) : Bool × World :=
  match w.heap with
  | [] => (true, w)
  | b :: rest => (b, { w with heap := rest })

/-- A row pointer `MATRIX_TYPE*` stored in `data[i]`. -/
inductive RowPtr (α : Type) where
  | uninit
  | null
  | buf (cells : List (Option α))
  deriving DecidableEq, Repr

/-- The struct `Matrix` of `matrix.h`: `{ int rows; int cols; MATRIX_TYPE** data; }`. -/
structure Matrix (α : Type) where
  rows : Int
  cols : Int
  data : Option (List (RowPtr α))
  deriving DecidableEq, Repr

variable {α : Type}

/-- The empty matrix `{0, 0, NULL}`. -/
def sentinel : Matrix α := ⟨0, 0, none⟩

/-- The loop `for (i = lo; i < lo + count; i++) body`, threading the state. -/
def for_loop {σ : Type} (body : Nat → σ → Except Fault σ) (lo : Nat) :
    Nat → σ → Except Fault σ
  | 0, s => .ok s
  | k + 1, s => (for_loop body lo k s).bind (body (lo + k))

/-- The read `m.data[i][j]`. -/
def Matrix.read (m : Matrix α) (i j : Nat) : Except Fault α :=
  match m.data with
  | none => .error .undefined_behaviour
  | some d =>
    match d[i]? with
    | some (.buf cells) =>
      match cells[j]? with
      | some (some v) => .ok v
      | _ => .error .undefined_behaviour
    | _ => .error .undefined_behaviour

/-- The write `m.data[i][j] = v`. -/
def Matrix.write (m : Matrix α) (i j : Nat) (v : α) : Except Fault (Matrix α) :=
  match m.data with
  | none => .error .undefined_behaviour
  | some d =>
    match d[i]? with
    | some (.buf cells) =>
      if j < cells.length then
        .ok { m with data := some (d.set i (.buf (cells.set j (some v)))) }
      else .error .undefined_behaviour
    | _ => .error .undefined_behaviour

/-- The call `free (data[i])` on the row pointer array `d`: defined for a row
buffer and for `NULL`. -/
def free_row (d : List (RowPtr α)) (i : Nat) : Except Fault Unit :=
  match d[i]? with
  | some (.buf _) => .ok ()
  | some .null => .ok ()
  | _ => .error .undefined_behaviour

/-- State of the row allocation loop of `create_matrix`: the row pointer array,
the flag `res` and the environment. -/
structure AllocState (α : Type) where
  data : List (RowPtr α)
  res : Bool
  world : World

/-- Body of `for (index_row = 0; index_row < rows && res; index_row++)` in
`create_matrix`; once `res` is `0` the loop has ended, so the state stays. -/
def alloc_row (cols : Int) (index_row : Nat) (s : AllocState α) :
    Except Fault (AllocState α) :=
  if s.res then
    if index_row < s.data.length then
      match malloc s.world with
      | (true, w1) =>
        .ok ⟨s.data.set index_row (.buf (List.replicate cols.toNat none)), true, w1⟩
      | (false, w1) =>
        .ok ⟨s.data.set index_row .null, false,
          print_error .ERROR_MEMORY_ALLOCATION "create_matrix" w1⟩
    else .error .undefined_behaviour
  else .ok s

/-- Body of the clean-up loop of `create_matrix`:
`if (mat.data[index_row] != NULL) free (mat.data[index_row]);`. -/
def cleanup_row (d : List (RowPtr α)) (index_row : Nat) (_ : Unit) : Except Fault Unit :=
  match d[index_row]? with
  | some (.buf _) => .ok ()
  | some .null => .ok ()
  | _ => .error .undefined_behaviour

/-- The function `create_matrix`. -/
def create_matrix (rows cols : Int) (w : World) : Except Fault (Matrix α × World) :=
  if rows ≤ 0 ∨ cols ≤ 0 then
    -- res = 0; mat is still {0, 0, NULL}: the clean-up only resets the fields
    .ok (⟨0, 0, none⟩, print_error .ERROR_INVALID_DIMENSIONS "create_matrix" w)
  else
    match malloc w with
    | (false, w1) =>
      .ok (⟨0, 0, none⟩, print_error .ERROR_MEMORY_ALLOCATION "create_matrix" w1)
    | (true, w1) =>
      match for_loop (alloc_row cols) 0 rows.toNat
          (⟨List.replicate rows.toNat .uninit, true, w1⟩ : AllocState α) with
      | .error e => .error e
      | .ok s =>
        if s.res then .ok (⟨rows, cols, some s.data⟩, s.world)
        else
          match for_loop (cleanup_row s.data) 0 rows.toNat () with
          | .error e => .error e
          | .ok _ => .ok (⟨0, 0, none⟩, s.world)

/-- The function `free_matrix`. The condition reads `matrix->data` before it
tests `matrix`, so a `NULL` argument is a `NULL` dereference. -/
def free_matrix (matrix : Option (Matrix α)) : Except Fault (Matrix α) :=
  match matrix with
  | none => .error .undefined_behaviour
  | some m =>
    match m.data with
    | none => .ok m
    | some d =>
      match for_loop (fun index_row _ => free_row d index_row) 0 m.rows.toNat () with
      | .error e => .error e
      | .ok _ => .ok ⟨0, 0, none⟩

section Arithmetic

/-- Body of the inner loop of `add_matrices`:
`result->data[i][j] = A->data[i][j] + B->data[i][j]`. -/
def add_cell [Add α] (A B : Matrix α) (index_row index_col : Nat) (result : Matrix α) :
    Except Fault (Matrix α) :=
  match A.read index_row index_col, B.read index_row index_col with
  | .ok x, .ok y => result.write index_row index_col (x + y)
  | _, _ => .error .undefined_behaviour

/-- Body of the inner loop of `subtract_matrices`:
`result->data[i][j] = A->data[i][j] - B->data[i][j]`. -/
def sub_cell [Sub α] (A B : Matrix α) (index_row index_col : Nat) (result : Matrix α) :
    Except Fault (Matrix α) :=
  match A.read index_row index_col, B.read index_row index_col with
  | .ok x, .ok y => result.write index_row index_col (x - y)
  | _, _ => .error .undefined_behaviour

/-- The function `add_matrices`: the status, the state of `*result` after the
call, and the environment. -/
def add_matrices [Add α] (A B result : Option (Matrix α)) (w : World) :
    Except Fault (Int × Option (Matrix α) × World) :=
  match A, B, result with
  | some a, some b, some r =>
    if a.rows ≠ b.rows ∨ a.cols ≠ b.cols then
      .ok (-1, some r, print_error .ERROR_INVALID_DIMENSIONS "add_matrices" w)
    else
      match for_loop (fun index_row => for_loop (add_cell a b index_row) 0 a.cols.toNat)
          0 a.rows.toNat r with
      | .error e => .error e
      | .ok r1 => .ok (0, some r1, w)
  | _, _, _ => .ok (-1, result, print_error .ERROR_NULL_PTR "add_matrices" w)

/-- The function `subtract_matrices`. -/
def subtract_matrices [Sub α] (A B result : Option (Matrix α)) (w : World) :
    Except Fault (Int × Option (Matrix α) × World) :=
  match A, B, result with
  | some a, some b, some r =>
    if a.rows ≠ b.rows ∨ a.cols ≠ b.cols then
      .ok (-1, some r, print_error .ERROR_INVALID_DIMENSIONS "subtract_matrices" w)
    else
      match for_loop (fun index_row => for_loop (sub_cell a b index_row) 0 a.cols.toNat)
          0 a.rows.toNat r with
      | .error e => .error e
      | .ok r1 => .ok (0, some r1, w)
  | _, _, _ => .ok (-1, result, print_error .ERROR_NULL_PTR "subtract_matrices" w)

/-- Body of the innermost loop of `multiply_matrices`:
`sum += A->data[index_row][k] * B->data[k][index_col]`. -/
def mul_step [Add α] [Mul α] (A B : Matrix α) (index_row index_col k : Nat) (sum : α) : Except Fault α :=
  match A.read index_row k, B.read k index_col with
  | .ok x, .ok y => .ok (sum + x * y)
  | _, _ => .error .undefined_behaviour

/-- Body of the middle loop of `multiply_matrices`: `sum = 0`, the loop on `k`,
then `result->data[index_row][index_col] = sum`. -/
def mul_cell [Zero α] [Add α] [Mul α] (A B : Matrix α) (index_row index_col : Nat) (result : Matrix α) :
    Except Fault (Matrix α) :=
  match for_loop (mul_step A B index_row index_col) 0 A.cols.toNat 0 with
  | .error e => .error e
  | .ok sum => result.write index_row index_col sum

/-- The function `multiply_matrices`. -/
def multiply_matrices [Zero α] [Add α] [Mul α] (A B result : Option (Matrix α)) (w : World) :
    Except Fault (Int × Option (Matrix α) × World) :=
  match A, B, result with
  | some a, some b, some r =>
    if a.cols ≠ b.rows then
      .ok (1, some r, print_error .ERROR_SIZE_MATRIX "multiply_matrices" w)
    else
      match for_loop (fun index_row => for_loop (mul_cell a b index_row) 0 b.cols.toNat)
          0 a.rows.toNat r with
      | .error e => .error e
      | .ok r1 => .ok (0, some r1, w)
  | _, _, _ => .ok (1, result, print_error .ERROR_NULL_PTR "multiply_matrices" w)

end Arithmetic

/-- Body of the inner loop of `transpose_matrix`:
`res.data[index_col][index_row] = matrix->data[index_row][index_col]`. -/
def transpose_cell (m : Matrix α) (index_row index_col : Nat) (res : Matrix α) :
    Except Fault (Matrix α) :=
  match m.read index_row index_col with
  | .ok v => res.write index_col index_row v
  | .error e => .error e

/-- The function `transpose_matrix`. -/
def transpose_matrix (matrix : Option (Matrix α)) (w : World) :
    Except Fault (Matrix α × World) :=
  match matrix with
  | none => .ok (⟨0, 0, none⟩, print_error .ERROR_INVALID_DIMENSIONS "transpose_matrix" w)
  | some m =>
    if ¬ (0 < m.rows ∧ 0 < m.cols) then
      .ok (⟨0, 0, none⟩, print_error .ERROR_INVALID_DIMENSIONS "transpose_matrix" w)
    else
      match create_matrix m.cols m.rows w with
      | .error e => .error e
      | .ok (res, w1) =>
        match res.data with
        | none => .ok (res, print_error .ERROR_MEMORY_ALLOCATION "transpose_matrix" w1)
        | some _ =>
          match for_loop (fun index_row => for_loop (transpose_cell m index_row) 0 m.cols.toNat)
              0 m.rows.toNat res with
          | .error e => .error e
          | .ok res1 => .ok (res1, w1)

section Determinant

variable [Zero α] [One α] [Neg α] [Add α] [Sub α] [Mul α]

/-- Body of the loop on `k` that fills one row of the minor in `determinant`:
`if (k != index_col) submat.data[index_row - 1][subcol_index++] = matrix->data[index_row][k];`
The state is the minor and `subcol_index`. -/
def minor_cell (m : Matrix α) (index_col index_row k : Nat) (s : Matrix α × Nat) :
    Except Fault (Matrix α × Nat) :=
  if k ≠ index_col then
    match m.read index_row k with
    | .error e => .error e
    | .ok v =>
      match s.1.write (index_row - 1) s.2 v with
      | .error e => .error e
      | .ok sub => .ok (sub, s.2 + 1)
  else .ok s

/-- Body of the loop on `index_row` that fills the minor: `subcol_index = 0`,
then the loop on `k` from `0` to `n - 1`. -/
def minor_row (m : Matrix α) (n index_col index_row : Nat) (submat : Matrix α) :
    Except Fault (Matrix α) :=
  match for_loop (minor_cell m index_col index_row) 0 n (submat, 0) with
  | .error e => .error e
  | .ok s => .ok s.1

/-- Body of the loop on `index_col` in `determinant`; `self` is the recursive
call, the state is `det` and the environment. -/
def determinant_term (self : Option (Matrix α) → World → Except Fault (α × World))
    (m : Matrix α) (index_col : Nat) (s : α × World) : Except Fault (α × World) :=
  match create_matrix (m.rows - 1) (m.rows - 1) s.2 with
  | .error e => .error e
  | .ok (submat, w1) =>
    match submat.data with
    | none => .ok (s.1, print_error .ERROR_MEMORY_ALLOCATION "determinant" w1)
    | some _ =>
      match for_loop (minor_row m m.rows.toNat index_col) 1 (m.rows.toNat - 1) submat with
      | .error e => .error e
      | .ok filled =>
        match self (some filled) w1 with
        | .error e => .error e
        | .ok (sub_det, w2) =>
          match m.read 0 index_col with
          | .error e => .error e
          | .ok v =>
            match free_matrix (some filled) with
            | .error e => .error e
            | .ok _ => .ok (s.1 + (if index_col % 2 = 0 then 1 else -1) * v * sub_det, w2)

/-- The body of `determinant`, its recursive call being `self`. -/
def determinant_body (self : Option (Matrix α) → World → Except Fault (α × World))
    (matrix : Option (Matrix α)) (w : World) : Except Fault (α × World) :=
  match matrix with
  | none => .ok (0, print_error .ERROR_MATRIX_NOT_SQUARE "determinant" w)
  | some m =>
    if ¬ (m.rows = m.cols ∧ 0 < m.rows) then
      .ok (0, print_error .ERROR_MATRIX_NOT_SQUARE "determinant" w)
    else if m.rows = 1 then
      match m.read 0 0 with
      | .ok a => .ok (a, w)
      | .error e => .error e
    else if m.rows = 2 then
      match m.read 0 0, m.read 1 1, m.read 0 1, m.read 1 0 with
      | .ok a, .ok d, .ok b, .ok c => .ok (a * d - b * c, w)
      | _, _, _, _ => .error .undefined_behaviour
    else
      for_loop (determinant_term self m) 0 m.rows.toNat (0, w)

/-- The recursion of `determinant` unfolded `fuel` levels deep: a recursive call
below the last level is `Fault.out_of_fuel`. -/
def determinant_fuel : Nat → Option (Matrix α) → World → Except Fault (α × World)
  | 0 => determinant_body (fun _ _ => .error .out_of_fuel)
  | fuel + 1 => determinant_body (determinant_fuel fuel)

/-- The function `determinant`. The recursion is on a minor one smaller than the
matrix, so `rows` levels are allowed for. -/
def determinant (matrix : Option (Matrix α)) (w : World) : Except Fault (α × World) :=
  determinant_fuel (match matrix with | some m => m.rows.toNat | none => 0) matrix w

end Determinant

/-! ## The minor fill of `determinant` with its accesses recorded -/

/-- One element access of the minor fill: a read `matrix->data[row][col]` or a
write `submat.data[row][col] = ...`. -/
inductive Access where
  | read (row col : Nat)
  | write (row col : Nat)
  deriving DecidableEq, Repr

/-- State of the loop on `k` of the minor fill: the minor, `subcol_index` and the
accesses made so far. -/
structure MinorState (α : Type) where
  submat : Matrix α
  subcol_index : Nat
  trace : List Access

/-- The body `minor_cell` of the loop on `k`, recording its accesses:
`if (k != index_col) submat.data[index_row - 1][subcol_index++] = matrix->data[index_row][k];`
reads `matrix->data[index_row][k]` and writes
`submat.data[index_row - 1][subcol_index]`. -/
def minor_cell_traced (m : Matrix α) (index_col index_row k : Nat) (s : MinorState α) :
    Except Fault (MinorState α) :=
  if k ≠ index_col then
    match m.read index_row k with
    | .error e => .error e
    | .ok v =>
      match s.submat.write (index_row - 1) s.subcol_index v with
      | .error e => .error e
      | .ok sub =>
        .ok ⟨sub, s.subcol_index + 1,
          s.trace ++ [.read index_row k, .write (index_row - 1) s.subcol_index]⟩
  else .ok s

/-- The body `minor_row` of the loop on `index_row`, recording its accesses. -/
def minor_row_traced (m : Matrix α) (n index_col index_row : Nat)
    (s : Matrix α × List Access) : Except Fault (Matrix α × List Access) :=
  match for_loop (minor_cell_traced m index_col index_row) 0 n ⟨s.1, 0, s.2⟩ with
  | .error e => .error e
  | .ok t => .ok (t.submat, t.trace)

/-- The minor fill of `determinant` for the column `index_col`, the loop on
`index_row` from `1` to `n - 1`, recording its accesses from an empty record. -/
def minor_fill_traced (m : Matrix α) (n index_col : Nat) (submat : Matrix α) :
    Except Fault (Matrix α × List Access) :=
  for_loop (minor_row_traced m n index_col) 1 (n - 1) (submat, [])

/-- The access is a write into the row `i`. -/
def Access.isWriteRow (i : Nat) : Access → Bool
  | .write row _ => row == i
  | .read _ _ => false

/-- The record `tr` of a minor fill that has completed the rows before `t` and
made `j` writes in row `t`, for an `n × n` matrix: reads are inside the matrix,
writes inside the minor, the cells of the completed rows and the first `j` cells
of row `t` were written once and no other cell was written, and a row received
`n - 1` writes when completed, `j` when current, none otherwise. -/
def TraceOk (n t j : Nat) (tr : List Access) : Prop :=
  (∀ i1 j1, Access.read i1 j1 ∈ tr → i1 < n ∧ j1 < n) ∧
  (∀ i1 j1, Access.write i1 j1 ∈ tr → i1 < n - 1 ∧ j1 < n - 1) ∧
  (∀ a b, tr.count (Access.write a b) =
    if (a < t ∧ b < n - 1) ∨ (a = t ∧ b < j) then 1 else 0) ∧
  (∀ a, (tr.filter (Access.isWriteRow a)).length =
    if a < t then n - 1 else if a = t then j else 0)

/-! ## Flat conversions (`load_matrix_from_file`, `save_matrix_to_file`) -/

/-- The largest `int` (32 bits). -/
def INT_MAX : Int := 2147483647

/-- The smallest `int` (32 bits). -/
def INT_MIN : Int := -2147483648

/-- The result of an `int` operation whose exact value is `x`: a value out of
the `int` range is a signed overflow, which C leaves undefined. -/
def int_value (x : Int) : Except Fault Int :=
  if INT_MIN ≤ x ∧ x ≤ INT_MAX then .ok x else .error .undefined_behaviour

/-- The flat index `index_row * cols + index_col`, computed in `int` and used as
an array index. -/
def flat_index (index_row : Nat) (cols : Int) (index_col : Nat) : Except Fault Nat :=
  match int_value ((index_row : Int) * cols) with
  | .error e => .error e
  | .ok p =>
    match int_value (p + (index_col : Int)) with
    | .error e => .error e
    | .ok q => if 0 ≤ q then .ok q.toNat else .error .undefined_behaviour

/-- Body of the inner loop of `load_matrix_from_file`:
`mat.data[index_row][index_col] = data[index_row * cols + index_col]`. -/
def load_cell (cols : Int) (data : List α) (index_row index_col : Nat) (mat : Matrix α) :
    Except Fault (Matrix α) :=
  match flat_index index_row cols index_col with
  | .error e => .error e
  | .ok k =>
    match data[k]? with
    | none => .error .undefined_behaviour
    | some v => mat.write index_row index_col v

/-- The function `load_matrix_from_file`. The argument `loaded` is what
`output_load_matrix_from_file` returned: `none` for `NULL`, otherwise `rows`,
`cols` and the flat array it read. When `res` is `0` the matrix has no storage,
so the closing `free_matrix` branch is never taken. -/
def load_matrix_from_file (loaded : Option (Int × Int × List α)) (w : World) :
    Except Fault (Matrix α × World) :=
  match loaded with
  | none => .ok (⟨0, 0, none⟩, print_error error_code.ERROR_FILE_IO "load_matrix_from_file" w)
  | some (rows, cols, data) =>
    match create_matrix rows cols w with
    | .error e => .error e
    | .ok (mat, w1) =>
      match mat.data with
      | none => .ok (mat, print_error .ERROR_MEMORY_ALLOCATION "load_matrix_from_file" w1)
      | some _ =>
        match for_loop (fun index_row => for_loop (load_cell cols data index_row) 0 cols.toNat)
            0 rows.toNat mat with
        | .error e => .error e
        | .ok mat1 => .ok (mat1, w1)

/-- Body of the inner loop of `save_matrix_to_file`:
`data[index_row * matrix->cols + index_col] = matrix->data[index_row][index_col]`. -/
def save_cell (m : Matrix α) (index_row index_col : Nat) (data : List (Option α)) :
    Except Fault (List (Option α)) :=
  match flat_index index_row m.cols index_col with
  | .error e => .error e
  | .ok k =>
    match m.read index_row index_col with
    | .error e => .error e
    | .ok v => if k < data.length then .ok (data.set k (some v)) else .error .undefined_behaviour

/-- The function `save_matrix_to_file`. The argument `output_save` is the writer
`output_save_matrix_to_file` applied to the file name: from `rows`, `cols` and
the flat array to its status. The flat array has `rows * cols` cells, a product
computed in `int`. -/
def save_matrix_to_file (matrix : Option (Matrix α))
    (output_save : Int → Int → List (Option α) → Int) (w : World) : Except Fault (Int × World) :=
  match matrix with
  | none => .ok (-1, print_error .ERROR_NULL_PTR "save_matrix_to_file" w)
  | some m =>
    match m.data with
    | none => .ok (-1, print_error .ERROR_NULL_PTR "save_matrix_to_file" w)
    | some _ =>
      match int_value (m.rows * m.cols) with
      | .error e => .error e
      | .ok count =>
        match malloc w with
        | (false, w1) => .ok (-1, print_error .ERROR_MEMORY_ALLOCATION "save_matrix_file" w1)
        | (true, w1) =>
          match for_loop (fun index_row => for_loop (save_cell m index_row) 0 m.cols.toNat)
              0 m.rows.toNat (List.replicate count.toNat none) with
          | .error e => .error e
          | .ok data => .ok (output_save m.rows m.cols data, w1)

/-! ## Vocabulary of the statements -/

/-- Content of the cell `(i, j)`: `none` when there is no such cell or it holds
no value yet. -/
def Matrix.cell (m : Matrix α) (i j : Nat) : Option α :=
  match m.data with
  | none => none
  | some d =>
    match d[i]? with
    | some (.buf cells) => (cells[j]?).join
    | _ => none

/-- Value of the cell `(i, j)` of a matrix whose cells hold values. -/
def Matrix.get [Zero α] (m : Matrix α) (i j : Nat) : α :=
  (m.cell i j).getD 0

/-- The matrix owns storage matching its positive `rows` and `cols`: `rows` row
buffers of `cols` cells each. The cells need not hold values yet. -/
def Matrix.allocated (m : Matrix α) : Bool :=
  decide (0 < m.rows) && decide (0 < m.cols) &&
    match m.data with
    | none => false
    | some d =>
      d.length == m.rows.toNat &&
        d.all fun p =>
          match p with
          | .buf cells => cells.length == m.cols.toNat
          | _ => false

/-- Every cell of every row buffer holds a value. -/
def Matrix.initialised (m : Matrix α) : Bool :=
  match m.data with
  | none => false
  | some d =>
    d.all fun p =>
      match p with
      | .buf cells => cells.all Option.isSome
      | _ => false

/-- A well-formed matrix: allocated, and every cell holds a value. -/
def Matrix.wellFormed (m : Matrix α) : Bool :=
  m.allocated && m.initialised

/-- The matrix of `r` rows and `c` columns whose cell `(i, j)` holds `g i j`. -/
def Matrix.ofCells (r c : Nat) (g : Nat → Nat → Option α) : Matrix α :=
  ⟨r, c, some ((List.range r).map fun i => .buf ((List.range c).map (g i)))⟩

/-- The cell function after the write of `v` at `(i, j)`. -/
def upd (g : Nat → Nat → Option α) (i j : Nat) (v : α) : Nat → Nat → Option α :=
  fun a b => if a = i ∧ b = j then some v else g a b

/-- Every pending `malloc` succeeds. -/
def World.allocOk (w : World) : Bool := w.heap.all id

/-- The codes signalled between the environments `w` and `w1`. -/
def signalled (w w1 : World) : List (error_code × String) :=
  w1.log.drop w.log.length

/-- The sum of `term 0`, ..., `term (n - 1)`, accumulated in index order from `0`:
`sum = 0; for (k = 0; k < n; k++) sum += term k`. -/
def sum_upto [Zero α] [Add α] (term : Nat → α) : Nat → α
  | 0 => 0
  | k + 1 => sum_upto term k + term k

/-- Cells during a row-major fill that has reached row `i`, column `j`: the
rows before `i` (their first `C` cells) and the first `j` cells of row `i` hold
`val`, every other cell is as in `g`. -/
def fillRM (C : Nat) (val : Nat → Nat → α) (g : Nat → Nat → Option α) (i j : Nat) :
    Nat → Nat → Option α :=
  fun a b => if (a < i ∧ b < C) ∨ (a = i ∧ b < j) then some (val a b) else g a b

/-- The matrix is the sentinel `{0, 0, NULL}`. -/
def Matrix.isSentinel (m : Matrix α) : Bool :=
  m.rows == 0 && m.cols == 0 && m.data.isNone

/-- A state of the data model: an allocated matrix or the sentinel. -/
def Matrix.isState (m : Matrix α) : Bool :=
  m.allocated || m.isSentinel

/-- The environment `w1` extends the log of `w` by lines that are all `e0`. -/
def LogGrows (w w1 : World) (e0 : error_code × String) : Prop :=
  ∃ extra, w1.log = w.log ++ extra ∧ ∀ e ∈ extra, e = e0

/-- The minor of `f` for column `c`: row `0` and column `c` removed, the other
rows and columns in their order. -/
def minor (f : Nat → Nat → α) (c : Nat) : Nat → Nat → α :=
  fun i j => f (i + 1) (if j < c then j else j + 1)

/-- The Laplace recurrence along row `0` as the specification words it: the
single element for `n = 1`, `a * d - b * c` for `n = 2`, and for `n > 2` the sum
over the columns `c`, accumulated from `0` in index order, of
`sign c * f 0 c * laplace (n - 1) (minor f c)`. -/
def laplace [Zero α] [One α] [Neg α] [Add α] [Sub α] [Mul α] : Nat → (Nat → Nat → α) → α
  | 0, _ => 0
  | 1, f => f 0 0
  | 2, f => f 0 0 * f 1 1 - f 0 1 * f 1 0
  | n + 3, f =>
    sum_upto (fun c => (if c % 2 = 0 then 1 else -1) * f 0 c * laplace (n + 2) (minor f c))
      (n + 3)

/-- Value of `subcol_index` when the loop on `k` of the minor fill reaches `k`,
for the removed column `c`. -/
def subcol (c k : Nat) : Nat := if k ≤ c then k else k - 1

/-- What the recursive call of `determinant` does on a well-formed `k × k`
matrix when no allocation fails: it returns the Laplace value and signals
nothing. -/
def SelfOk [Zero α] [One α] [Neg α] [Add α] [Sub α] [Mul α]
    (self : Option (Matrix α) → World → Except Fault (α × World)) (k : Nat) :
    Prop :=
  ∀ (f : Nat → Nat → α) (w : World), w.allocOk = true →
    ∃ w1, self (some (Matrix.ofCells k k fun a b => some (f a b))) w = .ok (laplace k f, w1) ∧
      w1.allocOk = true ∧ w1.log = w.log

/-! ## Concrete inputs -/

/-- An environment with unlimited memory and an empty log. -/
def exW : World := ⟨[], []⟩

/-- The matrix `[[1, 2], [3, 4]]`. -/
def exA : Matrix Int := ⟨2, 2, some [.buf [some 1, some 2], .buf [some 3, some 4]]⟩

/-- The matrix `[[5, 6], [7, 8]]`. -/
def exB : Matrix Int := ⟨2, 2, some [.buf [some 5, some 6], .buf [some 7, some 8]]⟩

/-- A `2 × 2` result matrix fresh from `create_matrix`. -/
def exR : Matrix Int := ⟨2, 2, some [.buf [none, none], .buf [none, none]]⟩

/-- The `2 × 3` matrix `[[1, 2, 3], [4, 5, 6]]`. -/
def exM : Matrix Int :=
  ⟨2, 3, some [.buf [some 1, some 2, some 3], .buf [some 4, some 5, some 6]]⟩

/-- The matrix `[[2, 0, 0], [0, 3, 0], [0, 0, 4]]`. -/
def exD : Matrix Int :=
  ⟨3, 3, some [.buf [some 2, some 0, some 0], .buf [some 0, some 3, some 0],
    .buf [some 0, some 0, some 4]]⟩

/-- The `1 × 1` matrix `[[5]]`. -/
def exS : Matrix Int := ⟨1, 1, some [.buf [some 5]]⟩

/-- A well-formed `65536 × 65536` matrix of zeros: `rows * cols` is `2 ^ 32`. -/
def exBig : Matrix Int := Matrix.ofCells 65536 65536 (fun _ _ => some 0)

/-- The flat array `1, 2, 3, 4, 5, 6`. -/
def exFlat : List Int := [1, 2, 3, 4, 5, 6]

/-- The matrix `Identity(n)` of the specification: `n × n`, `1` on the diagonal
and `0` elsewhere. -/
def identity [Ring α] (n : Nat) : Matrix α :=
  Matrix.ofCells n n (fun i j => some (if i = j then 1 else 0))

/-- The minor of the matrix `M` for column `c` as the specification words it:
the `(n - 1) × (n - 1)` matrix with `minor_c[i][j] = M[i+1][j]` if `j < c` and
`M[i+1][j+1]` if `j >= c`. -/
def minor_matrix [Zero α] (M : Matrix α) (n c : Nat) : Matrix α :=
  Matrix.ofCells (n - 1) (n - 1)
    (fun i j => some (if j < c then M.get (i + 1) j else M.get (i + 1) (j + 1)))

/-- The `3 × 2` matrix `[[1, 0], [2, 1], [0, 3]]`. -/
def exN : Matrix Int :=
  ⟨3, 2, some [.buf [some 1, some 0], .buf [some 2, some 1], .buf [some 0, some 3]]⟩

/-- Expressions over the operations of the element type, subject to no law: a
computation in `Sym` returns the expression it evaluated, with the order and the
grouping of its operands. -/
inductive Sym where
  | zero
  | one
  | var (name : Nat)
  | add (x y : Sym)
  | sub (x y : Sym)
  | mul (x y : Sym)
  | neg (x : Sym)
  deriving DecidableEq, Repr

instance : Zero Sym := ⟨Sym.zero⟩

instance : One Sym := ⟨Sym.one⟩

instance : Add Sym := ⟨Sym.add⟩

instance : Sub Sym := ⟨Sym.sub⟩

instance : Mul Sym := ⟨Sym.mul⟩

instance : Neg Sym := ⟨Sym.neg⟩

/-- The `1 × 2` matrix `[[x0, x1]]` of symbols. -/
def symA : Matrix Sym := ⟨1, 2, some [.buf [some (.var 0), some (.var 1)]]⟩

/-- The `2 × 1` matrix `[[x2], [x3]]` of symbols. -/
def symB : Matrix Sym := ⟨2, 1, some [.buf [some (.var 2)], .buf [some (.var 3)]]⟩

/-- A `1 × 1` result matrix fresh from `create_matrix`. -/
def symR : Matrix Sym := ⟨1, 1, some [.buf [none]]⟩

/-- The `3 × 3` matrix of the symbols `x0, ..., x8`, row by row. -/
def symD : Matrix Sym :=
  ⟨3, 3, some [.buf [some (.var 0), some (.var 1), some (.var 2)],
    .buf [some (.var 3), some (.var 4), some (.var 5)],
    .buf [some (.var 6), some (.var 7), some (.var 8)]]⟩

end MatrixProject

/-! ## Lemmas on the loops and on the storage -/

namespace MatrixProject
variable {α : Type}

theorem for_loop_eq {σ : Type} (body : Nat → σ → Except Fault σ) (lo n : Nat) (F : Nat → σ)
    (hs : ∀ k, k < n → body (lo + k) (F k) = .ok (F (k + 1))) :
    for_loop body lo n (F 0) = .ok (F n) := by
  induction n with
  | zero => rfl
  | succ k ih =>
    have h1 := ih (fun j hj => hs j (Nat.lt_succ_of_lt hj))
    simp only [for_loop, h1]
    exact hs k (Nat.lt_succ_self k)

theorem for_loop_inv {σ : Type} (P : Nat → σ → Prop) (body : Nat → σ → Except Fault σ)
    (lo n : Nat) (s : σ) (h0 : P 0 s)
    (hs : ∀ k, k < n → ∀ t, P k t → ∃ t1, body (lo + k) t = .ok t1 ∧ P (k + 1) t1) :
    ∃ t, for_loop body lo n s = .ok t ∧ P n t := by
  induction n with
  | zero => exact ⟨s, rfl, h0⟩
  | succ k ih =>
    obtain ⟨t, ht, hP⟩ := ih (fun j hj => hs j (Nat.lt_succ_of_lt hj))
    obtain ⟨t1, ht1, hP1⟩ := hs k (Nat.lt_succ_self k) t hP
    exact ⟨t1, by simp only [for_loop, ht]; exact ht1, hP1⟩

theorem range_get (n m : Nat) : (List.range n)[m]? = if m < n then some m else none := by
  by_cases h : m < n
  · simp [h, List.getElem?_range]
  · simp [h, List.getElem?_eq_none]
    omega

theorem ofCells_congr (r c : Nat) (g h : Nat → Nat → Option α)
    (hgh : ∀ i j, i < r → j < c → g i j = h i j) :
    Matrix.ofCells r c g = Matrix.ofCells r c h := by
  unfold Matrix.ofCells
  congr 2
  apply List.map_congr_left
  intro i hi
  congr 1
  apply List.map_congr_left
  intro j hj
  exact hgh i j (List.mem_range.mp hi) (List.mem_range.mp hj)

theorem cell_ofCells (r c : Nat) (g : Nat → Nat → Option α) (i j : Nat) :
    (Matrix.ofCells r c g).cell i j = if i < r ∧ j < c then g i j else none := by
  unfold Matrix.cell Matrix.ofCells
  by_cases hi : i < r
  · by_cases hj : j < c
    · simp [List.getElem?_map, range_get, hi, hj]
    · simp [List.getElem?_map, range_get, hi, hj]
  · simp [List.getElem?_map, range_get, hi]

theorem read_ofCells (r c : Nat) (g : Nat → Nat → Option α) (i j : Nat) (v : α)
    (hi : i < r) (hj : j < c) (hv : g i j = some v) :
    (Matrix.ofCells r c g).read i j = .ok v := by
  unfold Matrix.read Matrix.ofCells
  simp [List.getElem?_map, range_get, hi, hj, hv]

theorem write_ofCells (r c : Nat) (g : Nat → Nat → Option α) (i j : Nat) (v : α)
    (hi : i < r) (hj : j < c) :
    (Matrix.ofCells r c g).write i j v = .ok (Matrix.ofCells r c (upd g i j v)) := by
  unfold Matrix.write Matrix.ofCells
  simp only [List.getElem?_map, range_get, hi, hj, Option.map_some', List.length_map, List.length_range, if_true]
  congr 3
  apply List.ext_getElem?
  intro a
  simp only [List.getElem?_set, List.getElem?_map, List.length_map, List.length_range]
  by_cases ha : i = a
  · subst ha
    simp only [hi, if_true, range_get, Option.map_some']
    congr 2
    apply List.ext_getElem?
    intro b
    simp only [List.getElem?_set, List.getElem?_map, List.length_map, List.length_range]
    by_cases hb : j = b
    · subst hb
      simp [hj, upd, range_get]
    · by_cases hbc : b < c
      · simp [hb, upd, range_get, hbc, Ne.symm hb]
      · simp [hb, upd, range_get, hbc]
  · by_cases har : a < r
    · simp only [ha, if_false, range_get, har, if_true, Option.map_some']
      have : upd g i j v a = g a := by
        funext b
        simp [upd, Ne.symm ha]
      rw [this]
    · simp [ha, range_get, har]


theorem allocated_spec (m : Matrix α) (h : m.allocated = true) :
    0 < m.rows ∧ 0 < m.cols ∧ ∃ d, m.data = some d ∧ d.length = m.rows.toNat ∧
      ∀ p ∈ d, ∃ cells, p = RowPtr.buf cells ∧ cells.length = m.cols.toNat := by
  unfold Matrix.allocated at h
  cases hd : m.data with
  | none => simp [hd] at h
  | some d =>
    simp only [hd, Bool.and_eq_true, decide_eq_true_eq, beq_iff_eq, List.all_eq_true] at h
    refine ⟨h.1.1, h.1.2, d, rfl, h.2.1, ?_⟩
    intro p hp
    have := h.2.2 p hp
    cases p with
    | uninit => simp at this
    | null => simp at this
    | buf cells => exact ⟨cells, rfl, by simpa using this⟩

theorem allocated_eq_ofCells (m : Matrix α) (h : m.allocated = true) :
    m = Matrix.ofCells m.rows.toNat m.cols.toNat m.cell := by
  obtain ⟨hr, hc, d, hd, hlen, hrows⟩ := allocated_spec m h
  obtain ⟨rows, cols, data⟩ := m
  simp only at hr hc hd hlen hrows
  subst hd
  unfold Matrix.ofCells
  have e1 : ((rows.toNat : Nat) : Int) = rows := Int.toNat_of_nonneg (le_of_lt hr)
  have e2 : ((cols.toNat : Nat) : Int) = cols := Int.toNat_of_nonneg (le_of_lt hc)
  rw [e1, e2]
  congr 2
  apply List.ext_getElem?
  intro a
  simp only [List.getElem?_map, range_get]
  by_cases ha : a < rows.toNat
  · have ha2 : a < d.length := by omega
    obtain ⟨cells, hcells, hclen⟩ := hrows d[a] (List.getElem_mem ha2)
    simp only [ha, if_true, Option.map_some', List.getElem?_eq_getElem ha2, hcells]
    congr 2
    apply List.ext_getElem?
    intro b
    simp only [List.getElem?_map, range_get]
    by_cases hb : b < cols.toNat
    · have hb2 : b < cells.length := by omega
      simp [hb, Matrix.cell, List.getElem?_eq_getElem ha2, hcells, List.getElem?_eq_getElem hb2]
    · simp [hb, List.getElem?_eq_none]
      omega
  · simp [ha, List.getElem?_eq_none]
    omega

theorem initialised_cell (m : Matrix α) (ha : m.allocated = true) (hi : m.initialised = true)
    (i j : Nat) (hir : i < m.rows.toNat) (hjc : j < m.cols.toNat) :
    ∃ v, m.cell i j = some v := by
  obtain ⟨hr, hc, d, hd, hlen, hrows⟩ := allocated_spec m ha
  unfold Matrix.initialised at hi
  simp only [hd, List.all_eq_true] at hi
  have ha2 : i < d.length := by omega
  obtain ⟨cells, hcells, hclen⟩ := hrows d[i] (List.getElem_mem ha2)
  have h1 := hi d[i] (List.getElem_mem ha2)
  simp only [hcells, List.all_eq_true] at h1
  have hb2 : j < cells.length := by omega
  have h2 := h1 cells[j] (List.getElem_mem hb2)
  obtain ⟨v, hv⟩ := Option.isSome_iff_exists.mp h2
  exact ⟨v, by simp [Matrix.cell, hd, List.getElem?_eq_getElem ha2, hcells, List.getElem?_eq_getElem hb2, hv]⟩

theorem wellFormed_cell [Zero α] (m : Matrix α) (h : m.wellFormed = true)
    (i j : Nat) (hir : i < m.rows.toNat) (hjc : j < m.cols.toNat) :
    m.cell i j = some (m.get i j) := by
  simp only [Matrix.wellFormed, Bool.and_eq_true] at h
  obtain ⟨v, hv⟩ := initialised_cell m h.1 h.2 i j hir hjc
  simp [Matrix.get, hv]

theorem wellFormed_eq_ofCells [Zero α] (m : Matrix α) (h : m.wellFormed = true) :
    m = Matrix.ofCells m.rows.toNat m.cols.toNat (fun i j => some (m.get i j)) := by
  have h1 : m.allocated = true := by
    simp only [Matrix.wellFormed, Bool.and_eq_true] at h
    exact h.1
  have h2 := allocated_eq_ofCells m h1
  rw [ofCells_congr _ _ m.cell (fun i j => some (m.get i j))
    (fun i j hi hj => wellFormed_cell m h i j hi hj)] at h2
  exact h2


theorem for_loop2_eq {σ : Type} (step : Nat → Nat → σ → Except Fault σ) (R C : Nat)
    (F : Nat → Nat → σ)
    (hstep : ∀ i j, i < R → j < C → step i j (F i j) = .ok (F i (j + 1)))
    (hrow : ∀ i, i < R → F i C = F (i + 1) 0) :
    for_loop (fun i => for_loop (step i) 0 C) 0 R (F 0 0) = .ok (F R 0) := by
  apply for_loop_eq (fun i => for_loop (step i) 0 C) 0 R (fun i => F i 0)
  intro i hi
  simp only [Nat.zero_add]
  rw [← hrow i hi]
  apply for_loop_eq (step i) 0 C (fun j => F i j)
  intro j hj
  simp only [Nat.zero_add]
  exact hstep i j hi hj

theorem upd_fillRM (C : Nat) (val : Nat → Nat → α) (g : Nat → Nat → Option α) (i j : Nat) :
    upd (fillRM C val g i j) i j (val i j) = fillRM C val g i (j + 1) := by
  funext a b
  simp only [upd, fillRM]
  by_cases h1 : a = i ∧ b = j
  · obtain ⟨rfl, rfl⟩ := h1
    simp
  · simp only [h1, if_false]
    have : ((a < i ∧ b < C) ∨ (a = i ∧ b < j + 1)) ↔ ((a < i ∧ b < C) ∨ (a = i ∧ b < j)) := by
      constructor
      · rintro (h | ⟨h2, h3⟩)
        · exact Or.inl h
        · refine Or.inr ⟨h2, ?_⟩
          have : b ≠ j := fun hb => h1 ⟨h2, hb⟩
          omega
      · rintro (h | ⟨h2, h3⟩)
        · exact Or.inl h
        · exact Or.inr ⟨h2, by omega⟩
    simp only [this]

theorem fillRM_next_row (C : Nat) (val : Nat → Nat → α) (g : Nat → Nat → Option α) (i : Nat) :
    fillRM C val g i C = fillRM C val g (i + 1) 0 := by
  funext a b
  simp only [fillRM]
  have : ((a < i ∧ b < C) ∨ (a = i ∧ b < C)) ↔ ((a < i + 1 ∧ b < C) ∨ (a = i + 1 ∧ b < 0)) := by
    constructor
    · rintro (⟨h, h2⟩ | ⟨h2, h3⟩)
      · exact Or.inl ⟨by omega, h2⟩
      · exact Or.inl ⟨by omega, h3⟩
    · rintro (⟨h, h2⟩ | ⟨h2, h3⟩)
      · by_cases ha : a = i
        · exact Or.inr ⟨ha, h2⟩
        · exact Or.inl ⟨by omega, h2⟩
      · omega
  simp only [this]

theorem fillRM_start (C : Nat) (val : Nat → Nat → α) (g : Nat → Nat → Option α) :
    fillRM C val g 0 0 = g := by
  funext a b
  simp [fillRM]

theorem fillRM_end (C : Nat) (val : Nat → Nat → α) (g : Nat → Nat → Option α) (R : Nat) :
    fillRM C val g R 0 = fun a b => if a < R ∧ b < C then some (val a b) else g a b := by
  funext a b
  simp [fillRM]

theorem fill_row_major (R C R1 C1 : Nat) (val : Nat → Nat → α)
    (step : Nat → Nat → Matrix α → Except Fault (Matrix α))
    (hstep : ∀ i j g, i < R → j < C →
      step i j (Matrix.ofCells R1 C1 g) = .ok (Matrix.ofCells R1 C1 (upd g i j (val i j))))
    (g : Nat → Nat → Option α) :
    for_loop (fun i => for_loop (step i) 0 C) 0 R (Matrix.ofCells R1 C1 g) =
      .ok (Matrix.ofCells R1 C1 (fun a b => if a < R ∧ b < C then some (val a b) else g a b)) := by
  have h := for_loop2_eq step R C (fun i j => Matrix.ofCells R1 C1 (fillRM C val g i j))
    (by
      intro i j hi hj
      show step i j (Matrix.ofCells R1 C1 (fillRM C val g i j)) =
        .ok (Matrix.ofCells R1 C1 (fillRM C val g i (j + 1)))
      rw [hstep i j _ hi hj, upd_fillRM])
    (by
      intro i _
      show Matrix.ofCells R1 C1 (fillRM C val g i C) = Matrix.ofCells R1 C1 (fillRM C val g (i + 1) 0)
      rw [fillRM_next_row])
  have h2 : for_loop (fun i => for_loop (step i) 0 C) 0 R (Matrix.ofCells R1 C1 (fillRM C val g 0 0)) =
    .ok (Matrix.ofCells R1 C1 (fillRM C val g R 0)) := h
  rw [fillRM_start, fillRM_end] at h2
  exact h2

/-- The fill that writes the value of `(i, j)` at `(j, i)`. -/
theorem fill_transposed (R C R1 C1 : Nat) (val : Nat → Nat → α)
    (step : Nat → Nat → Matrix α → Except Fault (Matrix α))
    (hstep : ∀ i j g, i < R → j < C →
      step i j (Matrix.ofCells R1 C1 g) = .ok (Matrix.ofCells R1 C1 (upd g j i (val i j))))
    (g : Nat → Nat → Option α) :
    for_loop (fun i => for_loop (step i) 0 C) 0 R (Matrix.ofCells R1 C1 g) =
      .ok (Matrix.ofCells R1 C1 (fun a b => if b < R ∧ a < C then some (val b a) else g a b)) := by
  have hswap : ∀ (h : Nat → Nat → Option α) (i j : Nat) (v : α),
      upd (fun a b => h b a) j i v = fun a b => upd h i j v b a := by
    intro h i j v
    funext a b
    simp only [upd]
    by_cases h1 : a = j ∧ b = i
    · simp [h1]
    · have : ¬ (b = i ∧ a = j) := fun h2 => h1 ⟨h2.2, h2.1⟩
      simp [h1, this]
  have h := for_loop2_eq step R C
    (fun i j => Matrix.ofCells R1 C1 (fun a b => fillRM C val (fun x y => g y x) i j b a))
    (by
      intro i j hi hj
      show step i j (Matrix.ofCells R1 C1 (fun a b => fillRM C val (fun x y => g y x) i j b a)) =
        .ok (Matrix.ofCells R1 C1 (fun a b => fillRM C val (fun x y => g y x) i (j + 1) b a))
      rw [hstep i j _ hi hj, hswap, upd_fillRM])
    (by
      intro i _
      show Matrix.ofCells R1 C1 (fun a b => fillRM C val (fun x y => g y x) i C b a) =
        Matrix.ofCells R1 C1 (fun a b => fillRM C val (fun x y => g y x) (i + 1) 0 b a)
      rw [fillRM_next_row])
  have h2 : for_loop (fun i => for_loop (step i) 0 C) 0 R
      (Matrix.ofCells R1 C1 (fun a b => fillRM C val (fun x y => g y x) 0 0 b a)) =
    .ok (Matrix.ofCells R1 C1 (fun a b => fillRM C val (fun x y => g y x) R 0 b a)) := h
  rw [fillRM_start, fillRM_end] at h2
  exact h2

theorem add_cell_ofCells [Add α] (R C R1 C1 : Nat) (hR : R ≤ R1) (hC : C ≤ C1) (fa fb : Nat → Nat → α)
    (i j : Nat) (g : Nat → Nat → Option α) (hi : i < R) (hj : j < C) :
    add_cell (Matrix.ofCells R C fun a b => some (fa a b)) (Matrix.ofCells R C fun a b => some (fb a b))
      i j (Matrix.ofCells R1 C1 g) = .ok (Matrix.ofCells R1 C1 (upd g i j (fa i j + fb i j))) := by
  unfold add_cell
  rw [read_ofCells R C _ i j (fa i j) hi hj rfl, read_ofCells R C _ i j (fb i j) hi hj rfl]
  exact write_ofCells R1 C1 g i j _ (by omega) (by omega)

theorem sub_cell_ofCells [Sub α] (R C R1 C1 : Nat) (hR : R ≤ R1) (hC : C ≤ C1) (fa fb : Nat → Nat → α)
    (i j : Nat) (g : Nat → Nat → Option α) (hi : i < R) (hj : j < C) :
    sub_cell (Matrix.ofCells R C fun a b => some (fa a b)) (Matrix.ofCells R C fun a b => some (fb a b))
      i j (Matrix.ofCells R1 C1 g) = .ok (Matrix.ofCells R1 C1 (upd g i j (fa i j - fb i j))) := by
  unfold sub_cell
  rw [read_ofCells R C _ i j (fa i j) hi hj rfl, read_ofCells R C _ i j (fb i j) hi hj rfl]
  exact write_ofCells R1 C1 g i j _ (by omega) (by omega)

theorem mul_sum_ofCells [Zero α] [Add α] [Mul α] (R K C : Nat) (fa fb : Nat → Nat → α) (i j : Nat) (hi : i < R) (hj : j < C) :
    for_loop (mul_step (Matrix.ofCells R K fun a b => some (fa a b))
      (Matrix.ofCells K C fun a b => some (fb a b)) i j) 0 K 0 =
      .ok (sum_upto (fun k => fa i k * fb k j) K) := by
  apply for_loop_eq _ 0 K (fun k => sum_upto (fun k => fa i k * fb k j) k)
  intro k hk
  simp only [Nat.zero_add]
  unfold mul_step
  rw [read_ofCells R K _ i k (fa i k) hi hk rfl, read_ofCells K C _ k j (fb k j) hk hj rfl]
  rfl

theorem mul_cell_ofCells [Zero α] [Add α] [Mul α] (R K C R1 C1 : Nat) (hR : R ≤ R1) (hC : C ≤ C1) (fa fb : Nat → Nat → α)
    (i j : Nat) (g : Nat → Nat → Option α) (hi : i < R) (hj : j < C) :
    mul_cell (Matrix.ofCells R K fun a b => some (fa a b)) (Matrix.ofCells K C fun a b => some (fb a b))
      i j (Matrix.ofCells R1 C1 g) =
      .ok (Matrix.ofCells R1 C1 (upd g i j (sum_upto (fun k => fa i k * fb k j) K))) := by
  unfold mul_cell
  have hcols : (Matrix.ofCells R K fun a b => some (fa a b)).cols.toNat = K := by
    simp [Matrix.ofCells]
  rw [hcols, mul_sum_ofCells R K C fa fb i j hi hj]
  exact write_ofCells R1 C1 g i j _ (by omega) (by omega)



@[simp] theorem ofCells_rows (r c : Nat) (g : Nat → Nat → Option α) :
    (Matrix.ofCells r c g).rows = r := rfl

@[simp] theorem ofCells_cols (r c : Nat) (g : Nat → Nat → Option α) :
    (Matrix.ofCells r c g).cols = c := rfl

theorem allocated_rows_pos (m : Matrix α) (h : m.allocated = true) :
    0 < m.rows ∧ 0 < m.cols := by
  obtain ⟨h1, h2, _⟩ := allocated_spec m h
  exact ⟨h1, h2⟩

theorem wellFormed_allocated (m : Matrix α) (h : m.wellFormed = true) : m.allocated = true := by
  simp only [Matrix.wellFormed, Bool.and_eq_true] at h
  exact h.1

theorem add_run_ofCells [Add α] (R C R1 C1 : Nat) (hR : R ≤ R1) (hC : C ≤ C1) (fa fb : Nat → Nat → α)
    (g : Nat → Nat → Option α) (w : World) :
    add_matrices (some (Matrix.ofCells R C fun a b => some (fa a b)))
      (some (Matrix.ofCells R C fun a b => some (fb a b))) (some (Matrix.ofCells R1 C1 g)) w =
      .ok (0, some (Matrix.ofCells R1 C1
        (fun a b => if a < R ∧ b < C then some (fa a b + fb a b) else g a b)), w) := by
  simp only [add_matrices, ofCells_rows, ofCells_cols, ne_eq, not_true_eq_false, or_self,
    if_false, Int.toNat_ofNat]
  rw [fill_row_major R C R1 C1 (fun a b => fa a b + fb a b) _
    (fun i j g hi hj => add_cell_ofCells R C R1 C1 hR hC fa fb i j g hi hj) g]

theorem sub_run_ofCells [Sub α] (R C R1 C1 : Nat) (hR : R ≤ R1) (hC : C ≤ C1) (fa fb : Nat → Nat → α)
    (g : Nat → Nat → Option α) (w : World) :
    subtract_matrices (some (Matrix.ofCells R C fun a b => some (fa a b)))
      (some (Matrix.ofCells R C fun a b => some (fb a b))) (some (Matrix.ofCells R1 C1 g)) w =
      .ok (0, some (Matrix.ofCells R1 C1
        (fun a b => if a < R ∧ b < C then some (fa a b - fb a b) else g a b)), w) := by
  simp only [subtract_matrices, ofCells_rows, ofCells_cols, ne_eq, not_true_eq_false, or_self,
    if_false, Int.toNat_ofNat]
  rw [fill_row_major R C R1 C1 (fun a b => fa a b - fb a b) _
    (fun i j g hi hj => sub_cell_ofCells R C R1 C1 hR hC fa fb i j g hi hj) g]

theorem mul_run_ofCells [Zero α] [Add α] [Mul α] (R K C R1 C1 : Nat) (hR : R ≤ R1) (hC : C ≤ C1) (fa fb : Nat → Nat → α)
    (g : Nat → Nat → Option α) (w : World) :
    multiply_matrices (some (Matrix.ofCells R K fun a b => some (fa a b)))
      (some (Matrix.ofCells K C fun a b => some (fb a b))) (some (Matrix.ofCells R1 C1 g)) w =
      .ok (0, some (Matrix.ofCells R1 C1
        (fun a b => if a < R ∧ b < C then some (sum_upto (fun k => fa a k * fb k b) K)
          else g a b)), w) := by
  simp only [multiply_matrices, ofCells_rows, ofCells_cols, ne_eq, not_true_eq_false,
    if_false, Int.toNat_ofNat]
  rw [fill_row_major R C R1 C1 (fun a b => sum_upto (fun k => fa a k * fb k b) K) _
    (fun i j g hi hj => mul_cell_ofCells R K C R1 C1 hR hC fa fb i j g hi hj) g]

theorem add_matrices_run [Zero α] [Add α] (A B R : Matrix α) (hA : A.wellFormed = true) (hB : B.wellFormed = true)
    (hR : R.allocated = true) (hrows : A.rows = B.rows) (hcols : A.cols = B.cols)
    (hRr : A.rows ≤ R.rows) (hRc : A.cols ≤ R.cols) (w : World) :
    add_matrices (some A) (some B) (some R) w =
      .ok (0, some (Matrix.ofCells R.rows.toNat R.cols.toNat
        (fun a b => if a < A.rows.toNat ∧ b < A.cols.toNat then some (A.get a b + B.get a b)
          else R.cell a b)), w) := by
  have h := add_run_ofCells A.rows.toNat A.cols.toNat R.rows.toNat R.cols.toNat
    (Int.toNat_le_toNat hRr) (Int.toNat_le_toNat hRc) A.get B.get R.cell w
  have eB := wellFormed_eq_ofCells B hB
  rw [← hrows, ← hcols] at eB
  rw [← wellFormed_eq_ofCells A hA, ← eB, ← allocated_eq_ofCells R hR] at h
  exact h

theorem subtract_matrices_run [Zero α] [Sub α] (A B R : Matrix α) (hA : A.wellFormed = true)
    (hB : B.wellFormed = true)
    (hR : R.allocated = true) (hrows : A.rows = B.rows) (hcols : A.cols = B.cols)
    (hRr : A.rows ≤ R.rows) (hRc : A.cols ≤ R.cols) (w : World) :
    subtract_matrices (some A) (some B) (some R) w =
      .ok (0, some (Matrix.ofCells R.rows.toNat R.cols.toNat
        (fun a b => if a < A.rows.toNat ∧ b < A.cols.toNat then some (A.get a b - B.get a b)
          else R.cell a b)), w) := by
  have h := sub_run_ofCells A.rows.toNat A.cols.toNat R.rows.toNat R.cols.toNat
    (Int.toNat_le_toNat hRr) (Int.toNat_le_toNat hRc) A.get B.get R.cell w
  have eB := wellFormed_eq_ofCells B hB
  rw [← hrows, ← hcols] at eB
  rw [← wellFormed_eq_ofCells A hA, ← eB, ← allocated_eq_ofCells R hR] at h
  exact h

theorem multiply_matrices_run [Zero α] [Add α] [Mul α] (A B R : Matrix α) (hA : A.wellFormed = true)
    (hB : B.wellFormed = true)
    (hR : R.allocated = true) (hinner : A.cols = B.rows)
    (hRr : A.rows ≤ R.rows) (hRc : B.cols ≤ R.cols) (w : World) :
    multiply_matrices (some A) (some B) (some R) w =
      .ok (0, some (Matrix.ofCells R.rows.toNat R.cols.toNat
        (fun a b => if a < A.rows.toNat ∧ b < B.cols.toNat then
          some (sum_upto (fun k => A.get a k * B.get k b) A.cols.toNat)
          else R.cell a b)), w) := by
  have h := mul_run_ofCells A.rows.toNat A.cols.toNat B.cols.toNat R.rows.toNat R.cols.toNat
    (Int.toNat_le_toNat hRr) (Int.toNat_le_toNat hRc) A.get B.get R.cell w
  have eB := wellFormed_eq_ofCells B hB
  rw [← hinner] at eB
  rw [← wellFormed_eq_ofCells A hA, ← eB, ← allocated_eq_ofCells R hR] at h
  exact h


theorem allocOk_drop (w : World) (h : w.allocOk = true) (k : Nat) :
    (⟨w.heap.drop k, w.log⟩ : World).allocOk = true := by
  simp only [World.allocOk, List.all_eq_true, id_eq] at h ⊢
  intro b hb
  exact h b (List.mem_of_mem_drop hb)

theorem malloc_ok (w : World) (h : w.allocOk = true) :
    malloc w = (true, ⟨w.heap.drop 1, w.log⟩) := by
  obtain ⟨heap, log⟩ := w
  cases heap with
  | nil => rfl
  | cons b rest =>
    simp only [World.allocOk, List.all_cons, Bool.and_eq_true, id_eq] at h
    simp [malloc, h.1]

theorem malloc_log (w : World) : (malloc w).2.log = w.log := by
  obtain ⟨heap, log⟩ := w
  cases heap <;> rfl

/-- Row pointer array of `create_matrix` once `k` rows are allocated. -/
theorem alloc_loop_ok (R : Nat) (cols : Int) (w : World) (h : w.allocOk = true) :
    for_loop (alloc_row cols) 0 R
      (⟨List.replicate R .uninit, true, w⟩ : AllocState α) =
      .ok ⟨(List.range R).map (fun _ => RowPtr.buf (List.replicate cols.toNat none)), true,
        ⟨w.heap.drop R, w.log⟩⟩ := by
  have key := for_loop_eq (alloc_row cols) 0 R
    (fun k => (⟨(List.range R).map (fun i => if i < k then
        RowPtr.buf (List.replicate cols.toNat (none : Option α)) else RowPtr.uninit), true,
        ⟨w.heap.drop k, w.log⟩⟩ : AllocState α))
    (by
      intro k hk
      simp only [Nat.zero_add, alloc_row, if_true, List.length_map, List.length_range, hk]
      rw [malloc_ok _ (allocOk_drop w h k)]
      simp only [List.drop_drop]
      congr 2
      · apply List.ext_getElem?
        intro a
        simp only [List.getElem?_set, List.getElem?_map, List.length_map, List.length_range,
          range_get]
        by_cases hak : k = a
        · subst hak
          simp [hk]
        · by_cases haR : a < R
          · have : (a < k + 1) ↔ (a < k) := by omega
            simp [hak, haR, this]
          · simp [hak, haR])
  have e0 : (⟨List.replicate R .uninit, true, w⟩ : AllocState α) =
      ⟨(List.range R).map (fun i => if i < 0 then
        RowPtr.buf (List.replicate cols.toNat (none : Option α)) else RowPtr.uninit), true,
        ⟨w.heap.drop 0, w.log⟩⟩ := by
    congr 1
    apply List.ext_getElem?
    intro a
    simp only [List.getElem?_replicate, List.getElem?_map, range_get]
    by_cases haR : a < R <;> simp [haR]
  rw [e0]
  refine key.trans ?_
  show Except.ok (⟨(List.range R).map (fun i => if i < R then
        RowPtr.buf (List.replicate cols.toNat (none : Option α)) else RowPtr.uninit), true,
        ⟨w.heap.drop R, w.log⟩⟩ : AllocState α) = _
  congr 2
  apply List.map_congr_left
  intro i hi
  simp [List.mem_range.mp hi]

theorem create_matrix_ok (rows cols : Int) (w : World) (hr : 0 < rows) (hc : 0 < cols)
    (h : w.allocOk = true) :
    (create_matrix rows cols w : Except Fault (Matrix α × World)) =
      .ok (Matrix.ofCells rows.toNat cols.toNat (fun _ _ => none),
        ⟨w.heap.drop (rows.toNat + 1), w.log⟩) := by
  unfold create_matrix
  have hcond : ¬ (rows ≤ 0 ∨ cols ≤ 0) := by omega
  simp only [hcond, if_false]
  rw [malloc_ok w h]
  simp only
  rw [alloc_loop_ok rows.toNat cols _ (allocOk_drop w h 1)]
  simp only [if_true, List.drop_drop]
  have e1 : ((rows.toNat : Nat) : Int) = rows := Int.toNat_of_nonneg (le_of_lt hr)
  have e2 : ((cols.toNat : Nat) : Int) = cols := Int.toNat_of_nonneg (le_of_lt hc)
  unfold Matrix.ofCells
  rw [e1, e2]
  congr 4
  · apply List.map_congr_left
    intro i _
    congr 1
    apply List.ext_getElem?
    intro b
    simp only [List.getElem?_replicate, List.getElem?_map, range_get]
    by_cases hb : b < cols.toNat <;> simp [hb]
  · rw [Nat.add_comm]

theorem create_matrix_invalid (rows cols : Int) (w : World) (h : rows ≤ 0 ∨ cols ≤ 0) :
    (create_matrix rows cols w : Except Fault (Matrix α × World)) =
      .ok (⟨0, 0, none⟩, print_error .ERROR_INVALID_DIMENSIONS "create_matrix" w) := by
  unfold create_matrix
  simp only [h, if_true]


theorem alloc_row_log (cols : Int) (R : Nat) (w : World) (k : Nat) (hk : k < R) (s : AllocState α)
    (hP : s.data.length = R ∧ LogGrows w s.world (.ERROR_MEMORY_ALLOCATION, "create_matrix")) :
    ∃ t, alloc_row cols (0 + k) s = .ok t ∧
      (t.data.length = R ∧ LogGrows w t.world (.ERROR_MEMORY_ALLOCATION, "create_matrix")) := by
  obtain ⟨hlen, extra, hlog, hall⟩ := hP
  unfold alloc_row
  by_cases hres : s.res = true
  · have hk2 : 0 + k < s.data.length := by omega
    simp only [hres, if_true, hk2]
    have hml := malloc_log s.world
    cases hm : malloc s.world with
    | mk b w1 =>
      rw [hm] at hml
      simp only at hml
      cases b with
      | true =>
        refine ⟨_, rfl, ?_, extra, ?_, hall⟩
        · simp [hlen]
        · simp [hml, hlog]
      | false =>
        refine ⟨_, rfl, ?_, extra ++ [(.ERROR_MEMORY_ALLOCATION, "create_matrix")], ?_, ?_⟩
        · simp [hlen]
        · simp [print_error, hml, hlog]
        · intro e he
          rcases List.mem_append.mp he with h1 | h1
          · exact hall e h1
          · simpa using h1
  · simp only [hres]
    exact ⟨s, rfl, hlen, extra, hlog, hall⟩

theorem create_matrix_log (rows cols : Int) (w : World) (hr : 0 < rows) (hc : 0 < cols)
    (m : Matrix α) (w1 : World) (h : create_matrix rows cols w = .ok (m, w1)) :
    LogGrows w w1 (.ERROR_MEMORY_ALLOCATION, "create_matrix") := by
  unfold create_matrix at h
  have hcond : ¬ (rows ≤ 0 ∨ cols ≤ 0) := by omega
  simp only [hcond, if_false] at h
  have hml := malloc_log w
  cases hm : malloc w with
  | mk b w2 =>
    rw [hm] at hml h
    simp only at hml
    cases b with
    | false =>
      simp only [Except.ok.injEq, Prod.mk.injEq] at h
      refine ⟨[(.ERROR_MEMORY_ALLOCATION, "create_matrix")], ?_, by simp⟩
      rw [← h.2]
      simp [print_error, hml]
    | true =>
      simp only at h
      obtain ⟨t, ht, _, hlog⟩ := for_loop_inv
        (fun _ (s : AllocState α) => s.data.length = rows.toNat ∧
          LogGrows w s.world (.ERROR_MEMORY_ALLOCATION, "create_matrix"))
        (alloc_row cols) 0 rows.toNat
        (⟨List.replicate rows.toNat .uninit, true, w2⟩ : AllocState α)
        ⟨by simp, [], by simp [hml], by simp⟩
        (fun k hk s hP => alloc_row_log cols rows.toNat w k hk s hP)
      rw [ht] at h
      simp only at h
      by_cases hres : t.res = true
      · simp only [hres, if_true, Except.ok.injEq, Prod.mk.injEq] at h
        rw [← h.2]
        exact hlog
      · simp only [hres, Bool.false_eq_true, if_false] at h
        cases hcl : for_loop (cleanup_row t.data) 0 rows.toNat () with
        | error e => rw [hcl] at h; simp at h
        | ok u =>
          rw [hcl] at h
          simp only [Except.ok.injEq, Prod.mk.injEq] at h
          rw [← h.2]
          exact hlog


theorem transpose_cell_ofCells (R C : Nat) (f : Nat → Nat → α)
    (i j : Nat) (g : Nat → Nat → Option α) (hi : i < R) (hj : j < C) :
    transpose_cell (Matrix.ofCells R C fun a b => some (f a b)) i j (Matrix.ofCells C R g) =
      .ok (Matrix.ofCells C R (upd g j i (f i j))) := by
  unfold transpose_cell
  rw [read_ofCells R C _ i j (f i j) hi hj rfl]
  exact write_ofCells C R g j i _ hj hi

theorem transpose_run_ofCells (R C : Nat) (hR : 0 < R) (hC : 0 < C) (f : Nat → Nat → α)
    (w : World) (hw : w.allocOk = true) :
    transpose_matrix (some (Matrix.ofCells R C fun a b => some (f a b))) w =
      .ok (Matrix.ofCells C R (fun a b => some (f b a)), ⟨w.heap.drop (C + 1), w.log⟩) := by
  unfold transpose_matrix
  have h1 : (0 : Int) < (R : Int) ∧ (0 : Int) < (C : Int) := ⟨by omega, by omega⟩
  simp only [ofCells_rows, ofCells_cols, h1, and_self, not_true_eq_false, if_false]
  rw [create_matrix_ok (C : Int) (R : Int) w h1.2 h1.1 hw]
  simp only [Int.toNat_ofNat]
  have hd : (Matrix.ofCells C R (fun _ _ => (none : Option α))).data =
      some ((List.range C).map fun i => .buf ((List.range R).map (fun _ => none))) := rfl
  rw [hd]
  simp only
  rw [fill_transposed R C C R f _
    (fun i j g hi hj => transpose_cell_ofCells R C f i j g hi hj)]
  simp only
  congr 2
  apply ofCells_congr
  intro i j hi hj
  simp [hi, hj]

theorem transpose_matrix_run [Zero α] (m : Matrix α) (hm : m.wellFormed = true)
    (w : World) (hw : w.allocOk = true) :
    transpose_matrix (some m) w =
      .ok (Matrix.ofCells m.cols.toNat m.rows.toNat (fun a b => some (m.get b a)),
        ⟨w.heap.drop (m.cols.toNat + 1), w.log⟩) := by
  obtain ⟨hr, hc⟩ := allocated_rows_pos m (wellFormed_allocated m hm)
  have h := transpose_run_ofCells m.rows.toNat m.cols.toNat (by omega) (by omega) m.get w hw
  rw [← wellFormed_eq_ofCells m hm] at h
  exact h

theorem transpose_matrix_log (m : Matrix α) (hr : 0 < m.rows) (hc : 0 < m.cols) (w : World)
    (res : Matrix α) (w1 : World) (h : transpose_matrix (some m) w = .ok (res, w1)) :
    ∀ e ∈ signalled w w1, e.1 = error_code.ERROR_MEMORY_ALLOCATION := by
  unfold transpose_matrix at h
  have h1 : (0 : Int) < m.rows ∧ (0 : Int) < m.cols := ⟨hr, hc⟩
  simp only [h1, and_self, not_true_eq_false, if_false] at h
  cases hcm : (create_matrix m.cols m.rows w : Except Fault (Matrix α × World)) with
  | error e => rw [hcm] at h; simp at h
  | ok p =>
    obtain ⟨r0, w2⟩ := p
    obtain ⟨extra, hlog, hall⟩ := create_matrix_log m.cols m.rows w hc hr r0 w2 hcm
    rw [hcm] at h
    simp only at h
    cases hd : r0.data with
    | none =>
      rw [hd] at h
      simp only [Except.ok.injEq, Prod.mk.injEq] at h
      rw [← h.2]
      simp only [signalled, print_error, hlog, List.append_assoc, List.drop_left,
        List.mem_append, List.mem_singleton]
      rintro e (hmem | rfl)
      · rw [hall e hmem]
      · rfl
    | some d =>
      rw [hd] at h
      simp only at h
      cases hl : for_loop (fun index_row => for_loop (transpose_cell m index_row) 0 m.cols.toNat)
          0 m.rows.toNat r0 with
      | error e => rw [hl] at h; simp at h
      | ok r1 =>
        rw [hl] at h
        simp only [Except.ok.injEq, Prod.mk.injEq] at h
        rw [← h.2]
        simp only [signalled, hlog, List.drop_left]
        intro e hmem
        rw [hall e hmem]


theorem free_matrix_ofCells (r c : Nat) (g : Nat → Nat → Option α) :
    free_matrix (some (Matrix.ofCells r c g)) = .ok ⟨0, 0, none⟩ := by
  unfold free_matrix
  have hd : (Matrix.ofCells r c g).data =
      some ((List.range r).map fun i => .buf ((List.range c).map (g i))) := rfl
  simp only [hd, ofCells_rows, Int.toNat_ofNat]
  have := for_loop_eq (fun index_row (_ : Unit) =>
      free_row ((List.range r).map fun i => RowPtr.buf ((List.range c).map (g i))) index_row)
    0 r (fun _ => ())
    (by
      intro k hk
      simp [free_row, List.getElem?_map, range_get, hk])
  rw [this]

theorem minor_row_ofCells (n c t : Nat) (hc : c < n) (ht : t < n - 1) (f : Nat → Nat → α)
    (g : Nat → Nat → Option α) :
    minor_row (Matrix.ofCells n n fun a b => some (f a b)) n c (1 + t)
      (Matrix.ofCells (n - 1) (n - 1) (fillRM (n - 1) (minor f c) g t 0)) =
      .ok (Matrix.ofCells (n - 1) (n - 1) (fillRM (n - 1) (minor f c) g (t + 1) 0)) := by
  unfold minor_row
  have key := for_loop_eq
    (minor_cell (Matrix.ofCells n n fun a b => some (f a b)) c (1 + t)) 0 n
    (fun k => (Matrix.ofCells (n - 1) (n - 1) (fillRM (n - 1) (minor f c) g t (subcol c k)),
      subcol c k))
    (by
      intro k hk
      simp only [Nat.zero_add, minor_cell]
      by_cases hkc : k = c
      · subst hkc
        simp [subcol]
      · simp only [ne_eq, hkc, not_false_eq_true, if_true]
        rw [read_ofCells n n _ (1 + t) k (f (1 + t) k) (by omega) hk rfl]
        simp only [Nat.add_sub_cancel_left]
        have hs : subcol c k < n - 1 := by
          unfold subcol
          split <;> omega
        rw [write_ofCells (n - 1) (n - 1) _ t (subcol c k) _ ht hs]
        have hval : f (1 + t) k = minor f c t (subcol c k) := by
          unfold minor subcol
          by_cases h1 : k ≤ c
          · have : k < c := by omega
            simp [h1, this, Nat.add_comm]
          · have h2 : ¬ (k - 1 < c) := by omega
            have h3 : k - 1 + 1 = k := by omega
            simp [h1, h2, h3, Nat.add_comm]
        have hnext : subcol c (k + 1) = subcol c k + 1 := by
          unfold subcol
          by_cases h1 : k ≤ c
          · have : k + 1 ≤ c := by omega
            simp [h1, this]
          · have h2 : ¬ (k + 1 ≤ c) := by omega
            simp only [h1, h2, if_false]
            omega
        rw [hval, upd_fillRM, hnext])
  have e0 : subcol c 0 = 0 := by simp [subcol]
  have en : subcol c n = n - 1 := by
    unfold subcol
    have : ¬ (n ≤ c) := by omega
    simp [this]
  simp only [e0, en] at key
  rw [key]
  simp only
  rw [fillRM_next_row]

theorem minor_fill_ofCells (n c : Nat) (hc : c < n) (f : Nat → Nat → α)
    (g : Nat → Nat → Option α) :
    for_loop (minor_row (Matrix.ofCells n n fun a b => some (f a b)) n c) 1 (n - 1)
      (Matrix.ofCells (n - 1) (n - 1) g) =
      .ok (Matrix.ofCells (n - 1) (n - 1) (fun a b => some (minor f c a b))) := by
  have key : for_loop (minor_row (Matrix.ofCells n n fun a b => some (f a b)) n c) 1 (n - 1)
      (Matrix.ofCells (n - 1) (n - 1) (fillRM (n - 1) (minor f c) g 0 0)) =
      .ok (Matrix.ofCells (n - 1) (n - 1) (fillRM (n - 1) (minor f c) g (n - 1) 0)) :=
    for_loop_eq (minor_row (Matrix.ofCells n n fun a b => some (f a b)) n c) 1 (n - 1)
      (fun t => Matrix.ofCells (n - 1) (n - 1) (fillRM (n - 1) (minor f c) g t 0))
      (fun t ht => minor_row_ofCells n c t hc ht f g)
  rw [fillRM_start, fillRM_end] at key
  rw [key]
  congr 1
  apply ofCells_congr
  intro i j hi hj
  simp [hi, hj]

end MatrixProject

namespace MatrixProject
variable {α : Type} [Zero α] [One α] [Neg α] [Add α] [Sub α] [Mul α]

theorem determinant_term_ofCells (self : Option (Matrix α) → World → Except Fault (α × World))
    (n c : Nat) (hn : 3 ≤ n) (hc : c < n) (hself : SelfOk self (n - 1))
    (f : Nat → Nat → α) (det : α) (w : World) (hw : w.allocOk = true) :
    ∃ w1, determinant_term self (Matrix.ofCells n n fun a b => some (f a b)) c (det, w) =
        .ok (det + (if c % 2 = 0 then 1 else -1) * f 0 c * laplace (n - 1) (minor f c), w1) ∧
      w1.allocOk = true ∧ w1.log = w.log := by
  unfold determinant_term
  have e1 : ((n : Int) - 1) = ((n - 1 : Nat) : Int) := by omega
  simp only [ofCells_rows, e1, Int.toNat_ofNat]
  rw [create_matrix_ok ((n - 1 : Nat) : Int) ((n - 1 : Nat) : Int) w (by omega) (by omega) hw]
  simp only [Int.toNat_ofNat]
  have hd : (Matrix.ofCells (n - 1) (n - 1) (fun _ _ => (none : Option α))).data =
      some ((List.range (n - 1)).map fun i => .buf ((List.range (n - 1)).map (fun _ => none))) := rfl
  rw [hd]
  simp only
  rw [minor_fill_ofCells n c hc f]
  simp only
  obtain ⟨w1, h1, h2, h3⟩ := hself (minor f c) ⟨w.heap.drop (n - 1 + 1), w.log⟩
    (allocOk_drop w hw _)
  rw [h1]
  simp only
  rw [read_ofCells n n _ 0 c (f 0 c) (by omega) hc rfl]
  simp only
  rw [free_matrix_ofCells]
  exact ⟨w1, rfl, h2, h3⟩

theorem determinant_body_ofCells (self : Option (Matrix α) → World → Except Fault (α × World))
    (n : Nat) (hn : 1 ≤ n) (hself : 3 ≤ n → SelfOk self (n - 1))
    (f : Nat → Nat → α) (w : World) (hw : w.allocOk = true) :
    ∃ w1, determinant_body self (some (Matrix.ofCells n n fun a b => some (f a b))) w =
        .ok (laplace n f, w1) ∧ w1.allocOk = true ∧ w1.log = w.log := by
  unfold determinant_body
  have hsq : ((n : Int) = (n : Int) ∧ (0 : Int) < (n : Int)) := ⟨rfl, by omega⟩
  simp only [ofCells_rows, ofCells_cols, hsq, and_self, not_true_eq_false, if_false]
  by_cases h1 : n = 1
  · subst h1
    simp only [Nat.cast_one, if_true]
    rw [read_ofCells 1 1 _ 0 0 (f 0 0) (by omega) (by omega) rfl]
    exact ⟨w, rfl, hw, rfl⟩
  · by_cases h2 : n = 2
    · subst h2
      have : ¬ ((2 : Nat) : Int) = 1 := by omega
      simp only [this, if_false, Nat.cast_ofNat, if_true]
      rw [read_ofCells 2 2 _ 0 0 (f 0 0) (by omega) (by omega) rfl,
        read_ofCells 2 2 _ 1 1 (f 1 1) (by omega) (by omega) rfl,
        read_ofCells 2 2 _ 0 1 (f 0 1) (by omega) (by omega) rfl,
        read_ofCells 2 2 _ 1 0 (f 1 0) (by omega) (by omega) rfl]
      exact ⟨w, rfl, hw, rfl⟩
    · have h3 : 3 ≤ n := by omega
      have e1 : ¬ (n : Int) = 1 := by omega
      have e2 : ¬ (n : Int) = 2 := by omega
      simp only [e1, e2, if_false, Int.toNat_ofNat]
      obtain ⟨k, rfl⟩ : ∃ k, n = k + 3 := ⟨n - 3, by omega⟩
      obtain ⟨t, ht, hP⟩ := for_loop_inv
        (fun c (s : α × World) =>
          s.1 = sum_upto (fun c => (if c % 2 = 0 then 1 else -1) * f 0 c *
            laplace (k + 2) (minor f c)) c ∧ s.2.allocOk = true ∧ s.2.log = w.log)
        (determinant_term self (Matrix.ofCells (k + 3) (k + 3) fun a b => some (f a b)))
        0 (k + 3) (0, w) ⟨rfl, hw, rfl⟩
        (by
          intro c hc s hs
          obtain ⟨det, w0⟩ := s
          obtain ⟨hs1, hs2, hs3⟩ := hs
          simp only at hs1 hs2 hs3
          obtain ⟨w1, hw1, hw2, hw3⟩ := determinant_term_ofCells self (k + 3) c h3 hc
            (hself h3) f det w0 hs2
          simp only [Nat.zero_add]
          refine ⟨_, hw1, ?_, hw2, hw3.trans hs3⟩
          simp only [sum_upto, hs1]
          rfl)
      obtain ⟨det, w1⟩ := t
      simp only at hP
      refine ⟨w1, ?_, hP.2.1, hP.2.2⟩
      rw [ht, hP.1]
      rfl

theorem determinant_fuel_ofCells (fuel n : Nat) (hn : 1 ≤ n) (hfuel : n ≤ fuel + 2) :
    SelfOk (determinant_fuel fuel : Option (Matrix α) → World → Except Fault (α × World)) n := by
  induction fuel generalizing n with
  | zero =>
    intro f w hw
    exact determinant_body_ofCells _ n hn (fun h3 => by omega) f w hw
  | succ k ih =>
    intro f w hw
    exact determinant_body_ofCells _ n hn (fun h3 => ih (n - 1) (by omega) (by omega)) f w hw

theorem determinant_ofCells (n : Nat) (hn : 1 ≤ n) (f : Nat → Nat → α) (w : World)
    (hw : w.allocOk = true) :
    ∃ w1, determinant (some (Matrix.ofCells n n fun a b => some (f a b))) w =
      .ok (laplace n f, w1) ∧ w1.allocOk = true ∧ w1.log = w.log := by
  unfold determinant
  simp only [ofCells_rows, Int.toNat_ofNat]
  exact determinant_fuel_ofCells n n hn (by omega) f w hw

end MatrixProject

theorem MatrixProject.sum_upto_eq_sum {R : Type} [Ring R] (term : Nat → R) (n : Nat) :
    MatrixProject.sum_upto term n = ∑ k in Finset.range n, term k := by
  induction n with
  | zero => rfl
  | succ k ih => rw [Finset.sum_range_succ, ← ih]; rfl

theorem sign_eq_pow {R : Type} [Ring R] (c : Nat) :
    (if c % 2 = 0 then (1 : R) else -1) = (-1) ^ c := by
  by_cases h : c % 2 = 0
  · have : Even c := Nat.even_iff.mpr h
    simp [h, this.neg_one_pow]
  · have : Odd c := Nat.odd_iff.mpr (by omega)
    simp [h, this.neg_one_pow]

theorem laplace_eq_det {R : Type} [CommRing R] (k : Nat) :
    ∀ f : Nat → Nat → R,
      MatrixProject.laplace (k + 1) f = Matrix.det (Matrix.of fun (i j : Fin (k + 1)) => f i j) := by
  induction k with
  | zero =>
    intro f
    simp [MatrixProject.laplace, Matrix.det_fin_one]
  | succ k ih =>
    intro f
    cases k with
    | zero =>
      simp [MatrixProject.laplace, Matrix.det_fin_two]
    | succ m =>
      rw [Matrix.det_succ_row_zero]
      show MatrixProject.sum_upto _ (m + 3) = _
      rw [MatrixProject.sum_upto_eq_sum, ← Fin.sum_univ_eq_sum_range
        (fun c => (if c % 2 = 0 then (1 : R) else -1) * f 0 c *
          MatrixProject.laplace (m + 2) (MatrixProject.minor f c)) (m + 3)]
      apply Finset.sum_congr rfl
      intro c _
      rw [sign_eq_pow, ih (MatrixProject.minor f c)]
      congr 1
      congr 1
      ext i j
      simp only [Matrix.submatrix_apply, Matrix.of_apply, MatrixProject.minor]
      congr 1
      by_cases h : j.castSucc < c
      · rw [Fin.succAbove_of_castSucc_lt _ _ h]
        have : (j : Nat) < (c : Nat) := h
        simp [this]
      · rw [Fin.succAbove_of_le_castSucc _ _ (not_lt.mp h)]
        have : ¬ (j : Nat) < (c : Nat) := h
        simp [this]

namespace MatrixProject
variable {α : Type}

theorem allocated_ofCells (r c : Nat) (hr : 0 < r) (hc : 0 < c) (g : Nat → Nat → Option α) :
    (Matrix.ofCells r c g).allocated = true := by
  simp only [Matrix.allocated, Matrix.ofCells, Bool.and_eq_true, decide_eq_true_eq,
    List.length_map, List.length_range, Int.toNat_ofNat, beq_self_eq_true, List.all_eq_true,
    List.mem_map, List.mem_range, true_and]
  refine ⟨⟨by omega, by omega⟩, ?_⟩
  rintro p ⟨i, _, rfl⟩
  simp

theorem wellFormed_ofCells (r c : Nat) (hr : 0 < r) (hc : 0 < c) (f : Nat → Nat → α) :
    (Matrix.ofCells r c fun a b => some (f a b)).wellFormed = true := by
  simp only [Matrix.wellFormed, Bool.and_eq_true]
  refine ⟨allocated_ofCells r c hr hc _, ?_⟩
  simp only [Matrix.initialised, Matrix.ofCells, List.all_eq_true, List.mem_map, List.mem_range]
  rintro p ⟨i, _, rfl⟩
  simp

theorem read_eq_of_cell (m : Matrix α) (i j : Nat) (v : α) (h : m.cell i j = some v) :
    m.read i j = .ok v := by
  unfold Matrix.cell at h
  unfold Matrix.read
  cases hd : m.data with
  | none => simp [hd] at h
  | some d =>
    simp only [hd] at h ⊢
    cases hrow : d[i]? with
    | none => simp [hrow] at h
    | some p =>
      cases p with
      | uninit => simp [hrow] at h
      | null => simp [hrow] at h
      | buf cells =>
        simp only [hrow] at h ⊢
        cases hcell : cells[j]? with
        | none => simp [hcell] at h
        | some o =>
          cases o with
          | none => simp [hcell] at h
          | some x =>
            simp only [hcell, Option.join] at h ⊢
            simp only [Option.some_bind, id_eq, Option.some.injEq] at h
            rw [h]


theorem flat_lt (R C i j : Nat) (hi : i < R) (hj : j < C) : i * C + j < R * C := by
  have h1 : (i + 1) * C ≤ R * C := Nat.mul_le_mul_right C hi
  have h2 : (i + 1) * C = i * C + C := by ring
  omega

theorem flat_index_ok (R C i j : Nat) (hi : i < R) (hj : j < C)
    (hmax : ((R * C : Nat) : Int) ≤ INT_MAX) :
    flat_index i (C : Int) j = .ok (i * C + j) := by
  have h := flat_lt R C i j hi hj
  have h1 : ((i : Int) * (C : Int)) = ((i * C : Nat) : Int) := by push_cast; rfl
  have h2 : (((i * C : Nat) : Int) + (j : Int)) = ((i * C + j : Nat) : Int) := by push_cast; rfl
  unfold flat_index int_value
  rw [h1]
  have c1 : INT_MIN ≤ ((i * C : Nat) : Int) ∧ ((i * C : Nat) : Int) ≤ INT_MAX := by
    unfold INT_MIN
    constructor <;> omega
  simp only [c1, and_self, if_true]
  rw [h2]
  have c2 : INT_MIN ≤ ((i * C + j : Nat) : Int) ∧ ((i * C + j : Nat) : Int) ≤ INT_MAX := by
    unfold INT_MIN
    constructor <;> omega
  simp only [c2, and_self, if_true]
  have c3 : (0 : Int) ≤ ((i * C + j : Nat) : Int) := by omega
  simp only [c3, if_true, Int.toNat_ofNat]

theorem getElem?_getD [Zero α] (f : List α) (k : Nat) (hk : k < f.length) :
    f[k]? = some (f.getD k 0) := by
  simp [List.getD, List.getElem?_eq_getElem hk]

theorem load_cell_ofCells [Zero α] (R C : Nat) (f : List α) (hf : f.length = R * C)
    (hmax : ((R * C : Nat) : Int) ≤ INT_MAX) (i j : Nat) (g : Nat → Nat → Option α)
    (hi : i < R) (hj : j < C) :
    load_cell (C : Int) f i j (Matrix.ofCells R C g) =
      .ok (Matrix.ofCells R C (upd g i j (f.getD (i * C + j) 0))) := by
  unfold load_cell
  rw [flat_index_ok R C i j hi hj hmax]
  simp only
  rw [getElem?_getD f _ (by rw [hf]; exact flat_lt R C i j hi hj)]
  exact write_ofCells R C g i j _ hi hj

theorem load_run_ofCells [Zero α] (R C : Nat) (hR : 0 < R) (hC : 0 < C) (f : List α)
    (hf : f.length = R * C) (hmax : ((R * C : Nat) : Int) ≤ INT_MAX)
    (w : World) (hw : w.allocOk = true) :
    load_matrix_from_file (some ((R : Int), (C : Int), f)) w =
      .ok (Matrix.ofCells R C (fun i j => some (f.getD (i * C + j) 0)),
        ⟨w.heap.drop (R + 1), w.log⟩) := by
  unfold load_matrix_from_file
  simp only
  rw [create_matrix_ok (R : Int) (C : Int) w (by omega) (by omega) hw]
  simp only [Int.toNat_ofNat]
  have hd : (Matrix.ofCells R C (fun _ _ => (none : Option α))).data =
      some ((List.range R).map fun i => .buf ((List.range C).map (fun _ => none))) := rfl
  rw [hd]
  simp only
  rw [fill_row_major R C R C (fun i j => f.getD (i * C + j) 0) _
    (fun i j g hi hj => load_cell_ofCells R C f hf hmax i j g hi hj)]
  simp only
  congr 2
  apply ofCells_congr
  intro i j hi hj
  simp [hi, hj]

/-- The flat array of `save_matrix_to_file` when the loops have reached row `i`,
column `j`. -/
theorem save_cell_ofCells (R C : Nat) (m : Nat → Nat → α)
    (hmax : ((R * C : Nat) : Int) ≤ INT_MAX) (i j : Nat) (hi : i < R) (hj : j < C) :
    save_cell (Matrix.ofCells R C fun a b => some (m a b)) i j
      ((List.range (R * C)).map fun k => if k < i * C + j then some (m (k / C) (k % C)) else none) =
      .ok ((List.range (R * C)).map fun k =>
        if k < i * C + (j + 1) then some (m (k / C) (k % C)) else none) := by
  unfold save_cell
  have hlt := flat_lt R C i j hi hj
  simp only [ofCells_cols]
  rw [flat_index_ok R C i j hi hj hmax]
  simp only
  rw [read_ofCells R C _ i j (m i j) hi hj rfl]
  simp only [List.length_map, List.length_range, hlt, if_true]
  congr 1
  apply List.ext_getElem?
  intro a
  simp only [List.getElem?_set, List.getElem?_map, List.length_map, List.length_range, range_get]
  by_cases ha : i * C + j = a
  · subst ha
    have e1 : (i * C + j) / C = i := by
      rw [Nat.add_comm, Nat.add_mul_div_right _ _ (by omega : 0 < C), Nat.div_eq_of_lt hj]
      simp
    have e2 : (i * C + j) % C = j := by
      rw [Nat.add_comm, Nat.add_mul_mod_self_right, Nat.mod_eq_of_lt hj]
    simp [hlt, e1, e2]
  · by_cases haR : a < R * C
    · have : (a < i * C + (j + 1)) ↔ (a < i * C + j) := by omega
      simp [ha, haR, this]
    · simp [ha, haR]

theorem save_loop_ofCells (R C : Nat) (m : Nat → Nat → α)
    (hmax : ((R * C : Nat) : Int) ≤ INT_MAX) :
    for_loop (fun index_row => for_loop
        (save_cell (Matrix.ofCells R C fun a b => some (m a b)) index_row) 0 C) 0 R
      (List.replicate (R * C) none) =
      .ok ((List.range (R * C)).map fun k => some (m (k / C) (k % C))) := by
  have key := for_loop2_eq (save_cell (Matrix.ofCells R C fun a b => some (m a b))) R C
    (fun i j => (List.range (R * C)).map fun k =>
      if k < i * C + j then some (m (k / C) (k % C)) else none)
    (fun i j hi hj => save_cell_ofCells R C m hmax i j hi hj)
    (by
      intro i _
      have : i * C + C = (i + 1) * C + 0 := by ring
      simp only [this])
  have e0 : (List.replicate (R * C) (none : Option α)) =
      (List.range (R * C)).map fun k =>
        if k < 0 * C + 0 then some (m (k / C) (k % C)) else none := by
    apply List.ext_getElem?
    intro a
    simp only [List.getElem?_replicate, List.getElem?_map, range_get]
    by_cases haR : a < R * C <;> simp [haR]
  rw [e0]
  refine key.trans ?_
  show Except.ok ((List.range (R * C)).map fun k =>
      if k < R * C + 0 then some (m (k / C) (k % C)) else none) = _
  congr 1
  apply List.map_congr_left
  intro k hk
  simp [List.mem_range.mp hk]

theorem save_run_ofCells (R C : Nat) (m : Nat → Nat → α)
    (hmax : ((R * C : Nat) : Int) ≤ INT_MAX)
    (output_save : Int → Int → List (Option α) → Int) (w : World) (hw : w.allocOk = true) :
    save_matrix_to_file (some (Matrix.ofCells R C fun a b => some (m a b))) output_save w =
      .ok (output_save R C ((List.range (R * C)).map fun k => some (m (k / C) (k % C))),
        ⟨w.heap.drop 1, w.log⟩) := by
  unfold save_matrix_to_file
  have hd : (Matrix.ofCells R C (fun a b => some (m a b))).data =
      some ((List.range R).map fun i => .buf ((List.range C).map (fun b => some (m i b)))) := rfl
  simp only [hd, ofCells_rows, ofCells_cols]
  have h1 : ((R : Int) * (C : Int)) = ((R * C : Nat) : Int) := by push_cast; rfl
  have c1 : INT_MIN ≤ ((R * C : Nat) : Int) ∧ ((R * C : Nat) : Int) ≤ INT_MAX := by
    unfold INT_MIN
    constructor <;> omega
  rw [h1]
  simp only [int_value, c1, and_self, if_true, Int.toNat_ofNat]
  rw [malloc_ok w hw]
  simp only
  rw [save_loop_ofCells R C m hmax]

end MatrixProject

theorem of_ite_eq_one {R : Type} [CommRing R] (n : Nat) :
    (Matrix.of fun (i j : Fin n) => if (i : Nat) = (j : Nat) then (1 : R) else 0) = 1 := by
  ext i j
  simp only [Matrix.of_apply, Matrix.one_apply, Fin.ext_iff]

theorem MatrixProject.laplace_identity {R : Type} [CommRing R] (n : Nat) (hn : 1 ≤ n) :
    MatrixProject.laplace n (fun i j => if i = j then (1 : R) else 0) = 1 := by
  obtain ⟨k, rfl⟩ : ∃ k, n = k + 1 := ⟨n - 1, by omega⟩
  rw [laplace_eq_det k, of_ite_eq_one, Matrix.det_one]

namespace MatrixProject
variable {α : Type}

theorem get_ofCells [Zero α] (r c : Nat) (f : Nat → Nat → α) (i j : Nat) (hi : i < r)
    (hj : j < c) : (Matrix.ofCells r c fun a b => some (f a b)).get i j = f i j := by
  simp [Matrix.get, cell_ofCells, hi, hj]

theorem sum_upto_congr [Ring α] (s t : Nat → α) (n : Nat) (h : ∀ k, k < n → s k = t k) :
    sum_upto s n = sum_upto t n := by
  induction n with
  | zero => rfl
  | succ k ih =>
    simp only [sum_upto]
    rw [ih (fun j hj => h j (Nat.lt_succ_of_lt hj)), h k (Nat.lt_succ_self k)]

theorem sum_upto_identity [Ring α] (a : Nat → α) (n i : Nat) (hi : i < n) :
    sum_upto (fun k => (if i = k then (1 : α) else 0) * a k) n = a i := by
  rw [sum_upto_eq_sum]
  simp [ite_mul, Finset.sum_ite_eq, hi]


theorem for_loop_preserve {σ : Type} (P : σ → Prop) (body : Nat → σ → Except Fault σ)
    (lo n : Nat) (hs : ∀ k, k < n → ∀ s t, P s → body (lo + k) s = .ok t → P t)
    (s t : σ) (h0 : P s) (h : for_loop body lo n s = .ok t) : P t := by
  induction n generalizing t with
  | zero =>
    simp only [for_loop, Except.ok.injEq] at h
    rw [← h]
    exact h0
  | succ k ih =>
    simp only [for_loop] at h
    cases hk : for_loop body lo k s with
    | error e => rw [hk] at h; simp [Except.bind] at h
    | ok u =>
      rw [hk] at h
      exact hs k (Nat.lt_succ_self k) u t
        (ih (fun j hj => hs j (Nat.lt_succ_of_lt hj)) u hk) h

/-- What a write at `(i, j)` leaves alone. -/
theorem write_frame (m m1 : Matrix α) (i j : Nat) (v : α) (h : m.write i j v = .ok m1) :
    m1.rows = m.rows ∧ m1.cols = m.cols ∧
      ∀ a b, a ≠ i ∨ b ≠ j → m1.cell a b = m.cell a b := by
  unfold Matrix.write at h
  cases hd : m.data with
  | none => simp [hd] at h
  | some d =>
    simp only [hd] at h
    cases hrow : d[i]? with
    | none => simp [hrow] at h
    | some p =>
      cases p with
      | uninit => simp [hrow] at h
      | null => simp [hrow] at h
      | buf cells =>
        simp only [hrow] at h
        by_cases hj : j < cells.length
        · simp only [hj, if_true, Except.ok.injEq] at h
          subst h
          refine ⟨rfl, rfl, ?_⟩
          intro a b hab
          simp only [Matrix.cell, hd, List.getElem?_set]
          by_cases hai : i = a
          · subst hai
            have hb : b ≠ j := by
              rcases hab with h1 | h1
              · exact absurd rfl h1
              · exact h1
            have hil : i < d.length := by
              by_contra hcon
              rw [List.getElem?_eq_none (by omega)] at hrow
              simp at hrow
            simp [hil, hrow, List.getElem?_set, Ne.symm hb]
          · simp [hai]
        · simp [hj] at h

/-- The frame of a pair of nested loops whose step writes only the cell of its
own indices. -/
theorem loops_frame (step : Nat → Nat → Matrix α → Except Fault (Matrix α)) (X Y : Nat)
    (hstep : ∀ i j r r1, i < X → j < Y → step i j r = .ok r1 →
      r1.rows = r.rows ∧ r1.cols = r.cols ∧ ∀ a b, a ≠ i ∨ b ≠ j → r1.cell a b = r.cell a b)
    (R R1 : Matrix α)
    (h : for_loop (fun i => for_loop (step i) 0 Y) 0 X R = .ok R1) :
    R1.rows = R.rows ∧ R1.cols = R.cols ∧
      ∀ a b, ¬ (a < X ∧ b < Y) → R1.cell a b = R.cell a b := by
  apply for_loop_preserve
    (fun s : Matrix α => s.rows = R.rows ∧ s.cols = R.cols ∧
      ∀ a b, ¬ (a < X ∧ b < Y) → s.cell a b = R.cell a b)
    (fun i => for_loop (step i) 0 Y) 0 X ?_ R R1 ⟨rfl, rfl, fun _ _ _ => rfl⟩ h
  intro i hi s t hP ht
  apply for_loop_preserve
    (fun s : Matrix α => s.rows = R.rows ∧ s.cols = R.cols ∧
      ∀ a b, ¬ (a < X ∧ b < Y) → s.cell a b = R.cell a b)
    (step (0 + i)) 0 Y ?_ s t hP ht
  intro j hj u v hu hv
  rw [Nat.zero_add] at hv
  obtain ⟨h1, h2, h3⟩ := hstep i (0 + j) u v hi (by omega) hv
  refine ⟨h1.trans hu.1, h2.trans hu.2.1, ?_⟩
  intro a b hab
  rw [h3 a b (by
    by_contra hcon
    push_neg at hcon
    exact hab ⟨by omega, by omega⟩)]
  exact hu.2.2 a b hab

section
variable [Ring α]

theorem add_cell_frame (A B : Matrix α) (i j : Nat) (r r1 : Matrix α)
    (h : add_cell A B i j r = .ok r1) :
    r1.rows = r.rows ∧ r1.cols = r.cols ∧ ∀ a b, a ≠ i ∨ b ≠ j → r1.cell a b = r.cell a b := by
  unfold add_cell at h
  split at h
  · exact write_frame r r1 i j _ h
  · simp at h

theorem sub_cell_frame (A B : Matrix α) (i j : Nat) (r r1 : Matrix α)
    (h : sub_cell A B i j r = .ok r1) :
    r1.rows = r.rows ∧ r1.cols = r.cols ∧ ∀ a b, a ≠ i ∨ b ≠ j → r1.cell a b = r.cell a b := by
  unfold sub_cell at h
  split at h
  · exact write_frame r r1 i j _ h
  · simp at h

theorem mul_cell_frame (A B : Matrix α) (i j : Nat) (r r1 : Matrix α)
    (h : mul_cell A B i j r = .ok r1) :
    r1.rows = r.rows ∧ r1.cols = r.cols ∧ ∀ a b, a ≠ i ∨ b ≠ j → r1.cell a b = r.cell a b := by
  unfold mul_cell at h
  split at h
  · simp at h
  · exact write_frame r r1 i j _ h

end

theorem for_loop_fault {σ : Type} (Q : Fault → Prop) (body : Nat → σ → Except Fault σ)
    (lo n : Nat) (hb : ∀ k s e, body k s = .error e → Q e)
    (s : σ) (e : Fault) (h : for_loop body lo n s = .error e) : Q e := by
  induction n generalizing e with
  | zero => simp [for_loop] at h
  | succ k ih =>
    simp only [for_loop] at h
    cases hk : for_loop body lo k s with
    | error e1 =>
      rw [hk] at h
      simp only [Except.bind, Except.error.injEq] at h
      rw [← h]
      exact ih e1 hk
    | ok u =>
      rw [hk] at h
      exact hb _ u e h

theorem for_loop_congr {σ : Type} (body1 body2 : Nat → σ → Except Fault σ) (lo n : Nat)
    (hb : ∀ k, k < n → ∀ s, body1 (lo + k) s = body2 (lo + k) s) (s : σ) :
    for_loop body1 lo n s = for_loop body2 lo n s := by
  induction n with
  | zero => rfl
  | succ k ih =>
    simp only [for_loop]
    rw [ih (fun j hj => hb j (Nat.lt_succ_of_lt hj))]
    cases for_loop body2 lo k s with
    | error e => rfl
    | ok u => exact hb k (Nat.lt_succ_self k) u

theorem read_fault (m : Matrix α) (i j : Nat) (e : Fault) (h : m.read i j = .error e) :
    e = .undefined_behaviour := by
  unfold Matrix.read at h
  split at h
  · simp at h; exact h.symm
  · split at h
    · split at h
      · simp at h
      · simp at h; exact h.symm
    · simp at h; exact h.symm

theorem write_fault (m : Matrix α) (i j : Nat) (v : α) (e : Fault)
    (h : m.write i j v = .error e) : e = .undefined_behaviour := by
  unfold Matrix.write at h
  split at h
  · simp at h; exact h.symm
  · split at h
    · split at h
      · simp at h
      · simp at h; exact h.symm
    · simp at h; exact h.symm

theorem free_row_fault (d : List (RowPtr α)) (i : Nat) (e : Fault)
    (h : free_row d i = .error e) : e = .undefined_behaviour := by
  unfold free_row at h
  split at h
  · simp at h
  · simp at h
  · simp at h; exact h.symm

theorem cleanup_row_fault (d : List (RowPtr α)) (i : Nat) (u : Unit) (e : Fault)
    (h : cleanup_row d i u = .error e) : e = .undefined_behaviour := by
  unfold cleanup_row at h
  split at h
  · simp at h
  · simp at h
  · simp at h; exact h.symm

theorem alloc_row_fault (cols : Int) (i : Nat) (s : AllocState α) (e : Fault)
    (h : alloc_row cols i s = .error e) : e = .undefined_behaviour := by
  unfold alloc_row at h
  split at h
  · split at h
    · split at h
      · simp at h
      · simp at h
    · simp at h; exact h.symm
  · simp at h

theorem free_matrix_fault (m : Option (Matrix α)) (e : Fault)
    (h : free_matrix m = .error e) : e = .undefined_behaviour := by
  unfold free_matrix at h
  split at h
  · simp at h; exact h.symm
  · split at h
    · simp at h
    · split at h
      · rename_i e1 hl
        simp only [Except.error.injEq] at h
        rw [← h]
        exact for_loop_fault (fun e => e = .undefined_behaviour) _ 0 _
          (fun k s e he => free_row_fault _ k e he) () e1 hl
      · simp at h

theorem create_matrix_fault (rows cols : Int) (w : World) (e : Fault)
    (h : (create_matrix rows cols w : Except Fault (Matrix α × World)) = .error e) :
    e = .undefined_behaviour := by
  unfold create_matrix at h
  split at h
  · simp at h
  · split at h
    · simp at h
    · split at h
      · rename_i e1 hl
        simp only [Except.error.injEq] at h
        rw [← h]
        exact for_loop_fault (fun e => e = .undefined_behaviour) _ 0 _
          (fun k s e he => alloc_row_fault cols k s e he) _ e1 hl
      · split at h
        · simp at h
        · split at h
          · rename_i e1 hl
            simp only [Except.error.injEq] at h
            rw [← h]
            exact for_loop_fault (fun e => e = .undefined_behaviour) _ 0 _
              (fun k s e he => cleanup_row_fault _ k s e he) _ e1 hl
          · simp at h

theorem create_matrix_shape (rows cols : Int) (w : World) (m : Matrix α) (w1 : World)
    (h : create_matrix rows cols w = .ok (m, w1)) (hd : m.data ≠ none) :
    m.rows = rows ∧ m.cols = cols := by
  unfold create_matrix at h
  split at h
  · simp only [Except.ok.injEq, Prod.mk.injEq] at h
    rw [← h.1] at hd
    exact absurd rfl hd
  · split at h
    · simp only [Except.ok.injEq, Prod.mk.injEq] at h
      rw [← h.1] at hd
      exact absurd rfl hd
    · split at h
      · simp at h
      · split at h
        · simp only [Except.ok.injEq, Prod.mk.injEq] at h
          rw [← h.1]
          exact ⟨rfl, rfl⟩
        · split at h
          · simp at h
          · simp only [Except.ok.injEq, Prod.mk.injEq] at h
            rw [← h.1] at hd
            exact absurd rfl hd

theorem minor_cell_fault (m : Matrix α) (c r k : Nat) (s : Matrix α × Nat) (e : Fault)
    (h : minor_cell m c r k s = .error e) : e = .undefined_behaviour := by
  unfold minor_cell at h
  split at h
  · split at h
    · rename_i e1 hr
      simp only [Except.error.injEq] at h
      rw [← h]
      exact read_fault m _ _ e1 hr
    · split at h
      · rename_i e1 hw
        simp only [Except.error.injEq] at h
        rw [← h]
        exact write_fault _ _ _ _ e1 hw
      · simp at h
  · simp at h

theorem minor_cell_rows (m : Matrix α) (c r k : Nat) (s t : Matrix α × Nat)
    (h : minor_cell m c r k s = .ok t) : t.1.rows = s.1.rows := by
  unfold minor_cell at h
  split at h
  · split at h
    · simp at h
    · split at h
      · simp at h
      · rename_i sub hw
        simp only [Except.ok.injEq] at h
        rw [← h]
        exact (write_frame _ _ _ _ _ hw).1
  · simp only [Except.ok.injEq] at h
    rw [h]

theorem minor_row_fault (m : Matrix α) (n c r : Nat) (s : Matrix α) (e : Fault)
    (h : minor_row m n c r s = .error e) : e = .undefined_behaviour := by
  unfold minor_row at h
  split at h
  · rename_i e1 hl
    simp only [Except.error.injEq] at h
    rw [← h]
    exact for_loop_fault (fun e => e = .undefined_behaviour) _ 0 _
      (fun k s e he => minor_cell_fault m c r k s e he) _ e1 hl
  · simp at h

theorem minor_row_rows (m : Matrix α) (n c r : Nat) (s t : Matrix α)
    (h : minor_row m n c r s = .ok t) : t.rows = s.rows := by
  unfold minor_row at h
  split at h
  · simp at h
  · rename_i u hl
    simp only [Except.ok.injEq] at h
    rw [← h]
    exact for_loop_preserve (fun p : Matrix α × Nat => p.1.rows = s.rows)
      (minor_cell m c r) 0 n
      (fun k _ p q hp hq => (minor_cell_rows m c r _ p q hq).trans hp) (s, 0) u rfl hl

theorem minor_fill_rows (m : Matrix α) (n c cnt : Nat) (s t : Matrix α)
    (h : for_loop (minor_row m n c) 1 cnt s = .ok t) : t.rows = s.rows :=
  for_loop_preserve (fun p : Matrix α => p.rows = s.rows) (minor_row m n c) 1 cnt
    (fun _ _ p q hp hq => (minor_row_rows m n c _ p q hq).trans hp) s t rfl h

theorem minor_fill_fault (m : Matrix α) (n c cnt : Nat) (s : Matrix α) (e : Fault)
    (h : for_loop (minor_row m n c) 1 cnt s = .error e) : e = .undefined_behaviour :=
  for_loop_fault (fun e => e = .undefined_behaviour) _ 1 cnt
    (fun k s e he => minor_row_fault m n c k s e he) s e h


section
variable [Ring α]

theorem determinant_term_terminates
    (self : Option (Matrix α) → World → Except Fault (α × World)) (m : Matrix α)
    (hself : ∀ sub w1, sub.rows = m.rows - 1 → self (some sub) w1 ≠ .error .out_of_fuel)
    (c : Nat) (s : α × World) (e : Fault) (h : determinant_term self m c s = .error e) :
    e ≠ .out_of_fuel := by
  unfold determinant_term at h
  split at h
  · rename_i e1 hc
    simp only [Except.error.injEq] at h
    rw [← h, create_matrix_fault _ _ _ e1 hc]
    decide
  · rename_i submat w1 hc
    split at h
    · simp at h
    · rename_i d hd
      split at h
      · rename_i e1 hl
        simp only [Except.error.injEq] at h
        rw [← h, minor_fill_fault _ _ _ _ _ e1 hl]
        decide
      · rename_i filled hl
        have hrows : filled.rows = m.rows - 1 := by
          rw [minor_fill_rows _ _ _ _ _ _ hl]
          exact (create_matrix_shape _ _ _ _ _ hc (by rw [hd]; simp)).1
        split at h
        · rename_i e1 hs
          simp only [Except.error.injEq] at h
          rw [← h]
          intro hcon
          rw [hcon] at hs
          exact hself filled w1 hrows hs
        · split at h
          · rename_i e1 hr
            simp only [Except.error.injEq] at h
            rw [← h, read_fault _ _ _ e1 hr]
            decide
          · split at h
            · rename_i e1 hf
              simp only [Except.error.injEq] at h
              rw [← h, free_matrix_fault _ e1 hf]
              decide
            · simp at h

theorem determinant_body_terminates
    (self : Option (Matrix α) → World → Except Fault (α × World)) (matrix : Option (Matrix α))
    (hself : ∀ m sub w1, matrix = some m → 2 < m.rows → sub.rows = m.rows - 1 →
      self (some sub) w1 ≠ .error .out_of_fuel) (w : World) :
    determinant_body self matrix w ≠ .error .out_of_fuel := by
  intro h
  unfold determinant_body at h
  split at h
  · simp at h
  · rename_i m
    split at h
    · simp at h
    · rename_i hsq
      split at h
      · split at h
        · simp at h
        · rename_i e1 hr
          simp only [Except.error.injEq] at h
          have := read_fault _ _ _ e1 hr
          rw [h] at this
          exact absurd this (by decide)
      · rename_i h1
        split at h
        · split at h
          · simp at h
          · simp at h
        · rename_i h2
          have hbig : 2 < m.rows := by
            have : m.rows = m.cols ∧ 0 < m.rows := by
              by_contra hcon
              exact hsq hcon
            omega
          exact for_loop_fault (fun e => e ≠ .out_of_fuel) _ 0 _
            (fun k s e he => determinant_term_terminates self m
              (fun sub w1 hs => hself m sub w1 rfl hbig hs) k s e he) _ _ h rfl

theorem determinant_fuel_terminates (fuel : Nat) (matrix : Option (Matrix α)) (w : World)
    (hfuel : ∀ m, matrix = some m → m.rows ≤ fuel + 2) :
    determinant_fuel fuel matrix w ≠ .error .out_of_fuel := by
  induction fuel generalizing matrix w with
  | zero =>
    apply determinant_body_terminates
    intro m sub w1 hm hbig _
    have := hfuel m hm
    omega
  | succ k ih =>
    apply determinant_body_terminates
    intro m sub w1 hm hbig hs
    apply ih
    intro m1 hm1
    simp only [Option.some.injEq] at hm1
    subst hm1
    have := hfuel m hm
    omega

theorem determinant_terminates (matrix : Option (Matrix α)) (w : World) :
    determinant matrix w ≠ .error .out_of_fuel := by
  unfold determinant
  apply determinant_fuel_terminates
  intro m hm
  subst hm
  simp only
  omega

end

theorem for_loop_preserve_idx {σ : Type} (P : Nat → σ → Prop)
    (body : Nat → σ → Except Fault σ) (lo n : Nat)
    (hs : ∀ k, k < n → ∀ s t, P k s → body (lo + k) s = .ok t → P (k + 1) t)
    (s t : σ) (h0 : P 0 s) (h : for_loop body lo n s = .ok t) : P n t := by
  induction n generalizing t with
  | zero =>
    simp only [for_loop, Except.ok.injEq] at h
    rw [← h]
    exact h0
  | succ k ih =>
    simp only [for_loop] at h
    cases hk : for_loop body lo k s with
    | error e => rw [hk] at h; simp [Except.bind] at h
    | ok u =>
      rw [hk] at h
      exact hs k (Nat.lt_succ_self k) u t
        (ih (fun j hj => hs j (Nat.lt_succ_of_lt hj)) u hk) h

theorem alloc_row_data (cols : Int) (R k : Nat) (hk : k < R) (s t : AllocState α)
    (hP : s.res = true → s.data = (List.range R).map (fun i => if i < k then
      RowPtr.buf (List.replicate cols.toNat (none : Option α)) else RowPtr.uninit))
    (h : alloc_row cols (0 + k) s = .ok t) :
    t.res = true → t.data = (List.range R).map (fun i => if i < k + 1 then
      RowPtr.buf (List.replicate cols.toNat (none : Option α)) else RowPtr.uninit) := by
  unfold alloc_row at h
  split at h
  · rename_i hres
    split at h
    · split at h
      · simp only [Except.ok.injEq] at h
        intro _
        rw [← h, hP hres]
        simp only [Nat.zero_add]
        apply List.ext_getElem?
        intro a
        simp only [List.getElem?_set, List.getElem?_map, List.length_map, List.length_range,
          range_get]
        by_cases hak : k = a
        · subst hak
          simp [hk]
        · by_cases haR : a < R
          · have : (a < k + 1) ↔ (a < k) := by omega
            simp [hak, haR, this]
          · simp [hak, haR]
      · simp only [Except.ok.injEq] at h
        intro hcon
        rw [← h] at hcon
        simp at hcon
    · simp at h
  · rename_i hres
    simp only [Except.ok.injEq] at h
    intro hcon
    rw [← h] at hcon
    exact absurd hcon hres

theorem create_matrix_some (rows cols : Int) (hr : 0 < rows) (hc : 0 < cols) (w : World)
    (m : Matrix α) (w1 : World) (h : create_matrix rows cols w = .ok (m, w1))
    (hd : m.data ≠ none) :
    m = Matrix.ofCells rows.toNat cols.toNat (fun _ _ => none) := by
  unfold create_matrix at h
  split at h
  · simp only [Except.ok.injEq, Prod.mk.injEq] at h
    rw [← h.1] at hd
    exact absurd rfl hd
  · split at h
    · simp only [Except.ok.injEq, Prod.mk.injEq] at h
      rw [← h.1] at hd
      exact absurd rfl hd
    · split at h
      · simp at h
      · rename_i s hl
        split at h
        · rename_i hres
          simp only [Except.ok.injEq, Prod.mk.injEq] at h
          rw [← h.1]
          have hdata := for_loop_preserve_idx
            (fun k (s : AllocState α) => s.res = true →
              s.data = (List.range rows.toNat).map (fun i => if i < k then
                RowPtr.buf (List.replicate cols.toNat (none : Option α)) else RowPtr.uninit))
            (alloc_row cols) 0 rows.toNat
            (fun k hk s t hP ht => alloc_row_data cols rows.toNat k hk s t hP ht)
            _ s
            (by
              intro _
              apply List.ext_getElem?
              intro a
              simp only [List.getElem?_replicate, List.getElem?_map, range_get]
              by_cases haR : a < rows.toNat <;> simp [haR])
            hl hres
          have e1 : ((rows.toNat : Nat) : Int) = rows := Int.toNat_of_nonneg (le_of_lt hr)
          have e2 : ((cols.toNat : Nat) : Int) = cols := Int.toNat_of_nonneg (le_of_lt hc)
          unfold Matrix.ofCells
          rw [e1, e2, hdata]
          congr 2
          apply List.map_congr_left
          intro i hi
          simp only [List.mem_range.mp hi, if_true]
          congr 1
          apply List.ext_getElem?
          intro b
          simp only [List.getElem?_replicate, List.getElem?_map, range_get]
          by_cases hb : b < cols.toNat <;> simp [hb]
        · split at h
          · simp at h
          · simp only [Except.ok.injEq, Prod.mk.injEq] at h
            rw [← h.1] at hd
            exact absurd rfl hd

section
variable [Ring α]

theorem determinant_term_congr
    (self1 self2 : Option (Matrix α) → World → Except Fault (α × World)) (m : Matrix α)
    (hagree : ∀ sub w1, sub.rows = m.rows - 1 → self1 (some sub) w1 = self2 (some sub) w1)
    (c : Nat) (s : α × World) :
    determinant_term self1 m c s = determinant_term self2 m c s := by
  unfold determinant_term
  cases hc : (create_matrix (m.rows - 1) (m.rows - 1) s.2 : Except Fault (Matrix α × World)) with
  | error e => rfl
  | ok p =>
    obtain ⟨submat, w1⟩ := p
    simp only
    cases hd : submat.data with
    | none => rfl
    | some d =>
      simp only
      cases hl : for_loop (minor_row m m.rows.toNat c) 1 (m.rows.toNat - 1) submat with
      | error e => rfl
      | ok filled =>
        simp only
        have hrows : filled.rows = m.rows - 1 := by
          rw [minor_fill_rows _ _ _ _ _ _ hl]
          exact (create_matrix_shape _ _ _ _ _ hc (by rw [hd]; simp)).1
        rw [hagree filled w1 hrows]

theorem determinant_term_congr_wf
    (self1 self2 : Option (Matrix α) → World → Except Fault (α × World)) (n : Nat) (hn : 2 < n)
    (f : Nat → Nat → α)
    (hagree : ∀ sub w1, sub.wellFormed = true → sub.rows = ((n - 1 : Nat) : Int) →
      sub.cols = ((n - 1 : Nat) : Int) → self1 (some sub) w1 = self2 (some sub) w1)
    (c : Nat) (hc : c < n) (s : α × World) :
    determinant_term self1 (Matrix.ofCells n n fun a b => some (f a b)) c s =
      determinant_term self2 (Matrix.ofCells n n fun a b => some (f a b)) c s := by
  unfold determinant_term
  have e1 : ((n : Int) - 1) = ((n - 1 : Nat) : Int) := by omega
  simp only [ofCells_rows, e1, Int.toNat_ofNat]
  cases hcm : (create_matrix ((n - 1 : Nat) : Int) ((n - 1 : Nat) : Int) s.2 :
      Except Fault (Matrix α × World)) with
  | error e => rfl
  | ok p =>
    obtain ⟨submat, w1⟩ := p
    simp only
    cases hd : submat.data with
    | none => rfl
    | some d =>
      simp only
      have hsub := create_matrix_some _ _ (by omega) (by omega) _ _ _ hcm (by rw [hd]; simp)
      simp only [Int.toNat_ofNat] at hsub
      rw [hsub, minor_fill_ofCells n c hc f]
      simp only
      rw [hagree _ w1 (wellFormed_ofCells _ _ (by omega) (by omega) _) rfl rfl]

theorem determinant_body_congr
    (self1 self2 : Option (Matrix α) → World → Except Fault (α × World))
    (matrix : Option (Matrix α)) (w : World)
    (hagree : ∀ m sub w1, matrix = some m → m.rows = m.cols → 2 < m.rows →
      sub.rows = m.rows - 1 → self1 (some sub) w1 = self2 (some sub) w1) :
    determinant_body self1 matrix w = determinant_body self2 matrix w := by
  unfold determinant_body
  cases matrix with
  | none => rfl
  | some m =>
    simp only
    by_cases hsq : m.rows = m.cols ∧ 0 < m.rows
    · rw [if_neg (not_not.mpr hsq), if_neg (not_not.mpr hsq)]
      by_cases h1 : m.rows = 1
      · rw [if_pos h1, if_pos h1]
      · rw [if_neg h1, if_neg h1]
        by_cases h2 : m.rows = 2
        · rw [if_pos h2, if_pos h2]
        · rw [if_neg h2, if_neg h2]
          apply for_loop_congr
          intro k _ s
          exact determinant_term_congr self1 self2 m
            (fun sub w1 hs => hagree m sub w1 rfl hsq.1 (by omega) hs) _ s
    · rw [if_pos hsq, if_pos hsq]

theorem determinant_body_congr_wf
    (self1 self2 : Option (Matrix α) → World → Except Fault (α × World))
    (n : Nat) (hn : 2 < n) (f : Nat → Nat → α) (w : World)
    (hagree : ∀ sub w1, sub.wellFormed = true → sub.rows = ((n - 1 : Nat) : Int) →
      sub.cols = ((n - 1 : Nat) : Int) → self1 (some sub) w1 = self2 (some sub) w1) :
    determinant_body self1 (some (Matrix.ofCells n n fun a b => some (f a b))) w =
      determinant_body self2 (some (Matrix.ofCells n n fun a b => some (f a b))) w := by
  unfold determinant_body
  have hsq : ((n : Int) = (n : Int) ∧ (0 : Int) < (n : Int)) := ⟨rfl, by omega⟩
  have h1 : ¬ (n : Int) = 1 := by omega
  have h2 : ¬ (n : Int) = 2 := by omega
  simp only [ofCells_rows, ofCells_cols, hsq, and_self, not_true_eq_false, if_false, h1, h2,
    Int.toNat_ofNat]
  apply for_loop_congr
  intro k hk s
  rw [Nat.zero_add]
  exact determinant_term_congr_wf self1 self2 n hn f hagree k hk s

theorem determinant_fuel_independent (fuel1 fuel2 : Nat) (matrix : Option (Matrix α))
    (w : World) (h1 : ∀ m, matrix = some m → m.rows ≤ fuel1 + 2)
    (h2 : ∀ m, matrix = some m → m.rows ≤ fuel2 + 2) :
    determinant_fuel fuel1 matrix w = determinant_fuel fuel2 matrix w := by
  induction fuel1 generalizing fuel2 matrix w with
  | zero =>
    cases fuel2 with
    | zero => rfl
    | succ k =>
      apply determinant_body_congr
      intro m sub w1 hm _ hbig _
      have := h1 m hm
      omega
  | succ j ih =>
    cases fuel2 with
    | zero =>
      apply determinant_body_congr
      intro m sub w1 hm _ hbig _
      have := h2 m hm
      omega
    | succ k =>
      apply determinant_body_congr
      intro m sub w1 hm _ hbig hs
      apply ih
      · intro m1 hm1
        simp only [Option.some.injEq] at hm1
        subst hm1
        have := h1 m hm
        omega
      · intro m1 hm1
        simp only [Option.some.injEq] at hm1
        subst hm1
        have := h2 m hm
        omega

end

theorem for_loop_map {σ τ : Type} (proj : σ → τ) (body1 : Nat → σ → Except Fault σ)
    (body2 : Nat → τ → Except Fault τ) (lo n : Nat)
    (hb : ∀ k s, (body1 k s).map proj = body2 k (proj s)) (s : σ) :
    (for_loop body1 lo n s).map proj = for_loop body2 lo n (proj s) := by
  induction n with
  | zero => rfl
  | succ k ih =>
    simp only [for_loop]
    rw [← ih]
    cases for_loop body1 lo k s with
    | error e => rfl
    | ok u => exact hb (lo + k) u

theorem minor_cell_traced_erase (m : Matrix α) (c r k : Nat) (s : MinorState α) :
    (minor_cell_traced m c r k s).map (fun t => (t.submat, t.subcol_index)) =
      minor_cell m c r k (s.submat, s.subcol_index) := by
  unfold minor_cell_traced minor_cell
  by_cases hk : k ≠ c
  · rw [if_pos hk, if_pos hk]
    cases m.read r k with
    | error e => rfl
    | ok v =>
      simp only
      cases s.submat.write (r - 1) s.subcol_index v with
      | error e => rfl
      | ok sub => rfl
  · rw [if_neg hk, if_neg hk]
    rfl

theorem minor_row_traced_erase (m : Matrix α) (n c r : Nat) (s : Matrix α × List Access) :
    (minor_row_traced m n c r s).map Prod.fst = minor_row m n c r s.1 := by
  unfold minor_row_traced minor_row
  have h := for_loop_map (fun t : MinorState α => (t.submat, t.subcol_index))
    (minor_cell_traced m c r) (minor_cell m c r) 0 n
    (fun k s => minor_cell_traced_erase m c r k s) ⟨s.1, 0, s.2⟩
  simp only at h
  rw [← h]
  cases for_loop (minor_cell_traced m c r) 0 n ⟨s.1, 0, s.2⟩ with
  | error e => rfl
  | ok t => rfl

theorem minor_fill_traced_erase (m : Matrix α) (n c : Nat) (submat : Matrix α) :
    (minor_fill_traced m n c submat).map Prod.fst =
      for_loop (minor_row m n c) 1 (n - 1) submat :=
  for_loop_map Prod.fst (minor_row_traced m n c) (minor_row m n c) 1 (n - 1)
    (fun k s => minor_row_traced_erase m n c k s) (submat, [])

theorem traceOk_nil (n : Nat) : TraceOk n 0 0 [] := by
  refine ⟨?_, ?_, ?_, ?_⟩
  · intro i1 j1 h
    simp at h
  · intro i1 j1 h
    simp at h
  · intro a b
    simp
  · intro a
    simp

theorem traceOk_next_row (n t : Nat) (tr : List Access) (h : TraceOk n t (n - 1) tr) :
    TraceOk n (t + 1) 0 tr := by
  obtain ⟨h1, h2, h3, h4⟩ := h
  refine ⟨h1, h2, ?_, ?_⟩
  · intro a b
    rw [h3 a b]
    have : ((a < t ∧ b < n - 1) ∨ (a = t ∧ b < n - 1)) ↔
        ((a < t + 1 ∧ b < n - 1) ∨ (a = t + 1 ∧ b < 0)) := by
      constructor
      · rintro (⟨h, h2⟩ | ⟨h2, h3⟩)
        · exact Or.inl ⟨by omega, h2⟩
        · exact Or.inl ⟨by omega, h3⟩
      · rintro (⟨h, h2⟩ | ⟨h2, h3⟩)
        · by_cases ha : a = t
          · exact Or.inr ⟨ha, h2⟩
          · exact Or.inl ⟨by omega, h2⟩
        · omega
    simp only [this]
  · intro a
    rw [h4 a]
    by_cases h5 : a < t
    · have : a < t + 1 := by omega
      simp [h5, this]
    · by_cases h6 : a = t
      · subst h6
        simp
      · have h7 : ¬ a < t + 1 := by omega
        simp only [h5, h6, h7, if_false]
        split <;> rfl

theorem traceOk_step (n t j r k : Nat) (hr : r < n) (hk : k < n) (ht : t < n - 1)
    (hj : j < n - 1) (tr : List Access) (h : TraceOk n t j tr) :
    TraceOk n t (j + 1) (tr ++ [Access.read r k, Access.write t j]) := by
  obtain ⟨h1, h2, h3, h4⟩ := h
  refine ⟨?_, ?_, ?_, ?_⟩
  · intro i1 j1 hmem
    simp at hmem
    rcases hmem with hmem | ⟨rfl, rfl⟩
    · exact h1 i1 j1 hmem
    · exact ⟨hr, hk⟩
  · intro i1 j1 hmem
    simp at hmem
    rcases hmem with hmem | ⟨rfl, rfl⟩
    · exact h2 i1 j1 hmem
    · exact ⟨ht, hj⟩
  · intro a b
    rw [List.count_append, h3 a b]
    by_cases hab : a = t ∧ b = j
    · obtain ⟨rfl, rfl⟩ := hab
      have e1 : ¬ ((a < a ∧ b < n - 1) ∨ (a = a ∧ b < b)) := by omega
      have e2 : ((a < a ∧ b < n - 1) ∨ (a = a ∧ b < b + 1)) := Or.inr ⟨rfl, by omega⟩
      simp [e1, e2, List.count_cons]
    · have e3 : ((a < t ∧ b < n - 1) ∨ (a = t ∧ b < j + 1)) ↔
          ((a < t ∧ b < n - 1) ∨ (a = t ∧ b < j)) := by
        constructor
        · rintro (h | ⟨h5, h6⟩)
          · exact Or.inl h
          · refine Or.inr ⟨h5, ?_⟩
            have : b ≠ j := fun hb => hab ⟨h5, hb⟩
            omega
        · rintro (h | ⟨h5, h6⟩)
          · exact Or.inl h
          · exact Or.inr ⟨h5, by omega⟩
      have e4 : ¬ (t = a ∧ j = b) := fun h5 => hab ⟨h5.1.symm, h5.2.symm⟩
      simp [e3, e4, List.count_cons]
  · intro a
    rw [List.filter_append, List.length_append, h4 a]
    by_cases h5 : a < t
    · have h6 : ¬ t = a := by omega
      simp [h5, Access.isWriteRow, List.filter_cons, h6]
    · by_cases h6 : a = t
      · subst h6
        simp [Access.isWriteRow, List.filter_cons]
      · have h7 : ¬ t = a := fun h => h6 h.symm
        simp [h5, h6, h7, Access.isWriteRow, List.filter_cons]


theorem subcol_lt (n c k : Nat) (hc : c < n) (hk : k < n) (hkc : k ≠ c) :
    subcol c k < n - 1 := by
  unfold subcol
  split <;> omega

theorem subcol_succ (c k : Nat) (hkc : k ≠ c) : subcol c (k + 1) = subcol c k + 1 := by
  unfold subcol
  by_cases h1 : k ≤ c
  · have : k + 1 ≤ c := by omega
    simp [h1, this]
  · have h2 : ¬ (k + 1 ≤ c) := by omega
    simp only [h1, h2, if_false]
    omega

theorem subcol_skip (c : Nat) : subcol c (c + 1) = subcol c c := by
  simp [subcol]

theorem minor_subcol (f : Nat → Nat → α) (c t k : Nat) (hkc : k ≠ c) :
    f (1 + t) k = minor f c t (subcol c k) := by
  unfold minor subcol
  by_cases h1 : k ≤ c
  · have : k < c := by omega
    simp [h1, this, Nat.add_comm]
  · have h2 : ¬ (k - 1 < c) := by omega
    have h3 : k - 1 + 1 = k := by omega
    simp [h1, h2, h3, Nat.add_comm]

theorem minor_cell_traced_ofCells (n c t k : Nat) (hc : c < n) (ht : t < n - 1) (hk : k < n)
    (f : Nat → Nat → α) (g : Nat → Nat → Option α) (s : MinorState α)
    (hP : s.submat = Matrix.ofCells (n - 1) (n - 1) (fillRM (n - 1) (minor f c) g t (subcol c k)) ∧
      s.subcol_index = subcol c k ∧ TraceOk n t (subcol c k) s.trace) :
    ∃ s1, minor_cell_traced (Matrix.ofCells n n fun a b => some (f a b)) c (1 + t) (0 + k) s =
        .ok s1 ∧
      (s1.submat = Matrix.ofCells (n - 1) (n - 1)
          (fillRM (n - 1) (minor f c) g t (subcol c (k + 1))) ∧
        s1.subcol_index = subcol c (k + 1) ∧ TraceOk n t (subcol c (k + 1)) s1.trace) := by
  obtain ⟨h1, h2, h3⟩ := hP
  unfold minor_cell_traced
  rw [Nat.zero_add]
  by_cases hkc : k = c
  · subst hkc
    simp only [ne_eq, not_true_eq_false, if_false]
    refine ⟨s, rfl, ?_⟩
    rw [subcol_skip]
    exact ⟨h1, h2, h3⟩
  · simp only [ne_eq, hkc, not_false_eq_true, if_true]
    rw [read_ofCells n n _ (1 + t) k (f (1 + t) k) (by omega) hk rfl]
    simp only [Nat.add_sub_cancel_left]
    have hs := subcol_lt n c k hc hk hkc
    rw [h1, h2, write_ofCells (n - 1) (n - 1) _ t (subcol c k) _ ht hs]
    refine ⟨_, rfl, ?_, ?_, ?_⟩
    · simp only
      rw [minor_subcol f c t k hkc, upd_fillRM, subcol_succ c k hkc]
    · simp only
      rw [subcol_succ c k hkc]
    · simp only
      rw [subcol_succ c k hkc]
      exact traceOk_step n t (subcol c k) (1 + t) k (by omega) hk ht hs _ h3

theorem minor_row_traced_ofCells (n c t : Nat) (hc : c < n) (ht : t < n - 1)
    (f : Nat → Nat → α) (g : Nat → Nat → Option α) (s : Matrix α × List Access)
    (hQ : s.1 = Matrix.ofCells (n - 1) (n - 1) (fillRM (n - 1) (minor f c) g t 0) ∧
      TraceOk n t 0 s.2) :
    ∃ s1, minor_row_traced (Matrix.ofCells n n fun a b => some (f a b)) n c (1 + t) s = .ok s1 ∧
      (s1.1 = Matrix.ofCells (n - 1) (n - 1) (fillRM (n - 1) (minor f c) g (t + 1) 0) ∧
        TraceOk n (t + 1) 0 s1.2) := by
  unfold minor_row_traced
  have e0 : subcol c 0 = 0 := by simp [subcol]
  have en : subcol c n = n - 1 := by
    unfold subcol
    have : ¬ (n ≤ c) := by omega
    simp [this]
  obtain ⟨u, hu, h1, _, h3⟩ := for_loop_inv
    (fun k (s : MinorState α) =>
      s.submat = Matrix.ofCells (n - 1) (n - 1)
        (fillRM (n - 1) (minor f c) g t (subcol c k)) ∧
      s.subcol_index = subcol c k ∧ TraceOk n t (subcol c k) s.trace)
    (minor_cell_traced (Matrix.ofCells n n fun a b => some (f a b)) c (1 + t)) 0 n
    ⟨s.1, 0, s.2⟩
    (by
      simp only [e0]
      exact ⟨hQ.1, trivial, hQ.2⟩)
    (fun k hk s hP => minor_cell_traced_ofCells n c t k hc ht hk f g s hP)
  rw [hu]
  refine ⟨_, rfl, ?_, ?_⟩
  · simp only
    rw [h1, en, fillRM_next_row]
  · simp only
    rw [en] at h3
    exact traceOk_next_row n t _ h3

theorem minor_fill_traced_ofCells (n c : Nat) (hc : c < n) (f : Nat → Nat → α)
    (g : Nat → Nat → Option α) :
    ∃ tr, minor_fill_traced (Matrix.ofCells n n fun a b => some (f a b)) n c
        (Matrix.ofCells (n - 1) (n - 1) g) =
        .ok (Matrix.ofCells (n - 1) (n - 1) (fun a b => some (minor f c a b)), tr) ∧
      TraceOk n (n - 1) 0 tr := by
  unfold minor_fill_traced
  obtain ⟨u, hu, h1, h2⟩ := for_loop_inv
    (fun t (s : Matrix α × List Access) =>
      s.1 = Matrix.ofCells (n - 1) (n - 1) (fillRM (n - 1) (minor f c) g t 0) ∧
      TraceOk n t 0 s.2)
    (minor_row_traced (Matrix.ofCells n n fun a b => some (f a b)) n c) 1 (n - 1)
    (Matrix.ofCells (n - 1) (n - 1) g, [])
    (by
      refine ⟨?_, traceOk_nil n⟩
      simp only
      rw [fillRM_start])
    (fun t ht s hQ => minor_row_traced_ofCells n c t hc ht f g s hQ)
  obtain ⟨sub, tr⟩ := u
  simp only at h1 h2
  refine ⟨tr, ?_, h2⟩
  rw [hu, h1, fillRM_end]
  congr 2
  apply ofCells_congr
  intro i j hi hj
  simp [hi, hj]

end MatrixProject

/-! ## The claims -/

/-- C1: for every `n ≥ 1` and every well-formed `n × n` matrix `M` over a
commutative ring, when no allocation of a minor fails, `determinant` returns the
mathematical determinant of `M` (`Matrix.det` of Mathlib) and signals nothing. -/
theorem determinant_eq_det {R : Type} [CommRing R] (n : Nat) (hn : 1 ≤ n)
    (M : MatrixProject.Matrix R) (hM : M.wellFormed = true)
    (hrows : M.rows = n) (hcols : M.cols = n)
    (w : MatrixProject.World) (hw : w.allocOk = true) :
    ∃ w1, MatrixProject.determinant (some M) w =
        .ok (Matrix.det (Matrix.of fun (i j : Fin n) => M.get i j), w1) ∧
      w1.log = w.log := by
  have e := MatrixProject.wellFormed_eq_ofCells M hM
  have hr : M.rows.toNat = n := by omega
  have hc : M.cols.toNat = n := by omega
  rw [hr, hc] at e
  obtain ⟨w1, h1, _, h3⟩ := MatrixProject.determinant_ofCells n hn M.get w hw
  rw [← e] at h1
  refine ⟨w1, ?_, h3⟩
  rw [h1]
  obtain ⟨k, rfl⟩ : ∃ k, n = k + 1 := ⟨n - 1, by omega⟩
  rw [laplace_eq_det k M.get]

/-- Witness of C1 on `[[2, 0, 0], [0, 3, 0], [0, 0, 4]]`. -/
theorem determinant_eq_det_witness :
    MatrixProject.exD.wellFormed = true ∧ MatrixProject.exW.allocOk = true ∧
      ∃ w1, MatrixProject.determinant (some MatrixProject.exD) MatrixProject.exW =
          .ok (Matrix.det (Matrix.of fun (i j : Fin 3) => MatrixProject.exD.get i j), w1) ∧
        w1.log = MatrixProject.exW.log :=
  ⟨by decide, by decide,
    determinant_eq_det 3 (by decide) MatrixProject.exD (by decide) rfl rfl MatrixProject.exW
      (by decide)⟩

namespace MatrixProject
variable {α : Type}

/-- C2: for well-formed `A` and `B` with `A.cols = B.rows` and an allocated
result of shape `A.rows × B.cols`, `multiply_matrices` returns `0`, signals
nothing, keeps the shape of the result, and leaves in every cell `(i, j)` the sum
of `A[i][k] * B[k][j]` accumulated from `0` in the order `k = 0, ..., A.cols - 1`.
The element type has the operations `0`, `+` and `*` and no law, so `sum_upto`
is this accumulation and no reordering of it. -/
theorem multiply_matrices_correct [Zero α] [Add α] [Mul α] (A B R : Matrix α)
    (hA : A.wellFormed = true)
    (hB : B.wellFormed = true) (hR : R.allocated = true) (hinner : A.cols = B.rows)
    (hRr : R.rows = A.rows) (hRc : R.cols = B.cols) (w : World) :
    ∃ R1, multiply_matrices (some A) (some B) (some R) w = .ok (0, some R1, w) ∧
      R1.rows = R.rows ∧ R1.cols = R.cols ∧
      ∀ i j, i < A.rows.toNat → j < B.cols.toNat →
        R1.read i j = .ok (sum_upto (fun k => A.get i k * B.get k j) A.cols.toNat) := by
  obtain ⟨hr, hc⟩ := allocated_rows_pos R hR
  refine ⟨_, multiply_matrices_run A B R hA hB hR hinner (le_of_eq hRr.symm)
    (le_of_eq hRc.symm) w, ?_, ?_, ?_⟩
  · exact Int.toNat_of_nonneg (le_of_lt hr)
  · exact Int.toNat_of_nonneg (le_of_lt hc)
  · intro i j hi hj
    apply read_ofCells _ _ _ i j _ (by omega) (by omega)
    simp [hi, hj]

/-- Witness of C2 on the symbolic matrices `[[x0, x1]]` and `[[x2], [x3]]`: the
cell of the product is the expression `(0 + x0 * x2) + x1 * x3`, which in `Sym`
differs from the sum taken in the other order. -/
theorem multiply_matrices_correct_witness :
    symA.wellFormed = true ∧ symB.wellFormed = true ∧ symR.allocated = true ∧
    (∃ R1, multiply_matrices (some symA) (some symB) (some symR) exW = .ok (0, some R1, exW) ∧
      R1.rows = symR.rows ∧ R1.cols = symR.cols ∧
      ∀ i j, i < symA.rows.toNat → j < symB.cols.toNat →
        R1.read i j =
          .ok (sum_upto (fun k => symA.get i k * symB.get k j) symA.cols.toNat)) ∧
    sum_upto (fun k => symA.get 0 k * symB.get k 0) symA.cols.toNat =
      0 + Sym.var 0 * Sym.var 2 + Sym.var 1 * Sym.var 3 ∧
    (0 + Sym.var 0 * Sym.var 2 + Sym.var 1 * Sym.var 3 : Sym) ≠
      0 + Sym.var 1 * Sym.var 3 + Sym.var 0 * Sym.var 2 :=
  ⟨by decide, by decide, by decide,
    multiply_matrices_correct symA symB symR (by decide) (by decide) (by decide) rfl rfl rfl exW,
    rfl, by decide⟩

/-- C3: for well-formed `A` and `B` of equal shape and an allocated result of
that shape, `add_matrices` returns `0` and leaves `A[i][j] + B[i][j]` in every
cell of the result, and `subtract_matrices` returns `0` and leaves
`A[i][j] - B[i][j]`; neither signals anything nor changes the shape. -/
theorem add_subtract_matrices_correct [Ring α] (A B R : Matrix α) (hA : A.wellFormed = true)
    (hB : B.wellFormed = true) (hR : R.allocated = true) (hrows : A.rows = B.rows)
    (hcols : A.cols = B.cols) (hRr : R.rows = A.rows) (hRc : R.cols = A.cols) (w : World) :
    (∃ R1, add_matrices (some A) (some B) (some R) w = .ok (0, some R1, w) ∧
      R1.rows = R.rows ∧ R1.cols = R.cols ∧
      ∀ i j, i < R.rows.toNat → j < R.cols.toNat →
        R1.read i j = .ok (A.get i j + B.get i j)) ∧
    (∃ R1, subtract_matrices (some A) (some B) (some R) w = .ok (0, some R1, w) ∧
      R1.rows = R.rows ∧ R1.cols = R.cols ∧
      ∀ i j, i < R.rows.toNat → j < R.cols.toNat →
        R1.read i j = .ok (A.get i j - B.get i j)) := by
  obtain ⟨hr, hc⟩ := allocated_rows_pos R hR
  constructor
  · refine ⟨_, add_matrices_run A B R hA hB hR hrows hcols (le_of_eq hRr.symm)
      (le_of_eq hRc.symm) w, ?_, ?_, ?_⟩
    · exact Int.toNat_of_nonneg (le_of_lt hr)
    · exact Int.toNat_of_nonneg (le_of_lt hc)
    · intro i j hi hj
      apply read_ofCells _ _ _ i j _ hi hj
      rw [hRr] at hi
      rw [hRc] at hj
      simp [hi, hj]
  · refine ⟨_, subtract_matrices_run A B R hA hB hR hrows hcols (le_of_eq hRr.symm)
      (le_of_eq hRc.symm) w, ?_, ?_, ?_⟩
    · exact Int.toNat_of_nonneg (le_of_lt hr)
    · exact Int.toNat_of_nonneg (le_of_lt hc)
    · intro i j hi hj
      apply read_ofCells _ _ _ i j _ hi hj
      rw [hRr] at hi
      rw [hRc] at hj
      simp [hi, hj]

/-- Witness of C3 on `[[1, 2], [3, 4]]` and `[[5, 6], [7, 8]]`. -/
theorem add_subtract_matrices_correct_witness :
    exA.wellFormed = true ∧ exB.wellFormed = true ∧ exR.allocated = true ∧
    ((∃ R1, add_matrices (some exA) (some exB) (some exR) exW = .ok (0, some R1, exW) ∧
      R1.rows = exR.rows ∧ R1.cols = exR.cols ∧
      ∀ i j, i < exR.rows.toNat → j < exR.cols.toNat →
        R1.read i j = .ok (exA.get i j + exB.get i j)) ∧
    (∃ R1, subtract_matrices (some exA) (some exB) (some exR) exW = .ok (0, some R1, exW) ∧
      R1.rows = exR.rows ∧ R1.cols = exR.cols ∧
      ∀ i j, i < exR.rows.toNat → j < exR.cols.toNat →
        R1.read i j = .ok (exA.get i j - exB.get i j))) :=
  ⟨by decide, by decide, by decide,
    add_subtract_matrices_correct exA exB exR (by decide) (by decide) (by decide) rfl rfl rfl
      rfl exW⟩


/-- C4: `transpose_matrix` returns the sentinel and signals `InvalidDimensions`
when its argument is `NULL` or has `rows <= 0` or `cols <= 0`; whenever it
returns, an `InvalidDimensions` signal means the argument was such; and on a
well-formed matrix, when no allocation fails, it signals nothing and returns a
well-formed matrix of shape `(cols, rows)` whose cell `(j, i)` holds `M[i][j]`.
The argument is read only: the embedding has no new state for it. -/
theorem transpose_matrix_contract [Zero α] (matrix : Option (Matrix α)) (w : World) :
    ((matrix = none ∨ ∃ m, matrix = some m ∧ (m.rows ≤ 0 ∨ m.cols ≤ 0)) →
      transpose_matrix matrix w =
        .ok (sentinel, print_error .ERROR_INVALID_DIMENSIONS "transpose_matrix" w)) ∧
    (∀ res w1, transpose_matrix matrix w = .ok (res, w1) →
      (∃ e ∈ signalled w w1, e.1 = error_code.ERROR_INVALID_DIMENSIONS) →
        (matrix = none ∨ ∃ m, matrix = some m ∧ (m.rows ≤ 0 ∨ m.cols ≤ 0))) ∧
    (∀ m, matrix = some m → m.wellFormed = true → w.allocOk = true →
      ∃ res w1, transpose_matrix matrix w = .ok (res, w1) ∧ w1.log = w.log ∧
        res.rows = m.cols ∧ res.cols = m.rows ∧ res.wellFormed = true ∧
        ∀ i j, i < m.rows.toNat → j < m.cols.toNat → res.read j i = .ok (m.get i j)) := by
  refine ⟨?_, ?_, ?_⟩
  · rintro (rfl | ⟨m, rfl, hm⟩)
    · rfl
    · unfold transpose_matrix
      have : ¬ (0 < m.rows ∧ 0 < m.cols) := by omega
      simp only [this, not_false_eq_true, if_true]
      rfl
  · intro res w1 h hsig
    cases matrix with
    | none => exact Or.inl rfl
    | some m =>
      right
      refine ⟨m, rfl, ?_⟩
      by_contra hcon
      have hr : 0 < m.rows := by omega
      have hc : 0 < m.cols := by omega
      obtain ⟨e, he, hcode⟩ := hsig
      have := transpose_matrix_log m hr hc w res w1 h e he
      rw [this] at hcode
      exact absurd hcode (by decide)
  · rintro m rfl hm hw
    obtain ⟨hr, hc⟩ := allocated_rows_pos m (wellFormed_allocated m hm)
    refine ⟨_, _, transpose_matrix_run m hm w hw, rfl, ?_, ?_, ?_, ?_⟩
    · exact Int.toNat_of_nonneg (le_of_lt hc)
    · exact Int.toNat_of_nonneg (le_of_lt hr)
    · exact wellFormed_ofCells _ _ (by omega) (by omega) _
    · intro i j hi hj
      exact read_ofCells _ _ _ j i _ hj hi rfl

/-- Witness of C4 on the `2 × 3` matrix `[[1, 2, 3], [4, 5, 6]]`. -/
theorem transpose_matrix_contract_witness :
    exM.wellFormed = true ∧ exW.allocOk = true ∧
      ∃ res w1, transpose_matrix (some exM) exW = .ok (res, w1) ∧ w1.log = exW.log ∧
        res.rows = exM.cols ∧ res.cols = exM.rows ∧ res.wellFormed = true ∧
        ∀ i j, i < exM.rows.toNat → j < exM.cols.toNat → res.read j i = .ok (exM.get i j) :=
  ⟨by decide, by decide,
    (transpose_matrix_contract (some exM) exW).2.2 exM rfl (by decide) (by decide)⟩

/-- C5 on the code: with both operands and the result the sentinel, each of
`add_matrices`, `subtract_matrices` and `multiply_matrices` returns `0` and
signals nothing; and with a sentinel result and well-formed operands
`add_matrices` writes through the `NULL` data pointer. -/
theorem arithmetic_on_sentinels [Ring α] (w : World) :
    add_matrices (some (sentinel : Matrix α)) (some sentinel) (some sentinel) w =
        .ok (0, some sentinel, w) ∧
    subtract_matrices (some (sentinel : Matrix α)) (some sentinel) (some sentinel) w =
        .ok (0, some sentinel, w) ∧
    multiply_matrices (some (sentinel : Matrix α)) (some sentinel) (some sentinel) w =
        .ok (0, some sentinel, w) ∧
    add_matrices (some exA) (some exB) (some sentinel) w = .error .undefined_behaviour :=
  ⟨rfl, rfl, rfl, rfl⟩

/-- C6: for non-null `A`, `B` and `result` with `A.rows != B.rows` or
`A.cols != B.cols`, `add_matrices` and `subtract_matrices` return `-1`, signal
`ERROR_INVALID_DIMENSIONS` and leave the result as it was. -/
theorem add_subtract_shape_mismatch [Ring α] (A B R : Matrix α) (w : World)
    (h : A.rows ≠ B.rows ∨ A.cols ≠ B.cols) :
    add_matrices (some A) (some B) (some R) w =
        .ok (-1, some R, print_error .ERROR_INVALID_DIMENSIONS "add_matrices" w) ∧
    subtract_matrices (some A) (some B) (some R) w =
        .ok (-1, some R, print_error .ERROR_INVALID_DIMENSIONS "subtract_matrices" w) := by
  constructor
  · simp only [add_matrices, h, if_true]
  · simp only [subtract_matrices, h, if_true]

/-- Witness of C6 on a `2 × 2` and a `2 × 3` operand. -/
theorem add_subtract_shape_mismatch_witness :
    (exA.rows ≠ exM.rows ∨ exA.cols ≠ exM.cols) ∧
    add_matrices (some exA) (some exM) (some exR) exW =
        .ok (-1, some exR, print_error .ERROR_INVALID_DIMENSIONS "add_matrices" exW) ∧
    subtract_matrices (some exA) (some exM) (some exR) exW =
        .ok (-1, some exR, print_error .ERROR_INVALID_DIMENSIONS "subtract_matrices" exW) :=
  ⟨by decide, add_subtract_shape_mismatch exA exM exR exW (by decide)⟩

/-- C7: for non-null `A`, `B` and `result` with `A.cols != B.rows`,
`multiply_matrices` returns `1`, signals `ERROR_SIZE_MATRIX` and leaves the
result as it was; and whenever `multiply_matrices` returns `0`, its operands are
non-null with `A.cols = B.rows`. -/
theorem multiply_inner_mismatch [Ring α] (A B R : Option (Matrix α)) (w : World) :
    (∀ a b r, A = some a → B = some b → R = some r → a.cols ≠ b.rows →
      multiply_matrices A B R w =
        .ok (1, some r, print_error .ERROR_SIZE_MATRIX "multiply_matrices" w)) ∧
    (∀ R1 w1, multiply_matrices A B R w = .ok (0, R1, w1) →
      ∃ a b, A = some a ∧ B = some b ∧ a.cols = b.rows) := by
  constructor
  · rintro a b r rfl rfl rfl h
    simp only [multiply_matrices, ne_eq, h, not_false_eq_true, if_true]
  · intro R1 w1 h
    cases A with
    | none => simp [multiply_matrices] at h
    | some a =>
      cases B with
      | none => simp [multiply_matrices] at h
      | some b =>
        cases R with
        | none => simp [multiply_matrices] at h
        | some r =>
          refine ⟨a, b, rfl, rfl, ?_⟩
          by_contra hne
          simp [multiply_matrices, hne] at h

/-- Witness of C7 on a `2 × 3` and a `2 × 2` operand. -/
theorem multiply_inner_mismatch_witness :
    exM.cols ≠ exA.rows ∧
    multiply_matrices (some exM) (some exA) (some exR) exW =
        .ok (1, some exR, print_error .ERROR_SIZE_MATRIX "multiply_matrices" exW) :=
  ⟨by decide,
    (multiply_inner_mismatch (some exM) (some exA) (some exR) exW).1 exM exA exR rfl rfl rfl
      (by decide)⟩


theorem determinant_body_not_square [Ring α]
    (self : Option (Matrix α) → World → Except Fault (α × World))
    (matrix : Option (Matrix α)) (w : World)
    (h : matrix = none ∨ ∃ m, matrix = some m ∧ (m.rows ≠ m.cols ∨ m.rows ≤ 0)) :
    determinant_body self matrix w =
      .ok (0, print_error .ERROR_MATRIX_NOT_SQUARE "determinant" w) := by
  rcases h with rfl | ⟨m, rfl, hm⟩
  · rfl
  · unfold determinant_body
    have : ¬ (m.rows = m.cols ∧ 0 < m.rows) := by omega
    simp only [this, not_false_eq_true, if_true]

theorem determinant_fuel_not_square [Ring α] (fuel : Nat)
    (matrix : Option (Matrix α)) (w : World)
    (h : matrix = none ∨ ∃ m, matrix = some m ∧ (m.rows ≠ m.cols ∨ m.rows ≤ 0)) :
    determinant_fuel fuel matrix w =
      .ok (0, print_error .ERROR_MATRIX_NOT_SQUARE "determinant" w) := by
  cases fuel with
  | zero => exact determinant_body_not_square _ matrix w h
  | succ k => exact determinant_body_not_square _ matrix w h

/-- C8: on a `NULL`, non-square (`rows != cols`) or empty (`rows <= 0`) argument
`determinant` signals `ERROR_MATRIX_NOT_SQUARE` and returns `0`; it does so
whatever `data` is, a `NULL` or dangling `data` included, where any read of an
element would be a fault: no element is read. -/
theorem determinant_not_square [Ring α] (matrix : Option (Matrix α)) (w : World)
    (h : matrix = none ∨ ∃ m, matrix = some m ∧ (m.rows ≠ m.cols ∨ m.rows ≤ 0)) :
    determinant matrix w = .ok (0, print_error .ERROR_MATRIX_NOT_SQUARE "determinant" w) ∧
    ∀ m, matrix = some m → ∀ d : Option (List (RowPtr α)),
      determinant (some { m with data := d }) w =
        .ok (0, print_error .ERROR_MATRIX_NOT_SQUARE "determinant" w) := by
  constructor
  · exact determinant_fuel_not_square _ matrix w h
  · rintro m rfl d
    apply determinant_fuel_not_square
    rcases h with h | ⟨m1, h1, h2⟩
    · exact absurd h (by simp)
    · right
      simp only [Option.some.injEq] at h1
      subst h1
      exact ⟨_, rfl, h2⟩

/-- Witness of C8 on the `2 × 3` matrix `[[1, 2, 3], [4, 5, 6]]`. -/
theorem determinant_not_square_witness :
    (exM.rows ≠ exM.cols ∨ exM.rows ≤ 0) ∧
    determinant (some exM) exW =
      .ok (0, print_error .ERROR_MATRIX_NOT_SQUARE "determinant" exW) ∧
    ∀ m, some exM = some m → ∀ d : Option (List (RowPtr Int)),
      determinant (some { m with data := d }) exW =
        .ok (0, print_error .ERROR_MATRIX_NOT_SQUARE "determinant" exW) :=
  ⟨by decide, determinant_not_square (some exM) exW (Or.inr ⟨exM, rfl, by decide⟩)⟩

theorem cell_write_ofCells (r c : Nat) (g : Nat → Nat → Option α) (i j : Nat) (v : α)
    (a b : Nat) (hab : a ≠ i ∨ b ≠ j) :
    (Matrix.ofCells r c (upd g i j v)).cell a b = (Matrix.ofCells r c g).cell a b := by
  rw [cell_ofCells, cell_ofCells]
  have : ¬ (a = i ∧ b = j) := by
    rintro ⟨h1, h2⟩
    rcases hab with h | h
    · exact h h1
    · exact h h2
  simp [upd, this]

/-- C9: for `rows > 0` and `cols > 0`, when no allocation fails, `create_matrix`
signals nothing and returns a matrix with these `rows` and `cols` that owns
`rows` row buffers of `cols` cells each, where a write to one cell is read back
and changes no other cell; for `rows <= 0` or `cols <= 0` it signals
`ERROR_INVALID_DIMENSIONS` and returns the sentinel. -/
theorem create_matrix_contract (rows cols : Int) (w : World) :
    (0 < rows → 0 < cols → w.allocOk = true →
      ∃ (m : Matrix α) (w1 : World), create_matrix rows cols w = .ok (m, w1) ∧
        w1.log = w.log ∧ m.rows = rows ∧ m.cols = cols ∧ m.allocated = true ∧
        ∀ i j v, i < rows.toNat → j < cols.toNat →
          ∃ m1, m.write i j v = .ok m1 ∧ m1.read i j = .ok v ∧
            ∀ a b, a ≠ i ∨ b ≠ j → m1.cell a b = m.cell a b) ∧
    (rows ≤ 0 ∨ cols ≤ 0 →
      (create_matrix rows cols w : Except Fault (Matrix α × World)) =
        .ok (sentinel, print_error .ERROR_INVALID_DIMENSIONS "create_matrix" w)) := by
  constructor
  · intro hr hc hw
    refine ⟨_, _, create_matrix_ok rows cols w hr hc hw, rfl, ?_, ?_, ?_, ?_⟩
    · exact Int.toNat_of_nonneg (le_of_lt hr)
    · exact Int.toNat_of_nonneg (le_of_lt hc)
    · exact allocated_ofCells _ _ (by omega) (by omega) _
    · intro i j v hi hj
      refine ⟨_, write_ofCells _ _ _ i j v hi hj, ?_, ?_⟩
      · exact read_ofCells _ _ _ i j v hi hj (by simp [upd])
      · intro a b hab
        exact cell_write_ofCells _ _ _ i j v a b hab
  · intro h
    exact create_matrix_invalid rows cols w h

/-- Witness of C9 on `create_matrix (2, 3)` and `create_matrix (-1, 5)`. -/
theorem create_matrix_contract_witness :
    (∃ (m : Matrix Int) (w1 : World), create_matrix 2 3 exW = .ok (m, w1) ∧
        w1.log = exW.log ∧ m.rows = 2 ∧ m.cols = 3 ∧ m.allocated = true ∧
        ∀ i j v, i < (2 : Int).toNat → j < (3 : Int).toNat →
          ∃ m1, m.write i j v = .ok m1 ∧ m1.read i j = .ok v ∧
            ∀ a b, a ≠ i ∨ b ≠ j → m1.cell a b = m.cell a b) ∧
    (create_matrix (-1) 5 exW : Except Fault (Matrix Int × World)) =
        .ok (sentinel, print_error .ERROR_INVALID_DIMENSIONS "create_matrix" exW) :=
  ⟨(create_matrix_contract 2 3 exW).1 (by decide) (by decide) (by decide),
    (create_matrix_contract (-1) 5 exW).2 (Or.inl (by decide))⟩

/-- C10: `free_matrix` leaves every matrix state (an allocated matrix or the
sentinel) equal to the sentinel; on the sentinel it changes nothing and faults
nowhere; and on every matrix a second `free_matrix` changes nothing more. -/
theorem free_matrix_contract (m : Matrix α) :
    (m.isState = true → free_matrix (some m) = .ok sentinel) ∧
    free_matrix (some (sentinel : Matrix α)) = .ok sentinel ∧
    (free_matrix (some m)).bind (fun m1 => free_matrix (some m1)) = free_matrix (some m) := by
  refine ⟨?_, rfl, ?_⟩
  · intro h
    simp only [Matrix.isState, Bool.or_eq_true] at h
    rcases h with h | h
    · rw [allocated_eq_ofCells m h, free_matrix_ofCells]
      rfl
    · obtain ⟨rows, cols, data⟩ := m
      simp only [Matrix.isSentinel, Bool.and_eq_true, beq_iff_eq, Option.isNone_iff_eq_none] at h
      obtain ⟨⟨h1, h2⟩, h3⟩ := h
      subst h1 h2 h3
      rfl
  · cases hf : free_matrix (some m) with
    | error e => rfl
    | ok m1 =>
      show free_matrix (some m1) = .ok m1
      unfold free_matrix at hf
      simp only at hf
      cases hd : m.data with
      | none =>
        rw [hd] at hf
        simp only [Except.ok.injEq] at hf
        subst hf
        simp [free_matrix, hd]
      | some d =>
        rw [hd] at hf
        simp only at hf
        cases hl : for_loop (fun index_row (_ : Unit) => free_row d index_row) 0 m.rows.toNat () with
        | error e => rw [hl] at hf; simp at hf
        | ok u =>
          rw [hl] at hf
          simp only [Except.ok.injEq] at hf
          subst hf
          rfl

/-- Witness of C10 on the allocated matrix `[[1, 2], [3, 4]]`. -/
theorem free_matrix_contract_witness :
    exA.isState = true ∧ free_matrix (some exA) = .ok sentinel :=
  ⟨by decide, (free_matrix_contract exA).1 (by decide)⟩


theorem flat_of_getD [Zero α] (R C : Nat) (f : List α) (hf : f.length = R * C) :
    ((List.range (R * C)).map fun k => some (f.getD (k / C * C + k % C) 0)) = f.map some := by
  apply List.ext_getElem?
  intro a
  simp only [List.getElem?_map, range_get]
  by_cases ha : a < R * C
  · have ha2 : a < f.length := by omega
    simp only [ha, if_true, Option.map_some', Nat.div_add_mod', getElem?_getD f a ha2]
  · have ha2 : f.length ≤ a := by omega
    simp [ha, List.getElem?_eq_none ha2]

theorem flat_div_mod (C i j : Nat) (hj : j < C) :
    (i * C + j) / C = i ∧ (i * C + j) % C = j := by
  constructor
  · rw [Nat.add_comm, Nat.add_mul_div_right _ _ (by omega : 0 < C), Nat.div_eq_of_lt hj]
    simp
  · rw [Nat.add_comm, Nat.add_mul_mod_self_right, Nat.mod_eq_of_lt hj]

theorem toNat_mul_cast (R C : Nat) : ((R : Int) * (C : Int)).toNat = R * C := by
  have : ((R : Int) * (C : Int)) = ((R * C : Nat) : Int) := by push_cast; rfl
  rw [this, Int.toNat_ofNat]

theorem load_save_ofCells [Zero α] (R C : Nat) (hR : 0 < R) (hC : 0 < C) (f : List α)
    (hf : f.length = R * C) (hmax : ((R * C : Nat) : Int) ≤ INT_MAX)
    (w : World) (hw : w.allocOk = true) :
    ∃ L w1, load_matrix_from_file (some ((R : Int), (C : Int), f)) w = .ok (L, w1) ∧
      w1.allocOk = true ∧ L.wellFormed = true ∧ L.rows = R ∧ L.cols = C ∧
      (∀ i j, i < R → j < C → L.cell i j = f[i * C + j]?) ∧
      ∀ output_save : Int → Int → List (Option α) → Int,
        ∃ w2, save_matrix_to_file (some L) output_save w1 =
          .ok (output_save R C (f.map some), w2) := by
  refine ⟨_, _, load_run_ofCells R C hR hC f hf hmax w hw, allocOk_drop w hw _,
    wellFormed_ofCells R C hR hC _, rfl, rfl, ?_, ?_⟩
  · intro i j hi hj
    rw [cell_ofCells]
    simp only [hi, hj, and_self, if_true]
    rw [getElem?_getD f _ (by rw [hf]; exact flat_lt R C i j hi hj)]
  · intro output_save
    refine ⟨⟨(w.heap.drop (R + 1)).drop 1, w.log⟩, ?_⟩
    rw [save_run_ofCells R C (fun i j => f.getD (i * C + j) 0) hmax output_save _
      (allocOk_drop w hw _)]
    rw [flat_of_getD R C f hf]

theorem save_load_ofCells [Zero α] (R C : Nat) (hR : 0 < R) (hC : 0 < C) (m : Nat → Nat → α)
    (hmax : ((R * C : Nat) : Int) ≤ INT_MAX) (w : World) (hw : w.allocOk = true) :
    ∃ g : List α, g.length = R * C ∧
      (∀ output_save : Int → Int → List (Option α) → Int,
        ∃ w1, save_matrix_to_file (some (Matrix.ofCells R C fun a b => some (m a b)))
          output_save w = .ok (output_save R C (g.map some), w1)) ∧
      ∃ w2, load_matrix_from_file (some ((R : Int), (C : Int), g)) w =
        .ok (Matrix.ofCells R C fun a b => some (m a b), w2) := by
  refine ⟨(List.range (R * C)).map fun k => m (k / C) (k % C), by simp, ?_, ?_⟩
  · intro output_save
    refine ⟨⟨w.heap.drop 1, w.log⟩, ?_⟩
    rw [save_run_ofCells R C m hmax output_save w hw, List.map_map]
    rfl
  · refine ⟨⟨w.heap.drop (R + 1), w.log⟩, ?_⟩
    rw [load_run_ofCells R C hR hC _ (by simp) hmax w hw]
    congr 2
    apply ofCells_congr
    intro i j hi hj
    have hlt := flat_lt R C i j hi hj
    obtain ⟨e1, e2⟩ := flat_div_mod C i j hj
    simp [List.getD, List.getElem?_map, range_get, hlt, e1, e2]

/-- C11, amended: for `rows > 0`, `cols > 0` with `rows * cols <= INT_MAX` and a
flat array `f` of `rows * cols` values, `load_matrix_from_file` fills a
well-formed `rows × cols` matrix with `M[i][j] = f[i * cols + j]`, and
`save_matrix_to_file` on that matrix hands the writer exactly `f`; conversely
for a well-formed `M` with `rows * cols <= INT_MAX`, `save_matrix_to_file`
hands the writer a flat array `g` of `rows * cols` values from which
`load_matrix_from_file` builds `M` again. No allocation fails. -/
theorem flat_round_trip [Zero α] (rows cols : Int) (hr : 0 < rows) (hc : 0 < cols)
    (hmax : rows * cols ≤ INT_MAX) (f : List α) (hf : f.length = (rows * cols).toNat)
    (M : Matrix α) (hM : M.wellFormed = true) (hMmax : M.rows * M.cols ≤ INT_MAX)
    (w : World) (hw : w.allocOk = true) :
    (∃ L w1, load_matrix_from_file (some (rows, cols, f)) w = .ok (L, w1) ∧
      w1.allocOk = true ∧ L.wellFormed = true ∧ L.rows = rows ∧ L.cols = cols ∧
      (∀ i j, i < rows.toNat → j < cols.toNat → L.cell i j = f[i * cols.toNat + j]?) ∧
      ∀ output_save : Int → Int → List (Option α) → Int,
        ∃ w2, save_matrix_to_file (some L) output_save w1 =
          .ok (output_save rows cols (f.map some), w2)) ∧
    (∃ g : List α, g.length = (M.rows * M.cols).toNat ∧
      (∀ output_save : Int → Int → List (Option α) → Int,
        ∃ w1, save_matrix_to_file (some M) output_save w =
          .ok (output_save M.rows M.cols (g.map some), w1)) ∧
      ∃ w2, load_matrix_from_file (some (M.rows, M.cols, g)) w = .ok (M, w2)) := by
  constructor
  · obtain ⟨R, rfl⟩ := Int.eq_ofNat_of_zero_le (le_of_lt hr)
    obtain ⟨C, rfl⟩ := Int.eq_ofNat_of_zero_le (le_of_lt hc)
    rw [toNat_mul_cast] at hf
    have hmax2 : ((R * C : Nat) : Int) ≤ INT_MAX := by push_cast; exact hmax
    simp only [Int.toNat_ofNat]
    exact load_save_ofCells R C (by omega) (by omega) f hf hmax2 w hw
  · obtain ⟨hr2, hc2⟩ := allocated_rows_pos M (wellFormed_allocated M hM)
    have e := wellFormed_eq_ofCells M hM
    have e1 : ((M.rows.toNat : Nat) : Int) = M.rows := Int.toNat_of_nonneg (le_of_lt hr2)
    have e2 : ((M.cols.toNat : Nat) : Int) = M.cols := Int.toNat_of_nonneg (le_of_lt hc2)
    have hmax2 : ((M.rows.toNat * M.cols.toNat : Nat) : Int) ≤ INT_MAX := by
      push_cast
      rw [e1, e2]
      exact hMmax
    obtain ⟨g, hg, hsave, hload⟩ := save_load_ofCells M.rows.toNat M.cols.toNat (by omega)
      (by omega) M.get hmax2 w hw
    rw [← e, e1, e2] at hsave hload
    refine ⟨g, ?_, hsave, hload⟩
    rw [hg, ← toNat_mul_cast, e1, e2]

/-- Witness of C11 on the flat array `1, ..., 6` read as `2 × 3` and on the
matrix `[[1, 2], [3, 4]]`. -/
theorem flat_round_trip_witness :
    (exFlat.length = ((2 : Int) * 3).toNat ∧ exA.wellFormed = true ∧ exW.allocOk = true) ∧
    (∃ L w1, load_matrix_from_file (some (2, 3, exFlat)) exW = .ok (L, w1) ∧
      w1.allocOk = true ∧ L.wellFormed = true ∧ L.rows = 2 ∧ L.cols = 3 ∧
      (∀ i j, i < (2 : Int).toNat → j < (3 : Int).toNat →
        L.cell i j = exFlat[i * (3 : Int).toNat + j]?) ∧
      ∀ output_save : Int → Int → List (Option Int) → Int,
        ∃ w2, save_matrix_to_file (some L) output_save w1 =
          .ok (output_save 2 3 (exFlat.map some), w2)) ∧
    (∃ g : List Int, g.length = (exA.rows * exA.cols).toNat ∧
      (∀ output_save : Int → Int → List (Option Int) → Int,
        ∃ w1, save_matrix_to_file (some exA) output_save exW =
          .ok (output_save exA.rows exA.cols (g.map some), w1)) ∧
      ∃ w2, load_matrix_from_file (some (exA.rows, exA.cols, g)) exW = .ok (exA, w2)) :=
  ⟨⟨by decide, by decide, by decide⟩,
    flat_round_trip 2 3 (by decide) (by decide) (by decide) exFlat (by decide) exA (by decide)
      (by decide) exW (by decide)⟩

/-- C11 as stated fails on a well-formed `65536 × 65536` matrix: the element
count `rows * cols` that `save_matrix_to_file` computes in `int` is `2 ^ 32`, a
signed overflow, so no flat array is produced. -/
theorem flat_round_trip_overflow :
    exBig.wellFormed = true ∧ INT_MAX < exBig.rows * exBig.cols ∧
    save_matrix_to_file (some exBig) (fun _ _ _ => 0) exW = .error .undefined_behaviour :=
  ⟨wellFormed_ofCells 65536 65536 (by decide) (by decide) _, by decide, rfl⟩


/-- C12: for every well-formed matrix `M`, when no allocation fails,
`transpose_matrix` applied to the result of `transpose_matrix (M)` succeeds and
returns `M`: the same `rows`, the same `cols` and the same value in every cell;
nothing is signalled. -/
theorem transpose_transpose [Zero α] (M : Matrix α) (hM : M.wellFormed = true)
    (w : World) (hw : w.allocOk = true) :
    ∃ T w1 T2 w2, transpose_matrix (some M) w = .ok (T, w1) ∧
      transpose_matrix (some T) w1 = .ok (T2, w2) ∧ w2.log = w.log ∧
      T2 = M ∧ T2.rows = M.rows ∧ T2.cols = M.cols ∧
      ∀ i j, i < M.rows.toNat → j < M.cols.toNat → T2.read i j = .ok (M.get i j) := by
  obtain ⟨hr, hc⟩ := allocated_rows_pos M (wellFormed_allocated M hM)
  have h1 := transpose_matrix_run M hM w hw
  have h2 := transpose_run_ofCells M.cols.toNat M.rows.toNat (by omega) (by omega)
    (fun a b => M.get b a) ⟨w.heap.drop (M.cols.toNat + 1), w.log⟩ (allocOk_drop w hw _)
  have e := wellFormed_eq_ofCells M hM
  rw [← e] at h2
  refine ⟨_, _, _, _, h1, h2, rfl, rfl, rfl, rfl, ?_⟩
  intro i j hi hj
  rw [e]
  exact read_ofCells _ _ _ i j _ hi hj (by rw [← e])

/-- Witness of C12 on the `2 × 3` matrix `[[1, 2, 3], [4, 5, 6]]`. -/
theorem transpose_transpose_witness :
    exM.wellFormed = true ∧ exW.allocOk = true ∧
    ∃ T w1 T2 w2, transpose_matrix (some exM) exW = .ok (T, w1) ∧
      transpose_matrix (some T) w1 = .ok (T2, w2) ∧ w2.log = exW.log ∧
      T2 = exM ∧ T2.rows = exM.rows ∧ T2.cols = exM.cols ∧
      ∀ i j, i < exM.rows.toNat → j < exM.cols.toNat → T2.read i j = .ok (exM.get i j) :=
  ⟨by decide, by decide, transpose_transpose exM (by decide) exW (by decide)⟩

/-- C13: for `n > 0`, `m > 0`, a well-formed `n × m` matrix `A` and an allocated
`n × m` result, `multiply_matrices (Identity(n), A, result)` returns `0`, signals
nothing and leaves `A[i][j]` in every cell `(i, j)` of the result. -/
theorem multiply_identity [Ring α] (n m : Nat) (hn : 0 < n) (hm : 0 < m) (A R : Matrix α)
    (hA : A.wellFormed = true) (hAr : A.rows = n) (hAc : A.cols = m)
    (hR : R.allocated = true) (hRr : R.rows = n) (hRc : R.cols = m) (w : World) :
    ∃ R1, multiply_matrices (some (identity n)) (some A) (some R) w = .ok (0, some R1, w) ∧
      R1.rows = n ∧ R1.cols = m ∧
      ∀ i j, i < n → j < m → R1.read i j = .ok (A.get i j) := by
  have eA := wellFormed_eq_ofCells A hA
  have eR := allocated_eq_ofCells R hR
  have hAr2 : A.rows.toNat = n := by omega
  have hAc2 : A.cols.toNat = m := by omega
  have hRr2 : R.rows.toNat = n := by omega
  have hRc2 : R.cols.toNat = m := by omega
  rw [hAr2, hAc2] at eA
  rw [hRr2, hRc2] at eR
  have h := mul_run_ofCells n n m n m (le_refl n) (le_refl m)
    (fun i j => if i = j then (1 : α) else 0) A.get R.cell w
  rw [← eA, ← eR] at h
  refine ⟨_, h, rfl, rfl, ?_⟩
  intro i j hi hj
  apply read_ofCells _ _ _ i j _ hi hj
  simp only [hi, hj, and_self, if_true]
  rw [sum_upto_identity (fun k => A.get k j) n i hi]

/-- Witness of C13 on `Identity(2)` and `[[1, 2], [3, 4]]`. -/
theorem multiply_identity_witness :
    exA.wellFormed = true ∧ exR.allocated = true ∧
    ∃ R1, multiply_matrices (some (identity 2)) (some exA) (some exR) exW =
        .ok (0, some R1, exW) ∧
      R1.rows = (2 : Nat) ∧ R1.cols = (2 : Nat) ∧
      ∀ i j, i < 2 → j < 2 → R1.read i j = .ok (exA.get i j) :=
  ⟨by decide, by decide,
    multiply_identity 2 2 (by decide) (by decide) exA exR (by decide) rfl rfl (by decide) rfl rfl
      exW⟩

/-- C14: for every `n >= 1`, over a commutative ring and when no allocation of a
minor fails, `determinant (Identity(n))` returns `1` and signals nothing. -/
theorem determinant_identity {R : Type} [CommRing R] (n : Nat) (hn : 1 ≤ n) (w : World)
    (hw : w.allocOk = true) :
    ∃ w1, determinant (some (identity n : Matrix R)) w = .ok (1, w1) ∧ w1.log = w.log := by
  obtain ⟨w1, h1, _, h3⟩ := determinant_ofCells n hn (fun i j => if i = j then (1 : R) else 0) w hw
  rw [laplace_identity n hn] at h1
  exact ⟨w1, h1, h3⟩

/-- Witness of C14 on `Identity(4)` over the integers. -/
theorem determinant_identity_witness :
    exW.allocOk = true ∧
    ∃ w1, determinant (some (identity 4 : Matrix Int)) exW = .ok (1, w1) ∧ w1.log = exW.log :=
  ⟨by decide, determinant_identity 4 (by decide) exW (by decide)⟩

/-- C15: `determinant` returns `5` on `[[5]]`, `-2` on `[[1, 2], [3, 4]]` and `24`
on `[[2, 0, 0], [0, 3, 0], [0, 0, 4]]`, and signals nothing. -/
theorem determinant_concrete :
    determinant (some exS) exW = .ok (5, exW) ∧
    determinant (some exA) exW = .ok (-2, exW) ∧
    determinant (some exD) exW = .ok (24, exW) :=
  ⟨rfl, rfl, rfl⟩

/-- C16: for well-formed `A` and `B` of equal shape and allocated results `R1`,
`R2` of that shape, `add_matrices (A, B, R1)` and `add_matrices (B, A, R2)` both
return `0` and leave the same value in every cell. -/
theorem add_matrices_comm [Ring α] (A B R1 R2 : Matrix α) (hA : A.wellFormed = true)
    (hB : B.wellFormed = true) (hR1 : R1.allocated = true) (hR2 : R2.allocated = true)
    (hrows : A.rows = B.rows) (hcols : A.cols = B.cols)
    (h1r : R1.rows = A.rows) (h1c : R1.cols = A.cols)
    (h2r : R2.rows = A.rows) (h2c : R2.cols = A.cols) (w : World) :
    ∃ S1 S2, add_matrices (some A) (some B) (some R1) w = .ok (0, some S1, w) ∧
      add_matrices (some B) (some A) (some R2) w = .ok (0, some S2, w) ∧
      ∀ i j, i < A.rows.toNat → j < A.cols.toNat →
        ∃ v, S1.read i j = .ok v ∧ S2.read i j = .ok v := by
  refine ⟨_, _,
    add_matrices_run A B R1 hA hB hR1 hrows hcols (le_of_eq h1r.symm) (le_of_eq h1c.symm) w,
    add_matrices_run B A R2 hB hA hR2 hrows.symm hcols.symm
      (le_of_eq (h2r.trans hrows).symm) (le_of_eq (h2c.trans hcols).symm) w, ?_⟩
  intro i j hi hj
  refine ⟨A.get i j + B.get i j, ?_, ?_⟩
  · apply read_ofCells _ _ _ i j _ (by omega) (by omega)
    simp [hi, hj]
  · apply read_ofCells _ _ _ i j _ (by omega) (by omega)
    have hi2 : i < B.rows.toNat := by omega
    have hj2 : j < B.cols.toNat := by omega
    simp [hi2, hj2, add_comm]

/-- Witness of C16 on `[[1, 2], [3, 4]]` and `[[5, 6], [7, 8]]`. -/
theorem add_matrices_comm_witness :
    exA.wellFormed = true ∧ exB.wellFormed = true ∧ exR.allocated = true ∧
    ∃ S1 S2, add_matrices (some exA) (some exB) (some exR) exW = .ok (0, some S1, exW) ∧
      add_matrices (some exB) (some exA) (some exR) exW = .ok (0, some S2, exW) ∧
      ∀ i j, i < exA.rows.toNat → j < exA.cols.toNat →
        ∃ v, S1.read i j = .ok v ∧ S2.read i j = .ok v :=
  ⟨by decide, by decide, by decide,
    add_matrices_comm exA exB exR exR (by decide) (by decide) (by decide) (by decide) rfl rfl rfl
      rfl rfl rfl exW⟩

/-- C17: for well-formed `A` and `B` of equal shape and allocated results `R1`,
`R2` of that shape, `subtract_matrices (A, B, R1)` and
`subtract_matrices (B, A, R2)` both return `0`, and every cell of the first
result is the negation of the same cell of the second. -/
theorem subtract_matrices_anticomm [Ring α] (A B R1 R2 : Matrix α) (hA : A.wellFormed = true)
    (hB : B.wellFormed = true) (hR1 : R1.allocated = true) (hR2 : R2.allocated = true)
    (hrows : A.rows = B.rows) (hcols : A.cols = B.cols)
    (h1r : R1.rows = A.rows) (h1c : R1.cols = A.cols)
    (h2r : R2.rows = A.rows) (h2c : R2.cols = A.cols) (w : World) :
    ∃ S1 S2, subtract_matrices (some A) (some B) (some R1) w = .ok (0, some S1, w) ∧
      subtract_matrices (some B) (some A) (some R2) w = .ok (0, some S2, w) ∧
      ∀ i j, i < A.rows.toNat → j < A.cols.toNat →
        ∃ x y, S1.read i j = .ok x ∧ S2.read i j = .ok y ∧ x = -y := by
  refine ⟨_, _,
    subtract_matrices_run A B R1 hA hB hR1 hrows hcols (le_of_eq h1r.symm) (le_of_eq h1c.symm) w,
    subtract_matrices_run B A R2 hB hA hR2 hrows.symm hcols.symm
      (le_of_eq (h2r.trans hrows).symm) (le_of_eq (h2c.trans hcols).symm) w, ?_⟩
  intro i j hi hj
  refine ⟨A.get i j - B.get i j, B.get i j - A.get i j, ?_, ?_, by simp⟩
  · apply read_ofCells _ _ _ i j _ (by omega) (by omega)
    simp [hi, hj]
  · apply read_ofCells _ _ _ i j _ (by omega) (by omega)
    have hi2 : i < B.rows.toNat := by omega
    have hj2 : j < B.cols.toNat := by omega
    simp [hi2, hj2]

/-- Witness of C17 on `[[1, 2], [3, 4]]` and `[[5, 6], [7, 8]]`. -/
theorem subtract_matrices_anticomm_witness :
    exA.wellFormed = true ∧ exB.wellFormed = true ∧ exR.allocated = true ∧
    ∃ S1 S2, subtract_matrices (some exA) (some exB) (some exR) exW = .ok (0, some S1, exW) ∧
      subtract_matrices (some exB) (some exA) (some exR) exW = .ok (0, some S2, exW) ∧
      ∀ i j, i < exA.rows.toNat → j < exA.cols.toNat →
        ∃ x y, S1.read i j = .ok x ∧ S2.read i j = .ok y ∧ x = -y :=
  ⟨by decide, by decide, by decide,
    subtract_matrices_anticomm exA exB exR exR (by decide) (by decide) (by decide) (by decide)
      rfl rfl rfl rfl rfl rfl exW⟩


theorem determinant_one_ofCells [Zero α] [One α] [Neg α] [Add α] [Sub α] [Mul α] (f : Nat → Nat → α) (w : World) :
    determinant (some (Matrix.ofCells 1 1 fun a b => some (f a b))) w = .ok (f 0 0, w) := by
  show determinant_body (determinant_fuel 0)
    (some (Matrix.ofCells 1 1 fun a b => some (f a b))) w = _
  unfold determinant_body
  simp only [ofCells_rows, ofCells_cols]
  rw [read_ofCells 1 1 _ 0 0 (f 0 0) (by omega) (by omega) rfl]
  simp

theorem determinant_two_ofCells [Zero α] [One α] [Neg α] [Add α] [Sub α] [Mul α] (f : Nat → Nat → α) (w : World) :
    determinant (some (Matrix.ofCells 2 2 fun a b => some (f a b))) w =
      .ok (f 0 0 * f 1 1 - f 0 1 * f 1 0, w) := by
  show determinant_body (determinant_fuel 1)
    (some (Matrix.ofCells 2 2 fun a b => some (f a b))) w = _
  unfold determinant_body
  simp only [ofCells_rows, ofCells_cols]
  rw [read_ofCells 2 2 _ 0 0 (f 0 0) (by omega) (by omega) rfl,
    read_ofCells 2 2 _ 1 1 (f 1 1) (by omega) (by omega) rfl,
    read_ofCells 2 2 _ 0 1 (f 0 1) (by omega) (by omega) rfl,
    read_ofCells 2 2 _ 1 0 (f 1 0) (by omega) (by omega) rfl]
  simp

theorem minor_matrix_eq [Zero α] (M : Matrix α) (n c : Nat) :
    minor_matrix M n c = Matrix.ofCells (n - 1) (n - 1) (fun a b => some (minor M.get c a b)) := by
  unfold minor_matrix minor
  congr 1
  funext i j
  by_cases h : j < c <;> simp [h]

/-- C18: on a well-formed `n × n` matrix `M`, when no allocation fails,
`determinant` returns `M[0][0]` for `n = 1`, `M[0][0] * M[1][1] - M[0][1] * M[1][0]`
for `n = 2`, and for `n > 2` the sum, accumulated from `0` for `c = 0, ..., n - 1`,
of `sign (c) * M[0][c] * d c`, where `sign (c)` is `1` for even `c` and `-1` for
odd `c` and `d c` is what `determinant` returns on the minor `minor_matrix M n c`
(row `0` and column `c` removed). The element type has the operations `0`, `1`,
`+`, `-`, `*` and unary `-` and no law, so `sum_upto` is this accumulation and
no reordering of it. -/
theorem determinant_laplace [Zero α] [One α] [Neg α] [Add α] [Sub α] [Mul α] (n : Nat)
    (M : Matrix α) (hM : M.wellFormed = true)
    (hrows : M.rows = n) (hcols : M.cols = n) (w : World) (hw : w.allocOk = true) :
    (n = 1 → determinant (some M) w = .ok (M.get 0 0, w)) ∧
    (n = 2 → determinant (some M) w =
      .ok (M.get 0 0 * M.get 1 1 - M.get 0 1 * M.get 1 0, w)) ∧
    (2 < n → ∃ d : Nat → α,
      (∀ c, c < n → ∀ w0 : World, w0.allocOk = true →
        ∃ w1, determinant (some (minor_matrix M n c)) w0 = .ok (d c, w1) ∧ w1.log = w0.log) ∧
      ∃ w1, determinant (some M) w =
          .ok (sum_upto (fun c => (if c % 2 = 0 then 1 else -1) * M.get 0 c * d c) n, w1) ∧
        w1.log = w.log) := by
  have e := wellFormed_eq_ofCells M hM
  have hr : M.rows.toNat = n := by omega
  have hc : M.cols.toNat = n := by omega
  rw [hr, hc] at e
  refine ⟨?_, ?_, ?_⟩
  · rintro rfl
    have h := determinant_one_ofCells M.get w
    rw [← e] at h
    exact h
  · rintro rfl
    have h := determinant_two_ofCells M.get w
    rw [← e] at h
    exact h
  · intro hn
    refine ⟨fun c => laplace (n - 1) (minor M.get c), ?_, ?_⟩
    · intro c _ w0 hw0
      rw [minor_matrix_eq]
      obtain ⟨w1, h1, _, h3⟩ := determinant_ofCells (n - 1) (by omega) (minor M.get c) w0 hw0
      exact ⟨w1, h1, h3⟩
    · obtain ⟨w1, h1, _, h3⟩ := determinant_ofCells n (by omega) M.get w hw
      rw [← e] at h1
      refine ⟨w1, ?_, h3⟩
      rw [h1]
      obtain ⟨k, rfl⟩ : ∃ k, n = k + 3 := ⟨n - 3, by omega⟩
      rfl

/-- Witness of C18 on the `3 × 3` matrix of the symbols `x0, ..., x8`: the value
returned is the expression accumulated from `0` for `c = 0, 1, 2` in this order,
each term being `sign (c) * M[0][c]` times the `2 × 2` formula of the minor. -/
theorem determinant_laplace_witness :
    symD.wellFormed = true ∧ exW.allocOk = true ∧ 2 < 3 ∧
    (∃ d : Nat → Sym,
      (∀ c, c < 3 → ∀ w0 : World, w0.allocOk = true →
        ∃ w1, determinant (some (minor_matrix symD 3 c)) w0 = .ok (d c, w1) ∧ w1.log = w0.log) ∧
      ∃ w1, determinant (some symD) exW =
          .ok (sum_upto (fun c => (if c % 2 = 0 then 1 else -1) * symD.get 0 c * d c) 3, w1) ∧
        w1.log = exW.log) ∧
    determinant (some symD) exW =
      .ok (0 + 1 * Sym.var 0 * (Sym.var 4 * Sym.var 8 - Sym.var 5 * Sym.var 7) +
        -1 * Sym.var 1 * (Sym.var 3 * Sym.var 8 - Sym.var 5 * Sym.var 6) +
        1 * Sym.var 2 * (Sym.var 3 * Sym.var 7 - Sym.var 4 * Sym.var 6), exW) :=
  ⟨by decide, by decide, by decide,
    (determinant_laplace 3 symD (by decide) rfl rfl exW (by decide)).2.2 (by decide), rfl⟩


/-- C19: whenever `add_matrices`, `subtract_matrices` or `multiply_matrices`
returns `0`, the result keeps its `rows` and `cols`, and every cell of the
result outside the written range (`i < A.rows`, `j < A.cols`; for the product
`j < B.cols`) holds what it held before. The operands are read only and the
result is a distinct object: the embedding has no new state for `A` and `B`. -/
theorem arithmetic_frame [Ring α] (A B R : Matrix α) (w : World) :
    (∀ R1 w1, add_matrices (some A) (some B) (some R) w = .ok (0, some R1, w1) →
      R1.rows = R.rows ∧ R1.cols = R.cols ∧
        ∀ a b, ¬ (a < A.rows.toNat ∧ b < A.cols.toNat) → R1.cell a b = R.cell a b) ∧
    (∀ R1 w1, subtract_matrices (some A) (some B) (some R) w = .ok (0, some R1, w1) →
      R1.rows = R.rows ∧ R1.cols = R.cols ∧
        ∀ a b, ¬ (a < A.rows.toNat ∧ b < A.cols.toNat) → R1.cell a b = R.cell a b) ∧
    (∀ R1 w1, multiply_matrices (some A) (some B) (some R) w = .ok (0, some R1, w1) →
      R1.rows = R.rows ∧ R1.cols = R.cols ∧
        ∀ a b, ¬ (a < A.rows.toNat ∧ b < B.cols.toNat) → R1.cell a b = R.cell a b) := by
  refine ⟨?_, ?_, ?_⟩
  · intro R1 w1 h
    unfold add_matrices at h
    simp only at h
    split at h
    · simp at h
    · split at h
      · simp at h
      · rename_i r1 hl
        simp only [Except.ok.injEq, Prod.mk.injEq, Option.some.injEq, true_and] at h
        rw [← h.1]
        exact loops_frame (add_cell A B) _ _
          (fun i j r r1 _ _ hs => add_cell_frame A B i j r r1 hs) R r1 hl
  · intro R1 w1 h
    unfold subtract_matrices at h
    simp only at h
    split at h
    · simp at h
    · split at h
      · simp at h
      · rename_i r1 hl
        simp only [Except.ok.injEq, Prod.mk.injEq, Option.some.injEq, true_and] at h
        rw [← h.1]
        exact loops_frame (sub_cell A B) _ _
          (fun i j r r1 _ _ hs => sub_cell_frame A B i j r r1 hs) R r1 hl
  · intro R1 w1 h
    unfold multiply_matrices at h
    simp only at h
    split at h
    · simp at h
    · split at h
      · simp at h
      · rename_i r1 hl
        simp only [Except.ok.injEq, Prod.mk.injEq, Option.some.injEq, true_and] at h
        rw [← h.1]
        exact loops_frame (mul_cell A B) _ _
          (fun i j r r1 _ _ hs => mul_cell_frame A B i j r r1 hs) R r1 hl

/-- Witness of C19: the sum of two `1 × 1` matrices written into a `2 × 2`
result `[[1, 2], [3, 4]]`. -/
theorem arithmetic_frame_witness :
    add_matrices (some exS) (some exS) (some exA) exW =
      .ok (0, some ⟨2, 2, some [.buf [some 10, some 2], .buf [some 3, some 4]]⟩, exW) ∧
    ∀ a b, ¬ (a < exS.rows.toNat ∧ b < exS.cols.toNat) →
      (⟨2, 2, some [.buf [some 10, some 2], .buf [some 3, some 4]]⟩ : Matrix Int).cell a b =
        exA.cell a b :=
  ⟨rfl, ((arithmetic_frame exS exS exA exW).1 _ exW rfl).2.2⟩


/-- C20: `determinant` terminates on every input. The recursion of the embedding
is `determinant_fuel (k + 1) = determinant_body (determinant_fuel k)`, a
recursive call below the last level being `Fault.out_of_fuel`.
On every argument and environment `determinant` never runs out of levels, and
any allowance of at least `rows - 2` nested recursive calls gives the same
result. On a well-formed `n × n` matrix with `n > 2` the body calls itself only
on well-formed `(n - 1) × (n - 1)` matrices: two candidates for the recursive
call that agree on those give the same result. On a `NULL`, non-square or
`rows <= 2` argument the body makes no recursive call: the result is the same
for every candidate. -/
theorem determinant_termination [Ring α] (matrix : Option (Matrix α)) (w : World) :
    determinant matrix w ≠ .error .out_of_fuel ∧
    (∀ fuel : Nat, (∀ m, matrix = some m → m.rows ≤ fuel + 2) →
      determinant_fuel fuel matrix w = determinant matrix w) ∧
    (∀ m (n : Nat), matrix = some m → m.wellFormed = true → m.rows = n → m.cols = n → 2 < n →
      ∀ self1 self2 : Option (Matrix α) → World → Except Fault (α × World),
        (∀ sub w1, sub.wellFormed = true → sub.rows = ((n - 1 : Nat) : Int) →
          sub.cols = ((n - 1 : Nat) : Int) → self1 (some sub) w1 = self2 (some sub) w1) →
        determinant_body self1 matrix w = determinant_body self2 matrix w) ∧
    ((matrix = none ∨ ∃ m, matrix = some m ∧ (m.rows ≠ m.cols ∨ m.rows ≤ 2)) →
      ∀ self1 self2 : Option (Matrix α) → World → Except Fault (α × World),
        determinant_body self1 matrix w = determinant_body self2 matrix w) := by
  refine ⟨determinant_terminates matrix w, ?_, ?_, ?_⟩
  · intro fuel hfuel
    unfold determinant
    apply determinant_fuel_independent _ _ _ _ hfuel
    intro m hm
    subst hm
    simp only
    omega
  · rintro m n rfl hm hr hc hn self1 self2 hagree
    have e := wellFormed_eq_ofCells m hm
    have hr2 : m.rows.toNat = n := by omega
    have hc2 : m.cols.toNat = n := by omega
    rw [hr2, hc2] at e
    have h := determinant_body_congr_wf self1 self2 n hn m.get w hagree
    rw [← e] at h
    exact h
  · intro hinv self1 self2
    apply determinant_body_congr
    intro m sub w1 hm hsq hbig _
    rcases hinv with h | ⟨m1, h1, h2⟩
    · rw [h] at hm
      exact absurd hm (by simp)
    · rw [h1] at hm
      simp only [Option.some.injEq] at hm
      subst hm
      rcases h2 with h3 | h3
      · exact absurd hsq h3
      · omega

/-- Witness of C20 on `[[2, 0, 0], [0, 3, 0], [0, 0, 4]]`: one level of recursion
is enough, and the `2 × 3` matrix needs none. -/
theorem determinant_termination_witness :
    determinant (some exD) exW ≠ .error .out_of_fuel ∧
    determinant_fuel 1 (some exD) exW = determinant (some exD) exW ∧
    (∀ self1 self2 : Option (Matrix Int) → World → Except Fault (Int × World),
      determinant_body self1 (some exM) exW = determinant_body self2 (some exM) exW) :=
  ⟨(determinant_termination (some exD) exW).1,
    (determinant_termination (some exD) exW).2.1 1 (by
      intro m hm
      simp only [Option.some.injEq] at hm
      rw [← hm]
      decide),
    (determinant_termination (some exM) exW).2.2.2 (Or.inr ⟨exM, rfl, Or.inl (by decide)⟩)⟩


/-- C21: for a well-formed `n × n` matrix `M` with `n > 2`, a column `c < n` and
the minor `submat` that `create_matrix (n - 1, n - 1)` returned with storage,
the minor fill of `determinant` runs without fault, and its record of accesses
shows: every read `M[index_row][k]` is inside `M`; every write
`submat[index_row - 1][subcol_index]` has its row and its column below `n - 1`;
every cell of the minor is written exactly once; every row of the minor
receives exactly `n - 1` writes; and the filled minor is well-formed, no cell
being left uninitialised. Dropping the record gives the fill loop that
`determinant` runs. -/
theorem minor_index_safety [Zero α] (n c : Nat) (hn : 2 < n) (hc : c < n) (M : Matrix α)
    (hM : M.wellFormed = true) (hrows : M.rows = n) (hcols : M.cols = n)
    (w : World) (submat : Matrix α) (w1 : World)
    (hcreate : create_matrix (M.rows - 1) (M.rows - 1) w = .ok (submat, w1))
    (hdata : submat.data ≠ none) :
    ∃ filled tr, minor_fill_traced M n c submat = .ok (filled, tr) ∧
      for_loop (minor_row M M.rows.toNat c) 1 (M.rows.toNat - 1) submat = .ok filled ∧
      (∀ i j, Access.read i j ∈ tr → i < n ∧ j < n) ∧
      (∀ i j, Access.write i j ∈ tr → i < n - 1 ∧ j < n - 1) ∧
      (∀ i j, i < n - 1 → j < n - 1 → tr.count (Access.write i j) = 1) ∧
      (∀ i, i < n - 1 → (tr.filter (Access.isWriteRow i)).length = n - 1) ∧
      filled.wellFormed = true ∧ filled.rows = ((n - 1 : Nat) : Int) ∧
      filled.cols = ((n - 1 : Nat) : Int) := by
  have e := wellFormed_eq_ofCells M hM
  have hr : M.rows.toNat = n := by omega
  have hc2 : M.cols.toNat = n := by omega
  rw [hr, hc2] at e
  have e1 : M.rows - 1 = ((n - 1 : Nat) : Int) := by omega
  rw [e1] at hcreate
  have hsub := create_matrix_some _ _ (by omega) (by omega) _ _ _ hcreate hdata
  simp only [Int.toNat_ofNat] at hsub
  obtain ⟨tr, hfill, h1, h2, h3, h4⟩ := minor_fill_traced_ofCells n c hc M.get
    (fun _ _ => (none : Option α))
  rw [← e, ← hsub] at hfill
  have herase := minor_fill_traced_erase M n c submat
  rw [hfill] at herase
  refine ⟨_, tr, hfill, ?_, h1, h2, ?_, ?_, ?_, rfl, rfl⟩
  · rw [hr, ← herase]
    rfl
  · intro i j hi hj
    rw [h3 i j]
    simp [hi, hj]
  · intro i hi
    rw [h4 i]
    simp [hi]
  · exact wellFormed_ofCells _ _ (by omega) (by omega) _

/-- Witness of C21 on `[[2, 0, 0], [0, 3, 0], [0, 0, 4]]` and the column `1`. -/
theorem minor_index_safety_witness :
    exD.wellFormed = true ∧
    (create_matrix (exD.rows - 1) (exD.rows - 1) exW : Except Fault (Matrix Int × World)) =
      .ok (⟨2, 2, some [.buf [none, none], .buf [none, none]]⟩, exW) ∧
    ∃ filled tr,
      minor_fill_traced exD 3 1 ⟨2, 2, some [.buf [none, none], .buf [none, none]]⟩ =
        .ok (filled, tr) ∧
      for_loop (minor_row exD exD.rows.toNat 1) 1 (exD.rows.toNat - 1)
        ⟨2, 2, some [.buf [none, none], .buf [none, none]]⟩ = .ok filled ∧
      (∀ i j, Access.read i j ∈ tr → i < 3 ∧ j < 3) ∧
      (∀ i j, Access.write i j ∈ tr → i < 3 - 1 ∧ j < 3 - 1) ∧
      (∀ i j, i < 3 - 1 → j < 3 - 1 → tr.count (Access.write i j) = 1) ∧
      (∀ i, i < 3 - 1 → (tr.filter (Access.isWriteRow i)).length = 3 - 1) ∧
      filled.wellFormed = true ∧ filled.rows = ((3 - 1 : Nat) : Int) ∧
      filled.cols = ((3 - 1 : Nat) : Int) :=
  ⟨by decide, rfl,
    minor_index_safety 3 1 (by decide) (by decide) exD (by decide) rfl rfl exW
      ⟨2, 2, some [.buf [none, none], .buf [none, none]]⟩ exW rfl (by simp)⟩


theorem mul_run_ofCells_full [Ring α] (R K C : Nat) (fa fb : Nat → Nat → α)
    (g : Nat → Nat → Option α) (w : World) :
    multiply_matrices (some (Matrix.ofCells R K fun a b => some (fa a b)))
      (some (Matrix.ofCells K C fun a b => some (fb a b))) (some (Matrix.ofCells R C g)) w =
      .ok (0, some (Matrix.ofCells R C
        (fun a b => some (sum_upto (fun k => fa a k * fb k b) K))), w) := by
  rw [mul_run_ofCells R K C R C (le_refl R) (le_refl C) fa fb g w]
  congr 4
  apply ofCells_congr
  intro i j hi hj
  simp [hi, hj]

theorem transpose_multiply_ofCells [CommRing α] (R K C : Nat) (hR : 0 < R) (hK : 0 < K)
    (hC : 0 < C) (fa fb : Nat → Nat → α) (g1 g2 : Nat → Nat → Option α) (w : World)
    (hw : w.allocOk = true) :
    ∃ P PT BT AT Q w1 w2 w3,
      multiply_matrices (some (Matrix.ofCells R K fun a b => some (fa a b)))
        (some (Matrix.ofCells K C fun a b => some (fb a b))) (some (Matrix.ofCells R C g1)) w =
        .ok (0, some P, w) ∧
      transpose_matrix (some P) w = .ok (PT, w1) ∧
      transpose_matrix (some (Matrix.ofCells K C fun a b => some (fb a b))) w1 = .ok (BT, w2) ∧
      transpose_matrix (some (Matrix.ofCells R K fun a b => some (fa a b))) w2 = .ok (AT, w3) ∧
      multiply_matrices (some BT) (some AT) (some (Matrix.ofCells C R g2)) w3 =
        .ok (0, some Q, w3) ∧
      w3.log = w.log ∧ PT = Q ∧
      PT = Matrix.ofCells C R (fun a b => some (sum_upto (fun k => fa b k * fb k a) K)) := by
  have hw1 := allocOk_drop w hw (C + 1)
  have hw2 := allocOk_drop _ hw1 (C + 1)
  refine ⟨_, _, _, _, _, _, _, _, mul_run_ofCells_full R K C fa fb g1 w,
    transpose_run_ofCells R C hR hC _ w hw,
    transpose_run_ofCells K C hK hC fb _ hw1,
    transpose_run_ofCells R K hR hK fa _ hw2,
    mul_run_ofCells_full C K R (fun a b => fb b a) (fun a b => fa b a) g2 _, rfl, ?_, rfl⟩
  apply ofCells_congr
  intro i j _ _
  congr 1
  apply sum_upto_congr
  intro k _
  exact mul_comm _ _

/-- C22: over a commutative ring, for well-formed `A` (`r × k`) and `B` (`k × c`)
and allocated results of shapes `r × c` and `c × r`, when no allocation fails,
the transpose of the product written by `multiply_matrices (A, B, .)` is the
same matrix, cell for cell, as the product written by
`multiply_matrices (transpose_matrix (B), transpose_matrix (A), .)`; every call
succeeds and nothing is signalled. -/
theorem transpose_multiply [CommRing α] (A B R1 R2 : Matrix α) (hA : A.wellFormed = true)
    (hB : B.wellFormed = true) (hinner : A.cols = B.rows)
    (hR1 : R1.allocated = true) (h1r : R1.rows = A.rows) (h1c : R1.cols = B.cols)
    (hR2 : R2.allocated = true) (h2r : R2.rows = B.cols) (h2c : R2.cols = A.rows)
    (w : World) (hw : w.allocOk = true) :
    ∃ P PT BT AT Q w1 w2 w3,
      multiply_matrices (some A) (some B) (some R1) w = .ok (0, some P, w) ∧
      transpose_matrix (some P) w = .ok (PT, w1) ∧
      transpose_matrix (some B) w1 = .ok (BT, w2) ∧
      transpose_matrix (some A) w2 = .ok (AT, w3) ∧
      multiply_matrices (some BT) (some AT) (some R2) w3 = .ok (0, some Q, w3) ∧
      w3.log = w.log ∧ PT = Q ∧ PT.rows = B.cols ∧ PT.cols = A.rows ∧
      ∀ j i, j < B.cols.toNat → i < A.rows.toNat →
        ∃ v, PT.read j i = .ok v ∧ Q.read j i = .ok v ∧
          v = sum_upto (fun k => A.get i k * B.get k j) A.cols.toNat := by
  obtain ⟨hAr, hAc⟩ := allocated_rows_pos A (wellFormed_allocated A hA)
  obtain ⟨hBr, hBc⟩ := allocated_rows_pos B (wellFormed_allocated B hB)
  have eA := wellFormed_eq_ofCells A hA
  have eB := wellFormed_eq_ofCells B hB
  rw [← hinner] at eB
  have e1 := allocated_eq_ofCells R1 hR1
  have e2 := allocated_eq_ofCells R2 hR2
  rw [h1r, h1c] at e1
  rw [h2r, h2c] at e2
  obtain ⟨P, PT, BT, AT, Q, w1, w2, w3, p1, p2, p3, p4, p5, p6, p7, p8⟩ :=
    transpose_multiply_ofCells A.rows.toNat A.cols.toNat B.cols.toNat (by omega) (by omega)
      (by omega) A.get B.get R1.cell R2.cell w hw
  rw [← eA, ← eB, ← e1] at p1
  rw [← eB] at p3
  rw [← eA] at p4
  rw [← e2] at p5
  refine ⟨P, PT, BT, AT, Q, w1, w2, w3, p1, p2, p3, p4, p5, p6, p7, ?_, ?_, ?_⟩
  · rw [p8]
    exact Int.toNat_of_nonneg (le_of_lt hBc)
  · rw [p8]
    exact Int.toNat_of_nonneg (le_of_lt hAr)
  · intro j i hj hi
    refine ⟨_, ?_, ?_, rfl⟩
    · rw [p8]
      exact read_ofCells _ _ _ j i _ hj hi rfl
    · rw [← p7, p8]
      exact read_ofCells _ _ _ j i _ hj hi rfl

/-- Witness of C22 on the `2 × 3` matrix `[[1, 2, 3], [4, 5, 6]]` and its
transpose-shaped partner `exN`, with `2 × 2` results. -/
theorem transpose_multiply_witness :
    exM.wellFormed = true ∧ exN.wellFormed = true ∧ exR.allocated = true ∧
    exW.allocOk = true ∧
    ∃ P PT BT AT Q w1 w2 w3,
      multiply_matrices (some exM) (some exN) (some exR) exW = .ok (0, some P, exW) ∧
      transpose_matrix (some P) exW = .ok (PT, w1) ∧
      transpose_matrix (some exN) w1 = .ok (BT, w2) ∧
      transpose_matrix (some exM) w2 = .ok (AT, w3) ∧
      multiply_matrices (some BT) (some AT) (some exR) w3 = .ok (0, some Q, w3) ∧
      w3.log = exW.log ∧ PT = Q ∧ PT.rows = exN.cols ∧ PT.cols = exM.rows ∧
      ∀ j i, j < exN.cols.toNat → i < exM.rows.toNat →
        ∃ v, PT.read j i = .ok v ∧ Q.read j i = .ok v ∧
          v = sum_upto (fun k => exM.get i k * exN.get k j) exM.cols.toNat :=
  ⟨by decide, by decide, by decide, by decide,
    transpose_multiply exM exN exR exR (by decide) (by decide) rfl (by decide) rfl rfl
      (by decide) rfl rfl exW (by decide)⟩

end MatrixProject

